import Mathlib

/-!
WatsonTcp (Go): header codec, admission and read-loop dispatch

A shallow embedding of `message/header.go`, `message/message.go`,
`client/client.go` and `server/server.go`.

Bytes are natural numbers (a byte is a value below 256), a Go `string` or
`[]byte` is a `List Nat`, and a Go `int64` is an `Int`.  The standard-library
routines the sources call (`encoding/json`, `unicode/utf8`, `encoding/base64`,
`time`, `net`) are embedded as executable functions that follow their
documented behaviour.
-/

namespace WatsonTcp


/-! ## Errors -/

/-- The error values the embedded functions return. -/
inductive Error where
  /-- `errors.New("msg nil")` of `BuildHeader`. -/
  | msgNil
  /-- `errors.New("reader nil")` of `ParseHeader` and `SendStream`. -/
  | readerNil
  /-- `io.EOF`: the reader had no byte left. -/
  | EOF
  /-- `io.ErrUnexpectedEOF`: the reader ended inside a buffer being filled. -/
  | unexpectedEOF
  /-- `errors.New("null header indicates peer disconnected")`. -/
  | nullHeader
  /-- An error returned by `json.Marshal`. -/
  | jsonMarshal
  /-- A `*json.SyntaxError` returned by `json.Unmarshal`. -/
  | jsonSyntax
  /-- A `*json.UnmarshalTypeError` (or a field decoder's error) returned by `json.Unmarshal`. -/
  | jsonType
  /-- `errors.New("not connected")`. -/
  | notConnected
  /-- A failed `conn.Write` (the connection is closed). -/
  | writeFailed
  /-- `errors.New("already connected")`. -/
  | alreadyConnected
  /-- `errors.New("authentication failed")`. -/
  | authFailed
  /-- `errors.New("registration failed")`. -/
  | registrationFailed
  /-- `errors.New("unknown client")`. -/
  | unknownClient
  /-- The value of `ctx.Err()` of a cancelled context. -/
  | ctxErr
  /-- An error returned by `d.Dial` or by the TLS handshake. -/
  | dialFailed
  /-- The error `os.ErrDeadlineExceeded` of a read that is still waiting when the read
  deadline of the connection expires. -/
  | deadlineExceeded
  /-- A failed `conn.SetReadDeadline` (the connection is closed). -/
  | setDeadlineFailed
  deriving DecidableEq, Repr

/-- Decidable equality of results. -/
instance instDecidableEqExcept {ε α : Type} [DecidableEq ε] [DecidableEq α] :
    DecidableEq (Except ε α)
  | .ok a, .ok b => decidable_of_iff (a = b) ⟨congrArg _, Except.ok.inj⟩
  | .error a, .error b => decidable_of_iff (a = b) ⟨congrArg _, Except.error.inj⟩
  | .ok _, .error _ => isFalse nofun
  | .error _, .ok _ => isFalse nofun

/-! ## unicode/utf8 -/

/-- The replacement rune `utf8.RuneError` (U+FFFD). -/
def RuneError : Nat := 0xFFFD

/-- Continuation-byte test: `locb <= b && b <= hicb`. -/
def isCont (b : Nat) : Bool := decide (0x80 ≤ b) && decide (b ≤ 0xBF)

/-- The lower end of `acceptRanges` for the second byte after the lead byte `p0`. -/
def acceptLo (p0 : Nat) : Nat := if p0 = 0xE0 then 0xA0 else if p0 = 0xF0 then 0x90 else 0x80

/-- The upper end of `acceptRanges` for the second byte after the lead byte `p0`. -/
def acceptHi (p0 : Nat) : Nat := if p0 = 0xED then 0x9F else if p0 = 0xF4 then 0x8F else 0xBF

/-- Model of `utf8.DecodeRune`: the first rune of `p` and its width in bytes; an invalid
or short encoding gives `(RuneError, 1)`, the empty input `(RuneError, 0)`.  The masks
`p0&mask2`, `b&maskx`, ... are written as remainders and the shifts as products. -/
def DecodeRune : List Nat → Nat × Nat
  | [] => (RuneError, 0)
  | p0 :: rest =>
    if p0 < 0x80 then (p0, 1)
    else if p0 < 0xC2 ∨ 0xF5 ≤ p0 then (RuneError, 1)
    else
      match rest with
      | [] => (RuneError, 1)
      | b1 :: rest1 =>
        if b1 < acceptLo p0 ∨ acceptHi p0 < b1 then (RuneError, 1)
        else if p0 < 0xE0 then ((p0 % 32) * 64 + b1 % 64, 2)
        else
          match rest1 with
          | [] => (RuneError, 1)
          | b2 :: rest2 =>
            if isCont b2 = false then (RuneError, 1)
            else if p0 < 0xF0 then ((p0 % 16) * 4096 + (b1 % 64) * 64 + b2 % 64, 3)
            else
              match rest2 with
              | [] => (RuneError, 1)
              | b3 :: _ =>
                if isCont b3 = false then (RuneError, 1)
                else ((p0 % 8) * 262144 + (b1 % 64) * 4096 + (b2 % 64) * 64 + b3 % 64, 4)

/-- Model of `utf8.AppendRune`: the UTF-8 encoding of rune `r`; surrogates and values
above U+10FFFF are written as U+FFFD. -/
def EncodeRune (r : Nat) : List Nat :=
  if r ≤ 0x7F then [r]
  else if r ≤ 0x7FF then [0xC0 + r / 64, 0x80 + r % 64]
  else if 0x10FFFF < r ∨ (0xD800 ≤ r ∧ r ≤ 0xDFFF) then [0xEF, 0xBF, 0xBD]
  else if r ≤ 0xFFFF then [0xE0 + r / 4096, 0x80 + (r / 64) % 64, 0x80 + r % 64]
  else [0xF0 + r / 262144, 0x80 + (r / 4096) % 64, 0x80 + (r / 64) % 64, 0x80 + r % 64]

/-- Model of `utf8.Valid`: every rune of `s` decodes without error.  The second
argument counts the bytes of the current rune still to be skipped. -/
def validUTF8Aux : List Nat → Nat → Bool
  | [], _ => true
  | _ :: rest, skip + 1 => validUTF8Aux rest skip
  | b :: rest, 0 =>
    let r := DecodeRune (b :: rest)
    if r.1 = RuneError ∧ r.2 = 1 then false else validUTF8Aux rest (r.2 - 1)

/-- Model of `utf8.Valid`. -/
def validUTF8 (s : List Nat) : Bool := validUTF8Aux s 0

/-- The string `s` coerced to valid UTF-8 the way `encoding/json` does it: every byte
that does not start a valid encoding is replaced by U+FFFD. -/
def coerceUTF8Aux : List Nat → Nat → List Nat
  | [], _ => []
  | _ :: rest, skip + 1 => coerceUTF8Aux rest skip
  | b :: rest, 0 =>
    let r := DecodeRune (b :: rest)
    EncodeRune r.1 ++ coerceUTF8Aux rest (r.2 - 1)

/-- The string `s` coerced to valid UTF-8. -/
def coerceUTF8 (s : List Nat) : List Nat := coerceUTF8Aux s 0

/-! ## encoding/json: string literals -/

/-- The table `hex = "0123456789abcdef"`. -/
def hexDigit (n : Nat) : Nat := if n < 10 then 0x30 + n else 0x57 + n

/-- The table `htmlSafeSet`: the ASCII bytes written into a JSON string as they are,
i.e. 0x20..0x7F without the quote, the backslash and the three HTML characters. -/
def htmlSafe (b : Nat) : Bool :=
  decide (0x20 ≤ b) && decide (b < 0x80) && decide (b ≠ 0x22) && decide (b ≠ 0x5C) &&
    decide (b ≠ 0x3C) && decide (b ≠ 0x3E) && decide (b ≠ 0x26)

/-- The escape `appendString` writes for an ASCII byte outside `htmlSafeSet`. -/
def escapeByte (b : Nat) : List Nat :=
  if b = 0x5C ∨ b = 0x22 then [0x5C, b]
  else if b = 0x08 then [0x5C, 0x62]
  else if b = 0x0C then [0x5C, 0x66]
  else if b = 0x0A then [0x5C, 0x6E]
  else if b = 0x0D then [0x5C, 0x72]
  else if b = 0x09 then [0x5C, 0x74]
  else [0x5C, 0x75, 0x30, 0x30, hexDigit (b / 16), hexDigit (b % 16)]

/-- One round of the loop of `appendString` at the byte `b` followed by `rest`: the
bytes appended to the output and the number of source bytes consumed. -/
def appendStringStep (b : Nat) (rest : List Nat) : List Nat × Nat :=
  if b < 0x80 then
    (if htmlSafe b then [b] else escapeByte b, 1)
  else
    let r := DecodeRune (b :: rest)
    if r.1 = RuneError ∧ r.2 = 1 then ([0x5C, 0x75, 0x66, 0x66, 0x66, 0x64], 1)
    else if r.1 = 0x2028 ∨ r.1 = 0x2029 then
      ([0x5C, 0x75, 0x32, 0x30, 0x32, hexDigit (r.1 % 16)], r.2)
    else ((b :: rest).take r.2, r.2)

/-- The loop of `appendString` (with `escapeHTML` set, as `json.Marshal` does): the
escaped text of `s`.  The second argument counts source bytes still to be skipped
(the tail of a rune already written). -/
def appendStringBody : List Nat → Nat → List Nat
  | [], _ => []
  | _ :: rest, skip + 1 => appendStringBody rest skip
  | b :: rest, 0 =>
    (appendStringStep b rest).1 ++ appendStringBody rest ((appendStringStep b rest).2 - 1)

/-- Model of `appendString`: the JSON string literal for the Go string `s`. -/
def appendString (s : List Nat) : List Nat :=
  0x22 :: (appendStringBody s 0 ++ [0x22])

/-- The value of a hexadecimal digit, upper or lower case. -/
def hexVal (c : Nat) : Option Nat :=
  if 0x30 ≤ c ∧ c ≤ 0x39 then some (c - 0x30)
  else if 0x61 ≤ c ∧ c ≤ 0x66 then some (c - 0x61 + 10)
  else if 0x41 ≤ c ∧ c ≤ 0x46 then some (c - 0x41 + 10)
  else none

/-- Model of `getu4`: the rune of a `\uXXXX` escape at the start of `s`. -/
def getu4 : List Nat → Option Nat
  | x :: y :: a :: b :: c :: d :: _ =>
    if x = 0x5C ∧ y = 0x75 then
      match hexVal a, hexVal b, hexVal c, hexVal d with
      | some a, some b, some c, some d => some (((a * 16 + b) * 16 + c) * 16 + d)
      | _, _, _, _ => none
    else none
  | _ => none

/-- One round of the loop of `unquoteBytes` at the byte `c` (not a quote) followed by
`rest`: the bytes it writes and the number of literal bytes it consumes; `none` when
the scanner rejects the literal here (a control character or a bad escape). -/
def unquoteStep (c : Nat) (rest : List Nat) : Option (List Nat × Nat) :=
  if c = 0x5C then
    match rest with
    | [] => none
    | e :: _ =>
      if e = 0x22 ∨ e = 0x5C ∨ e = 0x2F then some ([e], 2)
      else if e = 0x62 then some ([0x08], 2)
      else if e = 0x66 then some ([0x0C], 2)
      else if e = 0x6E then some ([0x0A], 2)
      else if e = 0x72 then some ([0x0D], 2)
      else if e = 0x74 then some ([0x09], 2)
      else if e = 0x75 then
        match getu4 (c :: rest) with
        | none => none
        | some rr =>
          if 0xD800 ≤ rr ∧ rr < 0xE000 then
            match getu4 (rest.drop 5) with
            | some rr1 =>
              if rr < 0xDC00 ∧ 0xDC00 ≤ rr1 ∧ rr1 < 0xE000 then
                some (EncodeRune ((rr - 0xD800) * 1024 + (rr1 - 0xDC00) + 0x10000), 12)
              else some (EncodeRune RuneError, 6)
            | none => some (EncodeRune RuneError, 6)
          else some (EncodeRune rr, 6)
      else none
  else if c < 0x20 then none
  else if c < 0x80 then some ([c], 1)
  else some (EncodeRune (DecodeRune (c :: rest)).1, (DecodeRune (c :: rest)).2)

/-- The scanner's walk through a string literal followed by `unquoteBytes`: the input
starts right after the opening quote; the result is the decoded string and the input
after the closing quote.  The second argument counts literal bytes still to be
skipped. -/
def unquoteBody : List Nat → Nat → Option (List Nat × List Nat)
  | [], _ => none
  | _ :: rest, skip + 1 => unquoteBody rest skip
  | c :: rest, 0 =>
    if c = 0x22 then some ([], rest)
    else
      match unquoteStep c rest with
      | none => none
      | some (out, n) =>
        match unquoteBody rest (n - 1) with
        | none => none
        | some (s, r) => some (out ++ s, r)

/-! ## encoding/json: numbers -/

/-- Decimal digit test. -/
def isDigit (c : Nat) : Bool := decide (0x30 ≤ c) && decide (c ≤ 0x39)

/-- The longest run of decimal digits at the start of the input, and what follows it. -/
def spanDigits : List Nat → List Nat × List Nat
  | [] => ([], [])
  | c :: r => if isDigit c then ((c :: (spanDigits r).1), (spanDigits r).2) else ([], c :: r)

/-- The exponent part of a number literal: `e` or `E`, an optional sign, digits. -/
def scanExp (acc s : List Nat) : Option (List Nat × List Nat) :=
  match s with
  | c :: r =>
    if c = 0x65 ∨ c = 0x45 then
      match r with
      | g :: r1 =>
        if g = 0x2B ∨ g = 0x2D then
          if (spanDigits r1).1 = [] then none
          else some (acc ++ c :: g :: (spanDigits r1).1, (spanDigits r1).2)
        else if (spanDigits r).1 = [] then none
        else some (acc ++ c :: (spanDigits r).1, (spanDigits r).2)
      | [] => none
    else some (acc, s)
  | [] => some (acc, [])

/-- The fraction part of a number literal: a dot and at least one digit. -/
def scanFrac (acc s : List Nat) : Option (List Nat × List Nat) :=
  match s with
  | c :: r =>
    if c = 0x2E then
      if (spanDigits r).1 = [] then none
      else scanExp (acc ++ c :: (spanDigits r).1) (spanDigits r).2
    else scanExp acc s
  | [] => some (acc, [])

/-- The integer part of a number literal after the optional minus sign. -/
def scanInt (acc s : List Nat) : Option (List Nat × List Nat) :=
  match s with
  | c :: r =>
    if c = 0x30 then scanFrac (acc ++ [c]) r
    else if isDigit c then scanFrac (acc ++ c :: (spanDigits r).1) (spanDigits r).2
    else none
  | [] => none

/-- The scanner's walk through a number literal: the literal at the start of the input
and what follows it; `none` when the input does not start with a JSON number. -/
def scanNumber (s : List Nat) : Option (List Nat × List Nat) :=
  match s with
  | c :: r => if c = 0x2D then scanInt [c] r else scanInt [] s
  | [] => none

/-- Model of `isValidNumber`: the whole of `lit` is one JSON number literal. -/
def isValidNumber (lit : List Nat) : Bool := decide (scanNumber lit = some (lit, []))

/-- The decimal digits of a natural number; the first argument bounds the recursion. -/
def formatNatAux : Nat → Nat → List Nat
  | 0, _ => []
  | f + 1, n => if n < 10 then [0x30 + n] else formatNatAux f (n / 10) ++ [0x30 + n % 10]

/-- Model of `strconv.FormatUint(n, 10)`. -/
def formatNat (n : Nat) : List Nat := formatNatAux (n + 1) n

/-- Model of `strconv.AppendInt(nil, i, 10)`. -/
def formatInt (i : Int) : List Nat :=
  if i < 0 then 0x2D :: formatNat i.natAbs else formatNat i.natAbs

/-- The value of a non-empty run of decimal digits; `none` on any other input. -/
def parseDigitsAux : List Nat → Nat → Option Nat
  | [], acc => some acc
  | c :: r, acc => if isDigit c then parseDigitsAux r (acc * 10 + (c - 0x30)) else none

/-- The value of a non-empty run of decimal digits. -/
def parseDigits (s : List Nat) : Option Nat :=
  match s with
  | [] => none
  | _ :: _ => parseDigitsAux s 0

/-- Model of `strconv.ParseInt(lit, 10, 64)` on a JSON number literal: the value when
`lit` is an optional minus sign and digits denoting an `int64`, else `none`. -/
def parseInt64 (lit : List Nat) : Option Int :=
  match lit with
  | [] => none
  | c :: r =>
    if c = 0x2D then
      match parseDigits r with
      | some v => if v ≤ 2 ^ 63 then some (-(v : Int)) else none
      | none => none
    else
      match parseDigits lit with
      | some v => if v < 2 ^ 63 then some (v : Int) else none
      | none => none

/-- Model of `strconv.ParseUint(lit, 10, 8)` on a JSON number literal. -/
def parseUint8 (lit : List Nat) : Option Nat :=
  match parseDigits lit with
  | some v => if v < 256 then some v else none
  | none => none

/-! ## strconv: float64 -/

/-- A finite `float64`, by its sign and its magnitude `mant * 2 ^ exp`, where
`mant < 2 ^ 53` and `-1074 ≤ exp ≤ 971`, and `2 ^ 52 ≤ mant` unless `exp = -1074`; zero
has `mant = 0` and `exp = 0`. -/
structure Float64 where
  neg : Bool := false
  mant : Nat := 0
  exp : Int := 0
  deriving DecidableEq, Repr

/-- The quotient `n / d` rounded to the nearest integer, a tie to the even one. -/
def roundHalfEven (n d : Nat) : Nat :=
  if 2 * (n % d) < d then n / d
  else if d < 2 * (n % d) then n / d + 1
  else if n / d % 2 = 0 then n / d else n / d + 1

/-- The quotient `n / d` in units of `2 ^ e`, rounded to the nearest integer. -/
def roundScaled (n d : Nat) (e : Int) : Nat :=
  if 0 ≤ e then roundHalfEven n (d * 2 ^ e.toNat) else roundHalfEven (n * 2 ^ (-e).toNat) d

/-- The number of times `n` can be halved before it is below 2.  The first argument
bounds the recursion. -/
def log2Aux : Nat → Nat → Nat
  | 0, _ => 0
  | f + 1, n => if n < 2 then 0 else log2Aux f (n / 2) + 1

/-- The binary logarithm of `n`, rounded down (zero for zero). -/
def log2 (n : Nat) : Nat := log2Aux n n

/-- The magnitude of the `float64` nearest to `n / d` (a tie to the even mantissa), as
mantissa and exponent: the exponent is the least one from `-1074` on at which the
rounded mantissa is below `2 ^ 53`.  `none` is the overflow: the nearest value would
need an exponent above `971`. -/
def nearestFloat (n d : Nat) : Option (Nat × Int) :=
  if n = 0 then some (0, 0)
  else
    let e0 : Int := max ((log2 n : Int) - (log2 d : Int) - 53) (-1074)
    let e : Int :=
      if roundScaled n d e0 < 2 ^ 53 then e0
      else if roundScaled n d (e0 + 1) < 2 ^ 53 then e0 + 1 else e0 + 2
    if 971 < e then none
    else if roundScaled n d e = 0 then some (0, 0)
    else some (roundScaled n d e, e)

/-- The number of decimal digits of a number. -/
def numDigits (n : Nat) : Nat := (formatNat n).length

/-- The magnitude of the `float64` nearest to `digits * 10 ^ e10`.  A value of more
than 310 digits before the point overflows, and one with more than 330 zeros after the
point is zero, whatever its digits. -/
def decimalToFloat (digits : Nat) (e10 : Int) : Option (Nat × Int) :=
  if digits = 0 then some (0, 0)
  else if 310 < (numDigits digits : Int) + e10 then none
  else if (numDigits digits : Int) + e10 < -330 then some (0, 0)
  else if 0 ≤ e10 then nearestFloat (digits * 10 ^ e10.toNat) 1
  else nearestFloat digits (10 ^ (-e10).toNat)

/-- The parts of a number literal: whether it has a minus sign, the digits of its
integer part and its fraction read as one number, and the power of ten that number is
scaled by. -/
def literalParts (lit : List Nat) : Option (Bool × Nat × Int) :=
  let neg := decide (lit.head? = some 0x2D)
  let s := if neg then lit.drop 1 else lit
  let ip := (spanDigits s).1
  let r1 := (spanDigits s).2
  let fr := if r1.head? = some 0x2E then (spanDigits (r1.drop 1)).1 else []
  let r2 := if r1.head? = some 0x2E then (spanDigits (r1.drop 1)).2 else r1
  match parseDigits (ip ++ fr) with
  | none => none
  | some d =>
    match r2 with
    | [] => some (neg, d, -(fr.length : Int))
    | _ :: r3 =>
      let eneg := decide (r3.head? = some 0x2D)
      let ds := if r3.head? = some 0x2D ∨ r3.head? = some 0x2B then r3.drop 1 else r3
      match parseDigits ds with
      | none => none
      | some x => some (neg, d, (if eneg then -(x : Int) else (x : Int)) - (fr.length : Int))

/-- Model of `strconv.ParseFloat(lit, 64)` on a JSON number literal: the nearest
`float64`; `none` is the range error of a literal that rounds to an infinity.  A literal
too small for a `float64` is a zero without an error. -/
def ParseFloat (lit : List Nat) : Option Float64 :=
  if isValidNumber lit then
    match literalParts lit with
    | none => none
    | some (neg, d, e10) =>
      match decimalToFloat d e10 with
      | none => none
      | some (m, e) => some { neg := neg, mant := m, exp := e }
  else none

/-- The number of zeros between the point and the first digit of `n / d < 1`, plus
one: the least `k` from the fourth argument on with `d ≤ n * 10 ^ k`.  The first
argument bounds the search. -/
def pointBelow : Nat → Nat → Nat → Nat → Nat
  | 0, _, _, k => k
  | f + 1, n, d, k => if d ≤ n * 10 ^ k then k else pointBelow f n d (k + 1)

/-- The position of the decimal point of `n / d > 0`: the `p` with
`10 ^ (p - 1) ≤ n / d < 10 ^ p`. -/
def decimalPoint (n d : Nat) : Int :=
  if d ≤ n then (numDigits (n / d) : Int) else 1 - (pointBelow 400 n d 1 : Int)

/-- The fraction `n / d` times `10 ^ s`, as numerator and denominator. -/
def scale10 (n d : Nat) (s : Int) : Nat × Nat :=
  if 0 ≤ s then (n * 10 ^ s.toNat, d) else (n, d * 10 ^ (-s).toNat)

/-- The search of the shortest decimal that `ParseFloat` reads back as the `float64`
`m * 2 ^ e = n / d`, whose decimal point is at `p`: with `i` digits, the value cut after
`i` digits and the one a unit above it are tried; when both read back, the nearer is
taken.  The result is the digits as a number and the power of ten that scales it.  The
first argument bounds the search: seventeen digits always read back. -/
def shortestAux (m : Nat) (e : Int) (n d : Nat) (p : Int) : Nat → Nat → Nat × Int
  | 0, i => ((scale10 n d ((i : Int) - p)).1 / (scale10 n d ((i : Int) - p)).2, p - i)
  | f + 1, i =>
    let num := (scale10 n d ((i : Int) - p)).1
    let den := (scale10 n d ((i : Int) - p)).2
    let lo := num / den
    let okLo := decide (decimalToFloat lo (p - i) = some (m, e))
    let okHi := decide (decimalToFloat (lo + 1) (p - i) = some (m, e))
    if num % den = 0 then (lo, p - i)
    else if okLo ∧ okHi then (roundHalfEven num den, p - i)
    else if okLo then (lo, p - i)
    else if okHi then (lo + 1, p - i)
    else shortestAux m e n d p f (i + 1)

/-- The number `c * 10 ^ x` without the final zeros of `c`.  The first argument bounds
the recursion. -/
def stripZeros : Nat → Nat → Int → Nat × Int
  | 0, c, x => (c, x)
  | f + 1, c, x => if c ≠ 0 ∧ c % 10 = 0 then stripZeros f (c / 10) (x + 1) else (c, x)

/-- The shortest decimal that reads back as the `float64` of magnitude `m * 2 ^ e`
(`m > 0`), the way `strconv` holds it: the digits `ds` and the position `p` of the
point, the value being `0.ds * 10 ^ p`. -/
def shortest (m : Nat) (e : Int) : List Nat × Int :=
  let n := if 0 ≤ e then m * 2 ^ e.toNat else m
  let d := if 0 ≤ e then 1 else 2 ^ (-e).toNat
  let r := shortestAux m e n d (decimalPoint n d) 17 1
  let s := stripZeros 20 r.1 r.2
  (formatNat s.1, s.2 + (numDigits s.1 : Int))

/-- The format `e` of `strconv.AppendFloat(b, f, 'e', -1, 64)` after the encoder has
cut a leading zero from a two-digit exponent: the first digit, the other digits after a
point, `e`, the sign of the exponent and its digits. -/
def fmtE (ds : List Nat) (p : Int) : List Nat :=
  ds.take 1 ++ (if 1 < ds.length then 0x2E :: ds.drop 1 else []) ++
    0x65 :: (if p - 1 < 0 then 0x2D else 0x2B) :: formatNat (p - 1).natAbs

/-- The format `f` of `strconv.AppendFloat(b, f, 'f', -1, 64)`: the digits before the
point (a zero when there is none), and the point and the digits after it when there are
any. -/
def fmtF (ds : List Nat) (p : Int) : List Nat :=
  (if 0 < p then ds.take p.toNat ++ List.replicate (p.toNat - ds.length) 0x30 else [0x30]) ++
    (if p < (ds.length : Int) then
      0x2E :: (List.replicate (-p).toNat 0x30 ++ ds.drop p.toNat)
     else [])

/-- Whether `m1 * 2 ^ e1 < m2 * 2 ^ e2`. -/
def magLt (m1 : Nat) (e1 : Int) (m2 : Nat) (e2 : Int) : Bool :=
  decide (m1 * 2 ^ (e1 - min e1 e2).toNat < m2 * 2 ^ (e2 - min e1 e2).toNat)

/-- Model of the encoder of `encoding/json` for a finite `float64`: the shortest decimal
that reads back as the value, in the format `f`, or in the format `e` when the
magnitude is not zero and below `1e-6` (the `float64` `4722366482869645 * 2 ^ -72`) or
at least `1e21`. -/
def floatText (x : Float64) : List Nat :=
  (if x.neg then [0x2D] else []) ++
  (if x.mant = 0 then [0x30]
   else if magLt x.mant x.exp 4722366482869645 (-72) ∨
       ¬ magLt x.mant x.exp 1000000000000000000000 0 then
     fmtE (shortest x.mant x.exp).1 (shortest x.mant x.exp).2
   else fmtF (shortest x.mant x.exp).1 (shortest x.mant x.exp).2)

/-! ## encoding/json: values -/

/-- A JSON value.  The same type stands for a Go value held in an `any` (the values of
`Message.Metadata`): such a value is represented by the JSON tree `json.Marshal` writes
for it, a string by its Go bytes, a number by the literal the encoder writes for it (for
a `float64` the text `floatText` gives), a map by its entries in key order.  A number
whose literal is not a JSON number (a NaN or an infinity) is one that `json.Marshal`
rejects. -/
inductive JSON where
  | null : JSON
  | bool (b : Bool) : JSON
  | num (lit : List Nat) : JSON
  | str (s : List Nat) : JSON
  | arr (elems : List JSON) : JSON
  | obj (members : List (List Nat × JSON)) : JSON
  deriving Repr

mutual
/-- Decidable equality of JSON values. -/
def JSON.decEq : (a b : JSON) → Decidable (a = b)
  | .null, .null => isTrue rfl
  | .bool a, .bool b => decidable_of_iff (a = b) ⟨congrArg _, JSON.bool.inj⟩
  | .num a, .num b => decidable_of_iff (a = b) ⟨congrArg _, JSON.num.inj⟩
  | .str a, .str b => decidable_of_iff (a = b) ⟨congrArg _, JSON.str.inj⟩
  | .arr a, .arr b =>
    @decidable_of_iff _ (a = b) ⟨congrArg _, JSON.arr.inj⟩ (JSON.decEqElems a b)
  | .obj a, .obj b =>
    @decidable_of_iff _ (a = b) ⟨congrArg _, JSON.obj.inj⟩ (JSON.decEqMembers a b)
  | .null, .bool _ | .null, .num _ | .null, .str _ | .null, .arr _ | .null, .obj _ =>
    isFalse nofun
  | .bool _, .null | .bool _, .num _ | .bool _, .str _ | .bool _, .arr _ | .bool _, .obj _ =>
    isFalse nofun
  | .num _, .null | .num _, .bool _ | .num _, .str _ | .num _, .arr _ | .num _, .obj _ =>
    isFalse nofun
  | .str _, .null | .str _, .bool _ | .str _, .num _ | .str _, .arr _ | .str _, .obj _ =>
    isFalse nofun
  | .arr _, .null | .arr _, .bool _ | .arr _, .num _ | .arr _, .str _ | .arr _, .obj _ =>
    isFalse nofun
  | .obj _, .null | .obj _, .bool _ | .obj _, .num _ | .obj _, .str _ | .obj _, .arr _ =>
    isFalse nofun
/-- Decidable equality of lists of JSON values. -/
def JSON.decEqElems : (a b : List JSON) → Decidable (a = b)
  | [], [] => isTrue rfl
  | [], _ :: _ => isFalse nofun
  | _ :: _, [] => isFalse nofun
  | x :: xs, y :: ys =>
    @decidable_of_iff _ (x = y ∧ xs = ys)
      ⟨fun h => by rw [h.1, h.2], fun h => by cases h; exact ⟨rfl, rfl⟩⟩
      (@instDecidableAnd _ _ (JSON.decEq x y) (JSON.decEqElems xs ys))
/-- Decidable equality of lists of object members. -/
def JSON.decEqMembers : (a b : List (List Nat × JSON)) → Decidable (a = b)
  | [], [] => isTrue rfl
  | [], _ :: _ => isFalse nofun
  | _ :: _, [] => isFalse nofun
  | (k, x) :: xs, (l, y) :: ys =>
    @decidable_of_iff _ (k = l ∧ x = y ∧ xs = ys)
      ⟨fun h => by rw [h.1, h.2.1, h.2.2], fun h => by cases h; exact ⟨rfl, rfl, rfl⟩⟩
      (@instDecidableAnd _ _ inferInstance
        (@instDecidableAnd _ _ (JSON.decEq x y) (JSON.decEqMembers xs ys)))
end

instance : DecidableEq JSON := JSON.decEq

mutual
/-- The compact text the encoder of `encoding/json` writes for a value: no white space,
strings through `appendString`, numbers as their literal; `none` is the encoder's error
on a number that is not a JSON number. -/
def JSON.render : JSON → Option (List Nat)
  | .null => some [0x6E, 0x75, 0x6C, 0x6C]
  | .bool true => some [0x74, 0x72, 0x75, 0x65]
  | .bool false => some [0x66, 0x61, 0x6C, 0x73, 0x65]
  | .num lit => if isValidNumber lit then some lit else none
  | .str s => some (appendString s)
  | .arr [] => some [0x5B, 0x5D]
  | .arr (x :: xs) =>
    match x.render, JSON.renderElems xs with
    | some a, some b => some (0x5B :: (a ++ b))
    | _, _ => none
  | .obj [] => some [0x7B, 0x7D]
  | .obj ((k, x) :: ms) =>
    match x.render, JSON.renderMembers ms with
    | some a, some b => some (0x7B :: (appendString k ++ 0x3A :: (a ++ b)))
    | _, _ => none
/-- The text of the elements after the first, each preceded by a comma, and the closing
bracket. -/
def JSON.renderElems : List JSON → Option (List Nat)
  | [] => some [0x5D]
  | x :: xs =>
    match x.render, JSON.renderElems xs with
    | some a, some b => some (0x2C :: (a ++ b))
    | _, _ => none
/-- The text of the members after the first, each preceded by a comma, and the closing
brace. -/
def JSON.renderMembers : List (List Nat × JSON) → Option (List Nat)
  | [] => some [0x7D]
  | (k, x) :: ms =>
    match x.render, JSON.renderMembers ms with
    | some a, some b => some (0x2C :: (appendString k ++ 0x3A :: (a ++ b)))
    | _, _ => none
end

/-- The scanner's `isSpace`: space, tab, carriage return, line feed. -/
def isSpace (c : Nat) : Bool := decide (c = 0x20) || decide (c = 0x09) || decide (c = 0x0D) || decide (c = 0x0A)

/-- The input without its leading white space. -/
def skipWS : List Nat → List Nat
  | [] => []
  | c :: r => if isSpace c then skipWS r else c :: r

/-- The scanner's `maxNestingDepth`: the number of arrays and objects that may be open
at one point of the text. -/
def maxNestingDepth : Nat := 10000

mutual
/-- The decoder's walk over one JSON value at the start of the input (after optional
white space): the value and the input that follows it, `none` on a syntax error.  The
first argument bounds the recursion; one more than the length of the input is always
enough.  The second argument is the number of arrays and objects open around the
value: opening one more than `maxNestingDepth` is the scanner's error
`exceeded max depth`. -/
def parseValue : Nat → Nat → List Nat → Option (JSON × List Nat)
  | 0, _, _ => none
  | f + 1, depth, s =>
    match skipWS s with
    | [] => none
    | c :: r =>
      if c = 0x7B then
        if maxNestingDepth < depth + 1 then none
        else
          match skipWS r with
          | [] => none
          | d :: r1 =>
            if d = 0x7D then some (.obj [], r1)
            else
              match parseMember f (depth + 1) (d :: r1) with
              | none => none
              | some (kv, r2) =>
                match parseMembers f (depth + 1) r2 with
                | none => none
                | some (ms, r3) => some (.obj (kv :: ms), r3)
      else if c = 0x5B then
        if maxNestingDepth < depth + 1 then none
        else
          match skipWS r with
          | [] => none
          | d :: r1 =>
            if d = 0x5D then some (.arr [], r1)
            else
              match parseValue f (depth + 1) (d :: r1) with
              | none => none
              | some (v, r2) =>
                match parseElems f (depth + 1) r2 with
                | none => none
                | some (vs, r3) => some (.arr (v :: vs), r3)
      else if c = 0x22 then
        match unquoteBody r 0 with
        | none => none
        | some (str, r1) => some (.str str, r1)
      else if c = 0x74 then
        if r.take 3 = [0x72, 0x75, 0x65] then some (.bool true, r.drop 3) else none
      else if c = 0x66 then
        if r.take 4 = [0x61, 0x6C, 0x73, 0x65] then some (.bool false, r.drop 4) else none
      else if c = 0x6E then
        if r.take 3 = [0x75, 0x6C, 0x6C] then some (.null, r.drop 3) else none
      else
        match scanNumber (c :: r) with
        | none => none
        | some (lit, r1) => some (.num lit, r1)
termination_by structural f => f
/-- The rest of an array after a value: a closing bracket, or a comma, a value and the
rest.  The second argument counts the array itself. -/
def parseElems : Nat → Nat → List Nat → Option (List JSON × List Nat)
  | 0, _, _ => none
  | f + 1, depth, s =>
    match skipWS s with
    | [] => none
    | c :: r =>
      if c = 0x5D then some ([], r)
      else if c = 0x2C then
        match parseValue f depth r with
        | none => none
        | some (v, r1) =>
          match parseElems f depth r1 with
          | none => none
          | some (vs, r2) => some (v :: vs, r2)
      else none
termination_by structural f => f
/-- One object member: a string key, a colon, a value.  The second argument counts the
object itself. -/
def parseMember : Nat → Nat → List Nat → Option ((List Nat × JSON) × List Nat)
  | 0, _, _ => none
  | f + 1, depth, s =>
    match skipWS s with
    | [] => none
    | c :: r =>
      if c = 0x22 then
        match unquoteBody r 0 with
        | none => none
        | some (k, r1) =>
          match skipWS r1 with
          | [] => none
          | d :: r2 =>
            if d = 0x3A then
              match parseValue f depth r2 with
              | none => none
              | some (v, r3) => some ((k, v), r3)
            else none
      else none
termination_by structural f => f
/-- The rest of an object after a member: a closing brace, or a comma, a member and the
rest.  The second argument counts the object itself. -/
def parseMembers : Nat → Nat → List Nat → Option (List (List Nat × JSON) × List Nat)
  | 0, _, _ => none
  | f + 1, depth, s =>
    match skipWS s with
    | [] => none
    | c :: r =>
      if c = 0x7D then some ([], r)
      else if c = 0x2C then
        match parseMember f depth r with
        | none => none
        | some (kv, r1) =>
          match parseMembers f depth r1 with
          | none => none
          | some (ms, r2) => some (kv :: ms, r2)
      else none
termination_by structural f => f
end

/-- Model of `checkValid` followed by the decoder's scan: the JSON value that `data`
holds (white space around it allowed), `none` when `data` is not exactly one JSON
value or nests arrays and objects deeper than `maxNestingDepth`. -/
def parseJSON (data : List Nat) : Option JSON :=
  match parseValue (data.length + 1) 0 data with
  | none => none
  | some (v, r) => if skipWS r = [] then some v else none

/-! ## encoding/base64 -/

/-- The alphabet of `base64.StdEncoding`. -/
def b64Char (n : Nat) : Nat :=
  if n < 26 then 0x41 + n
  else if n < 52 then 0x61 + (n - 26)
  else if n < 62 then 0x30 + (n - 52)
  else if n = 62 then 0x2B
  else 0x2F

/-- Model of `base64.StdEncoding.EncodeToString`. -/
def b64Encode : List Nat → List Nat
  | a :: b :: c :: rest =>
    b64Char (a / 4) :: b64Char (a % 4 * 16 + b / 16) :: b64Char (b % 16 * 4 + c / 64) ::
      b64Char (c % 64) :: b64Encode rest
  | [a, b] => [b64Char (a / 4), b64Char (a % 4 * 16 + b / 16), b64Char (b % 16 * 4), 0x3D]
  | [a] => [b64Char (a / 4), b64Char (a % 4 * 16), 0x3D, 0x3D]
  | [] => []

/-- The six-bit value of a character of the standard alphabet. -/
def b64Val (c : Nat) : Option Nat :=
  if 0x41 ≤ c ∧ c ≤ 0x5A then some (c - 0x41)
  else if 0x61 ≤ c ∧ c ≤ 0x7A then some (c - 0x61 + 26)
  else if 0x30 ≤ c ∧ c ≤ 0x39 then some (c - 0x30 + 52)
  else if c = 0x2B then some 62
  else if c = 0x2F then some 63
  else none

/-- The decoding of padded quanta of four characters. -/
def b64DecodeQuanta : List Nat → Option (List Nat)
  | [] => some []
  | a :: b :: c :: d :: rest =>
    match b64Val a, b64Val b with
    | some x, some y =>
      if c = 0x3D then
        if d = 0x3D ∧ rest = [] then some [x * 4 + y / 16] else none
      else
        match b64Val c with
        | none => none
        | some z =>
          if d = 0x3D then
            if rest = [] then some [x * 4 + y / 16, y % 16 * 16 + z / 4] else none
          else
            match b64Val d, b64DecodeQuanta rest with
            | some w, some tl => some ((x * 4 + y / 16) :: (y % 16 * 16 + z / 4) :: (z % 4 * 64 + w) :: tl)
            | _, _ => none
    | _, _ => none
  | _ => none

/-- Model of `base64.StdEncoding.Decode`: carriage returns and line feeds are ignored,
the rest is padded quanta of the standard alphabet. -/
def b64Decode (s : List Nat) : Option (List Nat) :=
  b64DecodeQuanta (s.filter (fun c => decide (c ≠ 0x0D) && decide (c ≠ 0x0A)))

/-! ## time -/

/-- A `time.Time`, by the civil date and clock it shows in its own zone and the offset
of that zone east of UTC in seconds.  The monotonic clock reading and the name of the
location are not modelled. -/
structure Time where
  year : Int := 1
  month : Nat := 1
  day : Nat := 1
  hour : Nat := 0
  minute : Nat := 0
  second : Nat := 0
  nano : Nat := 0
  offset : Int := 0
  deriving DecidableEq, Repr

/-- Model of `isLeap`. -/
def isLeap (y : Nat) : Bool := decide (y % 4 = 0) && (decide (y % 100 ≠ 0) || decide (y % 400 = 0))

/-- Model of `daysIn`. -/
def daysIn (m y : Nat) : Nat :=
  if m = 2 then (if isLeap y then 29 else 28)
  else if m = 4 ∨ m = 6 ∨ m = 9 ∨ m = 11 then 30
  else 31

/-- The invariant of a `time.Time`: the fields form a date and a clock reading. -/
def Time.wf (t : Time) : Prop :=
  1 ≤ t.month ∧ t.month ≤ 12 ∧ 1 ≤ t.day ∧ t.day ≤ daysIn t.month t.year.toNat ∧
    t.hour ≤ 23 ∧ t.minute ≤ 59 ∧ t.second ≤ 59 ∧ t.nano < 1000000000

instance (t : Time) : Decidable t.wf :=
  inferInstanceAs (Decidable (1 ≤ t.month ∧ t.month ≤ 12 ∧ 1 ≤ t.day ∧
    t.day ≤ daysIn t.month t.year.toNat ∧ t.hour ≤ 23 ∧ t.minute ≤ 59 ∧ t.second ≤ 59 ∧
    t.nano < 1000000000))

/-- Model of `appendInt(b, n, width)` for a value of at most `width` digits: the last
`width` decimal digits of `n`, zero padded. -/
def digitsFixed : Nat → Nat → List Nat
  | 0, _ => []
  | w + 1, n => digitsFixed w (n / 10) ++ [0x30 + n % 10]

/-- The digits without the trailing zeros. -/
def trimZeros (l : List Nat) : List Nat := (l.reverse.dropWhile (fun c => decide (c = 0x30))).reverse

/-- Model of `Time.MarshalJSON`, without the quotes: the `RFC3339Nano` text of `t`;
`none` when the year is outside 0..9999 or the hour of the zone offset above 23.  The
zone is the offset in whole minutes, cut toward zero, with a minus sign when that is
negative. -/
def Time.format (t : Time) : Option (List Nat) :=
  if t.year < 0 ∨ 9999 < t.year then none
  else
    let date := digitsFixed 4 t.year.toNat ++ 0x2D :: digitsFixed 2 t.month ++
      0x2D :: digitsFixed 2 t.day
    let clock := digitsFixed 2 t.hour ++ 0x3A :: digitsFixed 2 t.minute ++
      0x3A :: digitsFixed 2 t.second
    let frac := if t.nano = 0 then [] else 0x2E :: trimZeros (digitsFixed 9 t.nano)
    if t.offset = 0 then some (date ++ 0x54 :: clock ++ frac ++ [0x5A])
    else
      let zone := t.offset.natAbs / 60
      if 24 ≤ zone / 60 then none
      else some (date ++ 0x54 :: clock ++ frac ++
        (if t.offset ≤ -60 then 0x2D else 0x2B) :: digitsFixed 2 (zone / 60) ++
          0x3A :: digitsFixed 2 (zone % 60))

/-- The helper `parseUint` of `parseRFC3339`: the digits `s` as a number within
`lo..hi`. -/
def parseUintRange (s : List Nat) (lo hi : Nat) : Option Nat :=
  match parseDigits s with
  | some x => if lo ≤ x ∧ x ≤ hi then some x else none
  | none => none

/-- Model of `parseNanoseconds` on the digits after the dot: at most nine are used,
scaled to nanoseconds. -/
def parseNanos (ds : List Nat) : Nat :=
  match parseDigits (ds.take 9) with
  | some x => x * 10 ^ (9 - (ds.take 9).length)
  | none => 0

/-- The zone of an RFC 3339 text: `Z`, or a sign, two digits, a colon, two digits. -/
def parseZone (s : List Nat) : Option Int :=
  if s = [0x5A] then some 0
  else
    match s with
    | [g, h1, h2, c, m1, m2] =>
      match parseUintRange [h1, h2] 0 23, parseUintRange [m1, m2] 0 59 with
      | some hr, some mm =>
        if (g = 0x2D ∨ g = 0x2B) ∧ c = 0x3A then
          some (if g = 0x2D then -(((hr * 60 + mm) * 60 : Nat) : Int) else (((hr * 60 + mm) * 60 : Nat) : Int))
        else none
      | _, _ => none
    | _ => none

/-- The fraction of a second in an RFC 3339 text: when the input starts with a dot and
a digit, the digits after the dot and what follows them. -/
def splitFrac : List Nat → List Nat × List Nat
  | [] => ([], [])
  | c :: r => if c = 0x2E ∧ (spanDigits r).1 ≠ [] then spanDigits r else ([], c :: r)

/-- Model of `parseRFC3339`, the parser `Time.UnmarshalJSON` applies to the text between
the quotes.  Two things are not modelled.  On a text this parser rejects,
`Time.UnmarshalJSON` makes a second, more lenient attempt through `time.Parse`, which
also takes an hour of one digit, a comma before the fraction and a zone hour of 24: such
a text is an error here.  And `Time.UnmarshalJSON` is handed the string literal as
written, so it rejects one that holds an escape, whereas here the text the literal
denotes is parsed.  Neither case arises for a text `Time.format` writes. -/
def parseRFC3339 (s : List Nat) : Option Time :=
  match s with
  | y1 :: y2 :: y3 :: y4 :: c1 :: m1 :: m2 :: c2 :: d1 :: d2 :: c3 :: h1 :: h2 :: c4 ::
      n1 :: n2 :: c5 :: s1 :: s2 :: rest =>
    match parseUintRange [y1, y2, y3, y4] 0 9999, parseUintRange [m1, m2] 1 12 with
    | some year, some month =>
      match parseUintRange [d1, d2] 1 (daysIn month year), parseUintRange [h1, h2] 0 23,
        parseUintRange [n1, n2] 0 59, parseUintRange [s1, s2] 0 59 with
      | some day, some hour, some minute, some second =>
        if c1 = 0x2D ∧ c2 = 0x2D ∧ c3 = 0x54 ∧ c4 = 0x3A ∧ c5 = 0x3A then
          match parseZone (splitFrac rest).2 with
          | some off =>
            some { year := (year : Int), month := month, day := day, hour := hour,
                   minute := minute, second := second,
                   nano := if (splitFrac rest).1 = [] then 0 else parseNanos (splitFrac rest).1,
                   offset := off }
          | none => none
        else none
      | _, _, _, _ => none
    | _, _ => none
  | _ => none

/-! ## message/message.go -/

/-- The struct `Message`.  `PresharedKey` and `Metadata` do not tell a nil value from
an empty one. -/
structure Message where
  ContentLength : Int := 0
  PresharedKey : List Nat := []
  Status : List Nat := []
  Metadata : List (List Nat × JSON) := []
  SyncRequest : Bool := false
  SyncResponse : Bool := false
  TimestampUtc : Time := {}
  ExpirationUtc : Option Time := none
  ConversationGUID : List Nat := []
  SenderGUID : List Nat := []
  deriving DecidableEq, Repr

/-- The status constants. -/
def StatusNormal : List Nat := [0x4E, 0x6F, 0x72, 0x6D, 0x61, 0x6C]
/-- The constant `"AuthRequested"`. -/
def StatusAuthRequested : List Nat :=
  [0x41, 0x75, 0x74, 0x68, 0x52, 0x65, 0x71, 0x75, 0x65, 0x73, 0x74, 0x65, 0x64]
/-- The constant `"AuthSuccess"`. -/
def StatusAuthSuccess : List Nat :=
  [0x41, 0x75, 0x74, 0x68, 0x53, 0x75, 0x63, 0x63, 0x65, 0x73, 0x73]
/-- The constant `"AuthFailure"`. -/
def StatusAuthFailure : List Nat :=
  [0x41, 0x75, 0x74, 0x68, 0x46, 0x61, 0x69, 0x6C, 0x75, 0x72, 0x65]
/-- The constant `"RegisterClient"`. -/
def StatusRegisterClient : List Nat :=
  [0x52, 0x65, 0x67, 0x69, 0x73, 0x74, 0x65, 0x72, 0x43, 0x6C, 0x69, 0x65, 0x6E, 0x74]

/-- The JSON names of the struct tags: `len`, `psk`, `status`, `md`, `syncreq`,
`syncresp`, `ts`, `exp`, `convguid`. -/
def keyLen : List Nat := [0x6C, 0x65, 0x6E]
/-- The name `psk`. -/
def keyPsk : List Nat := [0x70, 0x73, 0x6B]
/-- The name `status`. -/
def keyStatus : List Nat := [0x73, 0x74, 0x61, 0x74, 0x75, 0x73]
/-- The name `md`. -/
def keyMd : List Nat := [0x6D, 0x64]
/-- The name `syncreq`. -/
def keySyncreq : List Nat := [0x73, 0x79, 0x6E, 0x63, 0x72, 0x65, 0x71]
/-- The name `syncresp`. -/
def keySyncresp : List Nat := [0x73, 0x79, 0x6E, 0x63, 0x72, 0x65, 0x73, 0x70]
/-- The name `ts`. -/
def keyTs : List Nat := [0x74, 0x73]
/-- The name `exp`. -/
def keyExp : List Nat := [0x65, 0x78, 0x70]
/-- The name `convguid`. -/
def keyConvguid : List Nat := [0x63, 0x6F, 0x6E, 0x76, 0x67, 0x75, 0x69, 0x64]

/-- The member written for `ExpirationUtc` (tag `exp,omitempty`): none for a nil
pointer.  `none` when the time cannot be written. -/
def expMember : Option Time → Option (List (List Nat × JSON))
  | none => some []
  | some t => (t.format).map (fun x => [(keyExp, JSON.str x)])

/-- The JSON object `json.Marshal` builds from a `Message`, field by field in the order
of the struct: the `omitempty` fields `psk`, `md` and `exp` are left out when empty,
`SenderGUID` (tag `json:"-"`) is never written.  `none` when a timestamp cannot be
written. -/
def Message.toJSON (m : Message) : Option JSON :=
  match m.TimestampUtc.format with
  | none => none
  | some ts =>
    match expMember m.ExpirationUtc with
    | none => none
    | some exp =>
      some (.obj (
        (keyLen, .num (formatInt m.ContentLength)) ::
        ((if m.PresharedKey = [] then [] else [(keyPsk, .str (b64Encode m.PresharedKey))]) ++
        ((keyStatus, .str m.Status) ::
        ((if m.Metadata = [] then [] else [(keyMd, .obj m.Metadata)]) ++
        ((keySyncreq, .bool m.SyncRequest) ::
        (keySyncresp, .bool m.SyncResponse) ::
        (keyTs, .str ts) ::
        (exp ++ [(keyConvguid, .str m.ConversationGUID)])))))))

/-- Model of `json.Marshal(msg)` for a `*Message`. -/
def Marshal (m : Message) : Option (List Nat) :=
  match m.toJSON with
  | none => none
  | some j => j.render

/-- ASCII lower case of a byte. -/
def lowerByte (c : Nat) : Nat := if 0x41 ≤ c ∧ c ≤ 0x5A then c + 0x20 else c

/-- The decoder's match of an object key with a field name: equal, or equal up to ASCII
case.  (The two non-ASCII letters that Unicode folds onto `k` and `s` are not
modelled.) -/
def keyIs (key name : List Nat) : Bool := decide (key.map lowerByte = name)

/-- The decoder's store of a JSON array into a `[]byte`: every element a number that
fits a byte (a `null` element stays zero). -/
def decodeByteArray : List JSON → Option (List Nat)
  | [] => some []
  | x :: xs =>
    match (match x with
           | .num lit => parseUint8 lit
           | .null => some 0
           | _ => none), decodeByteArray xs with
    | some b, some bs => some (b :: bs)
    | _, _ => none

/-- The decoder's store of one map entry: the value of an existing key is replaced. -/
def insertKV (k : List Nat) (v : JSON) : List (List Nat × JSON) → List (List Nat × JSON)
  | [] => [(k, v)]
  | (k1, v1) :: rest => if k1 = k then (k, v) :: rest else (k1, v1) :: insertKV k v rest

mutual
/-- The decoder's store of a JSON value into an `any` (`valueInterface`): `null`, a
`bool` and a `string` as they are, a number as the `float64` that `strconv.ParseFloat`
gives for its literal, an array as a `[]any`, an object as a `map[string]any` in which
a later member replaces an earlier one of the same key.  `none` is the error the
decoder saves for a number outside the range of `float64` and returns at the end. -/
def JSON.toAny : JSON → Option JSON
  | .null => some .null
  | .bool b => some (.bool b)
  | .num lit => (ParseFloat lit).map (fun x => .num (floatText x))
  | .str s => some (.str s)
  | .arr xs => (JSON.toAnyElems xs).map (fun l => .arr l)
  | .obj ms =>
    (JSON.toAnyMembers ms).map
      (fun l => .obj (l.foldl (fun acc kv => insertKV kv.1 kv.2 acc) []))
/-- The elements stored. -/
def JSON.toAnyElems : List JSON → Option (List JSON)
  | [] => some []
  | x :: xs =>
    match x.toAny, JSON.toAnyElems xs with
    | some a, some l => some (a :: l)
    | _, _ => none
/-- The values of the members stored, each with its key. -/
def JSON.toAnyMembers : List (List Nat × JSON) → Option (List (List Nat × JSON))
  | [] => some []
  | (k, x) :: ms =>
    match x.toAny, JSON.toAnyMembers ms with
    | some a, some l => some ((k, a) :: l)
    | _, _ => none
end

/-- The decoder's store of one object member into the struct: the member `key: v` is
matched with a field and stored there, a member that matches no field is skipped, a
`null` leaves a scalar field as it is, and a value of the wrong kind is an error.  The
members of `md` are stored into the map `Metadata` as `any` values, so a number among
them that is outside the range of `float64` is an error. -/
def setField (m : Message) (key : List Nat) (v : JSON) : Option Message :=
  if keyIs key keyLen then
    match v with
    | .null => some m
    | .num lit => (parseInt64 lit).map (fun n => { m with ContentLength := n })
    | _ => none
  else if keyIs key keyPsk then
    match v with
    | .null => some { m with PresharedKey := [] }
    | .str s => (b64Decode s).map (fun b => { m with PresharedKey := b })
    | .arr xs => (decodeByteArray xs).map (fun b => { m with PresharedKey := b })
    | _ => none
  else if keyIs key keyStatus then
    match v with
    | .null => some m
    | .str s => some { m with Status := s }
    | _ => none
  else if keyIs key keyMd then
    match v with
    | .null => some { m with Metadata := [] }
    | .obj ms =>
      (JSON.toAnyMembers ms).map
        (fun l => { m with Metadata := l.foldl (fun acc kv => insertKV kv.1 kv.2 acc) m.Metadata })
    | _ => none
  else if keyIs key keySyncreq then
    match v with
    | .null => some m
    | .bool b => some { m with SyncRequest := b }
    | _ => none
  else if keyIs key keySyncresp then
    match v with
    | .null => some m
    | .bool b => some { m with SyncResponse := b }
    | _ => none
  else if keyIs key keyTs then
    match v with
    | .null => some m
    | .str s => (parseRFC3339 s).map (fun t => { m with TimestampUtc := t })
    | _ => none
  else if keyIs key keyExp then
    match v with
    | .null => some { m with ExpirationUtc := none }
    | .str s => (parseRFC3339 s).map (fun t => { m with ExpirationUtc := some t })
    | _ => none
  else if keyIs key keyConvguid then
    match v with
    | .null => some m
    | .str s => some { m with ConversationGUID := s }
    | _ => none
  else some m

/-- The decoder's walk over the members of the object, in order. -/
def setFields : Message → List (List Nat × JSON) → Option Message
  | m, [] => some m
  | m, (k, v) :: rest =>
    match setField m k v with
    | none => none
    | some m1 => setFields m1 rest

/-- Model of `json.Unmarshal(data, &msg)` into a zero `Message`: a syntax error when
`data` is not one JSON value; an object is stored member by member, `null` stores
nothing, any other value is a type error. -/
def Unmarshal (data : List Nat) : Except Error Message :=
  match parseJSON data with
  | none => .error .jsonSyntax
  | some (.obj ms) =>
    match setFields {} ms with
    | some m => .ok m
    | none => .error .jsonType
  | some .null => .ok {}
  | some _ => .error .jsonType

/-! ## message/header.go -/

/-- The header terminator `\r\n\r\n`. -/
def terminator : List Nat := [0x0D, 0x0A, 0x0D, 0x0A]

/-- `BuildHeader`: the JSON text of the message followed by `\r\n\r\n`; an error on a
nil message and when `json.Marshal` fails. -/
def BuildHeader (msg : Option Message) : Except Error (List Nat) :=
  match msg with
  | none => .error .msgNil
  | some m =>
    match Marshal m with
    | none => .error .jsonMarshal
    | some data => .ok (data ++ [0x0D, 0x0A, 0x0D, 0x0A])

/-- The read loop of `ParseHeader`: `header` holds the bytes read so far, `r` the bytes
the reader still has.  Each round reads one byte (`io.ReadFull` into a buffer of one
byte gives `io.EOF` when none is left), appends it and looks at the last four bytes:
four zero bytes are the null-header error, the terminator ends the loop.  The result
is the header read, terminator included, and the bytes left in the reader. -/
def readHeader : List Nat → List Nat → Except Error (List Nat) × List Nat
  | _, [] => (.error .EOF, [])
  | header, b :: r =>
    if 4 ≤ (header ++ [b]).length then
      if (header ++ [b]).drop ((header ++ [b]).length - 4) = [0, 0, 0, 0] then
        (.error .nullHeader, r)
      else if (header ++ [b]).drop ((header ++ [b]).length - 4) = [0x0D, 0x0A, 0x0D, 0x0A] then
        (.ok (header ++ [b]), r)
      else readHeader (header ++ [b]) r
    else readHeader (header ++ [b]) r

/-- `ParseHeader`: reads from `r` up to `\r\n\r\n` and unmarshals what precedes the
terminator.  A reader is the list of the bytes it will deliver before end of stream,
`none` is the nil reader.  The result is the message or the error, and the bytes the
reader has left. -/
def ParseHeader (r : Option (List Nat)) : Except Error Message × List Nat :=
  match r with
  | none => (.error .readerNil, [])
  | some input =>
    match readHeader [] input with
    | (.error e, rest) => (.error e, rest)
    | (.ok header, rest) => (Unmarshal (header.take (header.length - 4)), rest)

/-! ## net: addresses and networks -/

/-- The bytes of an IPv4 address in the 16-byte form `net.ParseIP` returns
(`v4InV6Prefix` followed by the four bytes). -/
def v4InV6Prefix : List Nat := [0, 0, 0, 0, 0, 0, 0, 0, 0, 0, 0xFF, 0xFF]

/-- The loop of `parseIPv4Fields` over dotted decimal text: `val` is the value of the
current field, `digLen` its number of digits, `fields` the fields completed so far.  A
field has no leading zero and is at most 255; a dot needs a digit before it and a
character after it; there are exactly four fields. -/
def parseIPv4Fields : List Nat → Nat → Nat → List Nat → Option (List Nat)
  | [], val, _, fields => if fields.length < 3 then none else some (fields ++ [val])
  | c :: r, val, digLen, fields =>
    if isDigit c then
      if digLen = 1 ∧ val = 0 then none
      else if 255 < val * 10 + (c - 0x30) then none
      else parseIPv4Fields r (val * 10 + (c - 0x30)) (digLen + 1) fields
    else if c = 0x2E then
      if digLen = 0 ∨ r = [] then none
      else if fields.length = 3 then none
      else parseIPv4Fields r 0 0 (fields ++ [val])
    else none

/-- Model of `parseIPv4`: the four bytes of a dotted decimal address. -/
def parseIPv4 (s : List Nat) : Option (List Nat) := parseIPv4Fields s 0 0 []

/-- The longest run of hexadecimal digits at the start of the input, as digit values,
and what follows it. -/
def spanHex : List Nat → List Nat × List Nat
  | [] => ([], [])
  | c :: r =>
    match hexVal c with
    | some v => (v :: (spanHex r).1, (spanHex r).2)
    | none => ([], c :: r)

/-- The loop of `parseIPv6` over the groups of an address: `ip` holds the bytes written
so far, `ellipsis` the position of `::` when one was seen, `s` the text left.  The
first argument bounds the number of groups.  The result is the bytes, the position of
the ellipsis and the text left over. -/
def parseIPv6Groups : Nat → List Nat → Option Nat → List Nat →
    Option (List Nat × Option Nat × List Nat)
  | 0, ip, ellipsis, s => some (ip, ellipsis, s)
  | fuel + 1, ip, ellipsis, s =>
    if 16 ≤ ip.length then some (ip, ellipsis, s)
    else if (spanHex s).1 = [] ∨ 4 < (spanHex s).1.length then none
    else
      match (spanHex s).2 with
      | [] =>
        some (ip ++ [((spanHex s).1.foldl (fun a d => a * 16 + d) 0) / 256,
                     ((spanHex s).1.foldl (fun a d => a * 16 + d) 0) % 256], ellipsis, [])
      | c :: r =>
        if c = 0x2E then
          if (ellipsis = none ∧ ip.length ≠ 12) ∨ 16 < ip.length + 4 then none
          else
            match parseIPv4 s with
            | some v4 => some (ip ++ v4, ellipsis, [])
            | none => none
        else if c ≠ 0x3A then none
        else
          match r with
          | [] => none
          | d :: r1 =>
            if d = 0x3A then
              if ellipsis ≠ none then none
              else if r1 = [] then
                some (ip ++ [((spanHex s).1.foldl (fun a d => a * 16 + d) 0) / 256,
                             ((spanHex s).1.foldl (fun a d => a * 16 + d) 0) % 256],
                      some (ip.length + 2), [])
              else
                parseIPv6Groups fuel
                  (ip ++ [((spanHex s).1.foldl (fun a d => a * 16 + d) 0) / 256,
                          ((spanHex s).1.foldl (fun a d => a * 16 + d) 0) % 256])
                  (some (ip.length + 2)) r1
            else
              parseIPv6Groups fuel
                (ip ++ [((spanHex s).1.foldl (fun a d => a * 16 + d) 0) / 256,
                        ((spanHex s).1.foldl (fun a d => a * 16 + d) 0) % 256])
                ellipsis (d :: r1)

/-- The end of `parseIPv6`: the whole text must be used; a short address is filled
with zero bytes at the ellipsis, a full one must have no ellipsis. -/
def finishIPv6 (res : List Nat × Option Nat × List Nat) : Option (List Nat) :=
  if res.2.2 ≠ [] then none
  else if res.1.length < 16 then
    match res.2.1 with
    | none => none
    | some e => some (res.1.take e ++ List.replicate (16 - res.1.length) 0 ++ res.1.drop e)
  else if res.2.1 ≠ none then none
  else some res.1

/-- Model of `parseIPv6` for a text without a zone: the sixteen bytes of the address. -/
def parseIPv6 (s : List Nat) : Option (List Nat) :=
  match s with
  | [] => none
  | [_] =>
    match parseIPv6Groups 9 [] none s with
    | some res => finishIPv6 res
    | none => none
  | c :: d :: r =>
    if c = 0x3A ∧ d = 0x3A then
      if r = [] then some (List.replicate 16 0)
      else
        match parseIPv6Groups 9 [] (some 0) r with
        | some res => finishIPv6 res
        | none => none
    else
      match parseIPv6Groups 9 [] none s with
      | some res => finishIPv6 res
      | none => none

/-- The dispatch of `netip.ParseAddr` on the first `.`, `:` or `%` of the text: `4` for
dotted decimal, `6` for IPv6, `0` for a text with neither or with a `%` first. -/
def addrKind : List Nat → Nat
  | [] => 0
  | c :: r => if c = 0x2E then 4 else if c = 0x3A then 6 else if c = 0x25 then 0 else addrKind r

/-- Model of `netip.ParseAddr` followed by the test `ip.Zone() != ""` that `net.ParseIP`
and `net.ParseCIDR` make: the address as `(bit length, 16 bytes)`; a text with a zone
is rejected. -/
def parseAddr (s : List Nat) : Option (Nat × List Nat) :=
  if 0x25 ∈ s then none
  else if addrKind s = 4 then (parseIPv4 s).map (fun b => (32, v4InV6Prefix ++ b))
  else if addrKind s = 6 then (parseIPv6 s).map (fun b => (128, b))
  else none

/-- Model of `net.ParseIP`: the 16-byte form of the address, `none` for the nil `IP`. -/
def ParseIP (s : List Nat) : Option (List Nat) := (parseAddr s).map (fun a => a.2)

/-- Model of `IP.To4`: the four bytes of an IPv4 address in either form. -/
def To4 (ip : List Nat) : Option (List Nat) :=
  if ip.length = 4 then some ip
  else if ip.length = 16 ∧ ip.take 12 = v4InV6Prefix then some (ip.drop 12)
  else none

/-- Model of `IP.Equal`: an IPv4 address equals its 16-byte form. -/
def IPEqual (ip x : List Nat) : Bool :=
  if ip.length = x.length then decide (ip = x)
  else if ip.length = 4 ∧ x.length = 16 then
    decide (x.take 12 = v4InV6Prefix) && decide (ip = x.drop 12)
  else if ip.length = 16 ∧ x.length = 4 then
    decide (ip.take 12 = v4InV6Prefix) && decide (ip.drop 12 = x)
  else false

/-- A `net.IPNet`: network number and mask. -/
structure IPNet where
  IP : List Nat
  Mask : List Nat
  deriving DecidableEq, Repr

/-- Model of `net.CIDRMask(ones, bits)`. -/
def CIDRMask (ones bits : Nat) : List Nat :=
  (List.range (bits / 8)).map (fun i =>
    if 8 * (i + 1) ≤ ones then 0xFF
    else if 8 * i < ones then 0xFF - 0xFF / 2 ^ (ones - 8 * i)
    else 0)

/-- Bytewise `ip[i] & mask[i]`. -/
def andBytes : List Nat → List Nat → List Nat
  | a :: as, b :: bs => Nat.land a b :: andBytes as bs
  | _, _ => []

/-- Model of `IP.Mask`: the address under the mask, in the width of the mask when the
address is an IPv4 address in 16-byte form; `none` for the nil result on a length
mismatch. -/
def IPMask (ip mask : List Nat) : Option (List Nat) :=
  if mask.length = 16 ∧ ip.length = 4 ∧ mask.take 12 = List.replicate 12 0xFF then
    some (andBytes ip (mask.drop 12))
  else if mask.length = 4 ∧ ip.length = 16 ∧ ip.take 12 = v4InV6Prefix then
    some (andBytes (ip.drop 12) mask)
  else if ip.length = mask.length then some (andBytes ip mask)
  else none

/-- The text before the first `/` and the text after it; `none` without a `/`. -/
def splitSlash : List Nat → Option (List Nat × List Nat)
  | [] => none
  | c :: r =>
    if c = 0x2F then some ([], r)
    else (splitSlash r).map (fun p => (c :: p.1, p.2))

/-- Model of `net.ParseCIDR`: the network of a text `address/length`. -/
def ParseCIDR (s : List Nat) : Option IPNet :=
  match splitSlash s with
  | none => none
  | some (addr, mask) =>
    match parseAddr addr, parseDigits mask with
    | some (bits, ip), some n =>
      if bits < n then none
      else
        match IPMask ip (CIDRMask n bits) with
        | some nip => some { IP := nip, Mask := CIDRMask n bits }
        | none => none
    | _, _ => none

/-- Model of `networkNumberAndMask`. -/
def networkNumberAndMask (n : IPNet) : Option (List Nat × List Nat) :=
  match (match To4 n.IP with
         | some v4 => some v4
         | none => if n.IP.length = 16 then some n.IP else none) with
  | none => none
  | some ip =>
    if n.Mask.length = 4 then (if ip.length = 4 then some (ip, n.Mask) else none)
    else if n.Mask.length = 16 then
      (if ip.length = 4 then some (ip, n.Mask.drop 12) else some (ip, n.Mask))
    else none

/-- Model of `IPNet.Contains`. -/
def IPNet.Contains (n : IPNet) (ip : List Nat) : Bool :=
  match networkNumberAndMask n with
  | none => false
  | some (nn, m) =>
    if ((To4 ip).getD ip).length ≠ nn.length then false
    else decide (andBytes nn m = andBytes ((To4 ip).getD ip) m)

/-! ## server/server.go: admission -/

/-- `ipMatch`: the pattern is an address equal to `ip`, or else a network that contains
`ip`. -/
def ipMatch (ip : List Nat) (pattern : List Nat) : Bool :=
  match ParseIP pattern with
  | some ip2 => IPEqual ip ip2
  | none =>
    match ParseCIDR pattern with
    | some netw => netw.Contains ip
    | none => false

/-- `Server.ipAllowed` for the lists `blockedIPs` and `permittedIPs` of the server. -/
def ipAllowed (blockedIPs permittedIPs : List (List Nat)) (addr : List Nat) : Bool :=
  match ParseIP addr with
  | none => false
  | some ip =>
    if blockedIPs.any (fun b => ipMatch ip b) then false
    else if 0 < permittedIPs.length then permittedIPs.any (fun p => ipMatch ip p)
    else true

/-! ## stats/stats.go -/

/-- An `int64` sum: the result of `atomic.AddInt64`, which wraps around. -/
def wrap64 (x : Int) : Int := (x + 2 ^ 63) % 2 ^ 64 - 2 ^ 63

/-- The struct `Statistics`. -/
structure Statistics where
  startTime : Time := {}
  receivedBytes : Int := 0
  receivedMsgs : Int := 0
  sentBytes : Int := 0
  sentMsgs : Int := 0
  deriving DecidableEq, Repr

/-- `AddReceivedBytes`. -/
def Statistics.AddReceivedBytes (s : Statistics) (n : Int) : Statistics :=
  { s with receivedBytes := wrap64 (s.receivedBytes + n) }

/-- `IncrementReceivedMessages`. -/
def Statistics.IncrementReceivedMessages (s : Statistics) : Statistics :=
  { s with receivedMsgs := wrap64 (s.receivedMsgs + 1) }

/-- `AddSentBytes`. -/
def Statistics.AddSentBytes (s : Statistics) (n : Int) : Statistics :=
  { s with sentBytes := wrap64 (s.sentBytes + n) }

/-- `IncrementSentMessages`. -/
def Statistics.IncrementSentMessages (s : Statistics) : Statistics :=
  { s with sentMsgs := wrap64 (s.sentMsgs + 1) }

/-- `Reset`: the four counters are stored as zero. -/
def Statistics.Reset (s : Statistics) : Statistics :=
  { s with receivedBytes := 0, receivedMsgs := 0, sentBytes := 0, sentMsgs := 0 }

/-- The quotient `a / b` of two `int64` with `b ≠ 0`: truncated toward zero, and wrapped
like every `int64` result (only `-2^63 / -1` is out of range). -/
def div64 (a b : Int) : Int := wrap64 (Int.tdiv a b)

/-- `ReceivedMessageSizeAverage`. -/
def Statistics.ReceivedMessageSizeAverage (s : Statistics) : Int :=
  if s.receivedMsgs = 0 then 0 else div64 s.receivedBytes s.receivedMsgs

/-- `SentMessageSizeAverage`. -/
def Statistics.SentMessageSizeAverage (s : Statistics) : Int :=
  if s.sentMsgs = 0 then 0 else div64 s.sentBytes s.sentMsgs

/-! ## Connections -/

/-- One end of a `net.Conn`: the bytes the peer has sent and this end has not read yet
(end of stream follows them), the bytes this end has written, and whether this end has
closed the connection. -/
structure Conn where
  incoming : List Nat := []
  written : List Nat := []
  closed : Bool := false
  deriving DecidableEq, Repr

/-- `conn.Write(p)`: all of `p` is written, or the write fails on a closed
connection. -/
def Conn.Write (c : Conn) (p : List Nat) : Except Error Conn :=
  if c.closed then .error .writeFailed else .ok { c with written := c.written ++ p }

/-- `io.ReadFull(r, buf)` for a buffer of `n` bytes: the bytes read and the bytes left,
`io.EOF` when `n > 0` and nothing is left, `io.ErrUnexpectedEOF` when fewer than `n`
are. -/
def ReadFull (r : List Nat) (n : Nat) : Except Error (List Nat) × List Nat :=
  if n ≤ r.length then (.ok (r.take n), r.drop n)
  else if r = [] then (.error .EOF, [])
  else (.error .unexpectedEOF, [])

/-- The run time's `maxAlloc`, the greatest size in bytes of one allocation: `2 ^ 48`
on linux/amd64, where the heap has 48 address bits. -/
def maxAlloc : Int := 2 ^ 48

/-- Whether `make([]byte, n)` panics (`makeslice: len out of range`): `n` is negative or
above `maxAlloc`.  An allocation within the limit is taken to succeed: running out of
memory is not modelled. -/
def makePanics (n : Int) : Bool := decide (n < 0) || decide (maxAlloc < n)

/-- What reading one frame the buffered way gives. -/
inductive FrameResult where
  /-- The header parsed and the payload read in full; the bytes left in the reader. -/
  | frame (msg : Message) (payload : List Nat) (rest : List Nat)
  /-- `ParseHeader` or `io.ReadFull` returned an error. -/
  | failed (e : Error)
  /-- The run-time panic of `make([]byte, n)` with a negative `n` or one above
  `maxAlloc`. -/
  | panic
  deriving DecidableEq, Repr

/-- The buffered read path of `Server.handleConn` and `Client.readLoop`:
`ParseHeader`, then `payload := make([]byte, msg.ContentLength)` and
`io.ReadFull(conn, payload)`. -/
def readFrame (input : List Nat) : FrameResult :=
  match ParseHeader (some input) with
  | (.error e, _) => .failed e
  | (.ok msg, rest) =>
    if makePanics msg.ContentLength then .panic
    else
      match ReadFull rest msg.ContentLength.toNat with
      | (.error e, _) => .failed e
      | (.ok payload, rest1) => .frame msg payload rest1

/-! ## io.LimitedReader and the streaming delivery -/

/-- `conn.Read(p)` for a buffer of `k` bytes on a stream that still holds the bytes
`r`, of which `ready` have arrived when the call is made: the call waits for the first
byte and returns the bytes that have arrived, as many as the buffer takes; `io.EOF`
when the stream holds none. -/
def connRead (r : List Nat) (k ready : Nat) : Except Error (List Nat) × List Nat :=
  if k = 0 then (.ok [], r)
  else if r = [] then (.error .EOF, [])
  else (.ok (r.take (min k (max ready 1))), r.drop (min k (max ready 1)))

/-- The struct `io.LimitedReader`: the underlying reader `R`, here the bytes the
connection still holds, and the number `N` of bytes that may still be read. -/
structure LimitedReader where
  R : List Nat
  N : Int
  deriving DecidableEq, Repr

/-- `LimitedReader.Read(p)` for a buffer of `k` bytes: `io.EOF` when `N ≤ 0`; otherwise
the buffer is cut to `N` bytes, the underlying reader is read into it, and `N` goes down
by the number of bytes read.  `ready` is the number of bytes that have arrived on the
connection. -/
def LimitedReader.Read (l : LimitedReader) (k ready : Nat) :
    Except Error (List Nat) × LimitedReader :=
  if l.N ≤ 0 then (.error .EOF, l)
  else
    match connRead l.R (if l.N < (k : Int) then l.N.toNat else k) ready with
    | (.ok bs, r) => (.ok bs, { R := r, N := l.N - (bs.length : Int) })
    | (.error e, r) => (.error e, { R := r, N := l.N })

/-- What an `OnStream` callback does with the reader `lr` it is handed: it returns, or
it calls `lr.Read(p)` with a buffer of `k` bytes, at a moment when `ready` bytes have
arrived on the connection, and goes on according to what the call returns. -/
inductive Reads where
  | ret : Reads
  | read (k ready : Nat) (next : Except Error (List Nat) → Reads) : Reads

/-- The run of a callback on the reader `lr`: the bytes its calls of `lr.Read` have
returned to it, and the reader when the callback returns. -/
def LimitedReader.run : Reads → LimitedReader → List Nat × LimitedReader
  | .ret, l => ([], l)
  | .read k ready next, l =>
    ((match (l.Read k ready).1 with
      | .ok bs => bs
      | .error _ => []) ++
        (LimitedReader.run (next (l.Read k ready).1) (l.Read k ready).2).1,
     (LimitedReader.run (next (l.Read k ready).1) (l.Read k ready).2).2)

/-- `io.CopyN(io.Discard, conn, n)` on a stream that still holds the bytes `r`: the
stream afterwards, and `io.EOF` when it held fewer than `n` bytes. -/
def discardN (r : List Nat) (n : Nat) : List Nat × Option Error :=
  (r.drop n, if r.length < n then some .EOF else none)

/-- The streaming delivery of a payload in `Client.readLoop` and `Server.handleConn`,
on a connection that still holds the bytes `rest` after the header:
`lr := &io.LimitedReader{R: conn, N: msg.ContentLength}`, the call of the callback with
`lr`, and then `if lr.N > 0 { io.CopyN(io.Discard, conn, lr.N) }`, whose result is
dropped.  The result is the bytes the callback has read and the bytes the connection
holds afterwards. -/
def streamPayload (cb : Reads) (rest : List Nat) (n : Int) : List Nat × List Nat :=
  ((LimitedReader.run cb { R := rest, N := n }).1,
    if 0 < (LimitedReader.run cb { R := rest, N := n }).2.N then
      (discardN (LimitedReader.run cb { R := rest, N := n }).2.R
        (LimitedReader.run cb { R := rest, N := n }).2.N.toNat).1
    else (LimitedReader.run cb { R := rest, N := n }).2.R)

/-! ## client/client.go -/

/-- The callbacks of a client that matter for dispatch: whether `OnMessage` is set, and
`OnStream` when it is set, as what the callback does with the reader when it is handed
a message. -/
structure Callbacks where
  OnMessage : Bool := false
  OnStream : Option (Message → Reads) := none
  /-- Whether `OnConnect` is set. -/
  OnConnect : Bool := false
  /-- Whether `OnDisconnect` is set. -/
  OnDisconnect : Bool := false

/-- What a step of the client does to the world outside its own state. -/
inductive Event where
  /-- The call `go c.callbacks.OnMessage(msg, payload)`. -/
  | onMessage (msg : Message) (payload : List Nat)
  /-- The call `c.callbacks.OnStream(msg, lr)` and the bytes the callback read. -/
  | onStream (msg : Message) (read : List Nat)
  /-- The send `ch <- &response{msg: msg, data: payload}` on channel `ch`. -/
  | chanSend (ch : Nat) (msg : Message) (payload : List Nat)
  /-- The call `close(ch)`. -/
  | chanClose (ch : Nat)
  /-- The call `d.Dial("tcp", c.Addr)`. -/
  | dial
  /-- The call `c.conn.Close()`. -/
  | connClose
  /-- The call `close(c.done)`. -/
  | closeDone
  /-- The call `go c.callbacks.OnConnect()`. -/
  | onConnect
  /-- The call `c.callbacks.OnDisconnect()`. -/
  | onDisconnect
  /-- The start of `go c.readLoop()`. -/
  | goReadLoop
  /-- The start of `go c.idleMonitor()`. -/
  | goIdleMonitor
  deriving DecidableEq, Repr

/-- The fields of the client `Options` that the operations below read: the preshared
key, the idle timeout and the connect timeout (each a `time.Duration`, in nanoseconds).
The defaults are the values of `DefaultOptions()`. -/
structure Options where
  PresharedKey : List Nat := []
  IdleTimeout : Int := 0
  ConnectTimeout : Int := 5000000000
  deriving DecidableEq, Repr

/-- The struct `Client`: the connection (nil before `Connect`), the statistics, the
correlation table `respMap` from `ConversationGUID` to the channel of the waiting
`SendSync`, whether `done` is closed, `lastReceived`, the options, and whether the
`sync.Once` value `dcOnce` has run. -/
structure Client where
  conn : Option Conn := none
  callbacks : Callbacks := {}
  stats : Statistics := {}
  respMap : List (List Nat × Nat) := []
  done : Bool := false
  lastReceived : Time := {}
  options : Options := {}
  dcOnce : Bool := false

/-- `respMap.Load(key)`. -/
def mapLoad (m : List (List Nat × Nat)) (key : List Nat) : Option Nat :=
  (m.find? (fun e => decide (e.1 = key))).map (fun e => e.2)

/-- `respMap.Delete(key)`. -/
def mapDelete (m : List (List Nat × Nat)) (key : List Nat) : List (List Nat × Nat) :=
  m.filter (fun e => decide (e.1 ≠ key))

/-- `respMap.Store(key, ch)`. -/
def mapStore (m : List (List Nat × Nat)) (key : List Nat) (ch : Nat) : List (List Nat × Nat) :=
  (key, ch) :: mapDelete m key

/-- How a call ends. -/
inductive Result where
  | ok
  | err (e : Error)
  /-- A run-time panic (a nil pointer dereference). -/
  | panic
  deriving DecidableEq, Repr

/-- `Client.Send(msg, data)` at the time `now` (the value of `time.Now().UTC()`): the
client afterwards, the message afterwards (`Send` writes `ContentLength` and
`TimestampUtc` into the caller's message) and the result.  A nil `msg` is
dereferenced. -/
def Client.Send (c : Client) (msg : Option Message) (data : List Nat) (now : Time) :
    Client × Option Message × Result :=
  match c.conn with
  | none => (c, msg, .err .notConnected)
  | some conn =>
    match msg with
    | none => (c, none, .panic)
    | some m =>
      match BuildHeader
          (some { m with ContentLength := (data.length : Int), TimestampUtc := now }) with
      | .error e =>
        (c, some { m with ContentLength := (data.length : Int), TimestampUtc := now }, .err e)
      | .ok header =>
        match conn.Write header with
        | .error e =>
          (c, some { m with ContentLength := (data.length : Int), TimestampUtc := now }, .err e)
        | .ok conn1 =>
          match (if 0 < data.length then conn1.Write data else .ok conn1) with
          | .error e =>
            ({ c with conn := some conn1 },
              some { m with ContentLength := (data.length : Int), TimestampUtc := now }, .err e)
          | .ok conn2 =>
            ({ c with
                conn := some conn2
                stats := (c.stats.IncrementSentMessages).AddSentBytes
                  ((header.length + data.length : Nat) : Int) },
              some { m with ContentLength := (data.length : Int), TimestampUtc := now }, .ok)

/-- How one round of a loop ends. -/
inductive LoopStatus where
  /-- The loop goes on with the next round. -/
  | next
  /-- The loop returns (and the deferred `Disconnect` runs). -/
  | exit
  /-- A run-time panic. -/
  | panic
  deriving DecidableEq, Repr

/-- One round of the loop of `Client.readLoop` at the time `now`: the client afterwards,
what the round did to the outside, and how it ended. -/
def Client.readLoopStep (c : Client) (now : Time) : Client × List Event × LoopStatus :=
  if c.done then (c, [], .exit)
  else
    match c.conn with
    | none => (c, [], .exit)
    | some conn =>
      match ParseHeader (some conn.incoming) with
      | (.error _, rest) => ({ c with conn := some { conn with incoming := rest } }, [], .exit)
      | (.ok msg, rest) =>
        match (if c.callbacks.OnMessage = false ∧ msg.SyncResponse = false
               then c.callbacks.OnStream else none) with
        | some onStream =>
          ({ c with
              conn := some { conn with
                incoming := (streamPayload (onStream msg) rest msg.ContentLength).2 }
              stats := (c.stats.IncrementReceivedMessages).AddReceivedBytes msg.ContentLength
              lastReceived := now },
            [.onStream msg (streamPayload (onStream msg) rest msg.ContentLength).1],
            .next)
        | none =>
          if makePanics msg.ContentLength then
            ({ c with conn := some { conn with incoming := rest } }, [], .panic)
          else
            match ReadFull rest msg.ContentLength.toNat with
            | (.error _, rest1) =>
              ({ c with conn := some { conn with incoming := rest1 } }, [], .exit)
            | (.ok payload, rest1) =>
              match (if msg.SyncResponse = true ∧ msg.ConversationGUID ≠ []
                     then mapLoad c.respMap msg.ConversationGUID else none) with
              | some ch =>
                ({ c with
                    conn := some { conn with incoming := rest1 }
                    stats := (c.stats.IncrementReceivedMessages).AddReceivedBytes
                      (payload.length : Int)
                    respMap := mapDelete c.respMap msg.ConversationGUID },
                  [.chanSend ch msg payload, .chanClose ch], .next)
              | none =>
                ({ c with
                    conn := some { conn with incoming := rest1 }
                    stats := (c.stats.IncrementReceivedMessages).AddReceivedBytes
                      (payload.length : Int)
                    lastReceived := now },
                  if c.callbacks.OnMessage then [.onMessage msg payload] else [], .next)

/-! ## server/server.go: the connection map -/

/-- The struct `clientConn`: the connection (by its identity, and the state of its
stream) and `lastActive`. -/
structure ClientConn where
  conn : Nat
  lastActive : Time
  stream : Conn := {}
  deriving DecidableEq, Repr

/-- A `net.Listener`: whether it has been closed. -/
structure Listener where
  closed : Bool := false
  deriving DecidableEq, Repr

/-- The fields of the server `Options` that the operations below read: the preshared
key. -/
structure ServerOptions where
  PresharedKey : List Nat := []
  deriving DecidableEq, Repr

/-- The callbacks of a server that matter for dispatch: whether `OnMessage` is set,
`OnStream` when it is set, as what the callback does with the reader when it is handed
a connection id and a message, and whether `OnDisconnect` is set. -/
structure ServerCallbacks where
  OnMessage : Bool := false
  OnStream : Option (List Nat → Message → Reads) := none
  OnDisconnect : Bool := false

/-- The struct `Server`: the map `conns` as a list of entries with distinct keys,
`maxConnections` and the two address lists, the options, the statistics, the listener
(nil before `Start`), whether `done` is closed, the callbacks, and `idleTimeout` (a
`time.Duration`, in nanoseconds). -/
structure Server where
  conns : List (List Nat × ClientConn) := []
  maxConnections : Int := 0
  permittedIPs : List (List Nat) := []
  blockedIPs : List (List Nat) := []
  options : ServerOptions := {}
  stats : Statistics := {}
  listener : Option Listener := none
  done : Bool := false
  callbacks : ServerCallbacks := {}
  idleTimeout : Int := 0

/-- A connection returned by `listener.Accept()`: its identity, the text of
`conn.RemoteAddr()`, the host part that `net.SplitHostPort` gives for it, and whether
it is a `*net.TCPConn`. -/
structure Accepted where
  conn : Nat
  remoteAddr : List Nat
  remoteHost : List Nat
  isTCP : Bool := true
  deriving DecidableEq, Repr

/-- What a round of the accept loop does with the accepted connection. -/
structure AcceptEffect where
  /-- The call `conn.Close()`. -/
  closed : Bool
  /-- The call `tcp.SetLinger(0)`. -/
  linger0 : Bool
  /-- The start of `go s.handleConn(id)`. -/
  handled : Bool
  deriving DecidableEq, Repr

/-- The statement `delete(s.conns, id)`. -/
def connsDelete (m : List (List Nat × ClientConn)) (id : List Nat) :
    List (List Nat × ClientConn) :=
  m.filter (fun e => decide (e.1 ≠ id))

/-- The statement `s.conns[id] = c`. -/
def connsStore (m : List (List Nat × ClientConn)) (id : List Nat) (c : ClientConn) :
    List (List Nat × ClientConn) :=
  (id, c) :: connsDelete m id

/-- One round of `Server.acceptLoop` after a successful `Accept` at the time `now`: the
address check, then under the mutex the limit check and the insertion.  (The keepalive
settings applied to an admitted connection do not touch the map and are left out.) -/
def Server.acceptStep (s : Server) (a : Accepted) (now : Time) : Server × AcceptEffect :=
  if ipAllowed s.blockedIPs s.permittedIPs a.remoteHost = false then
    (s, { closed := true, linger0 := false, handled := false })
  else if 0 < s.maxConnections ∧ s.maxConnections ≤ (s.conns.length : Int) then
    (s, { closed := true, linger0 := a.isTCP, handled := false })
  else
    ({ s with conns := connsStore s.conns a.remoteAddr { conn := a.conn, lastActive := now } },
      { closed := false, linger0 := false, handled := true })

/-- The removal of a record when `handleConn` returns: `delete(s.conns, id)`. -/
def Server.removeConn (s : Server) (id : List Nat) : Server :=
  { s with conns := connsDelete s.conns id }

/-- `Server.Stop`: the server afterwards, the connections closed by the loop over the
map, and the result.  The first statement, `close(s.done)`, panics when the channel is
closed already; otherwise the listener is closed if there is one, and every record is
closed and deleted. -/
def Server.Stop (s : Server) : Server × List Nat × Result :=
  if s.done then (s, [], .panic)
  else
    ({ s with
        done := true
        listener := s.listener.map (fun l => { l with closed := true })
        conns := [] },
      s.conns.map (fun e => e.2.conn), .ok)

/-- The states a server with `MaxConnections = n` reaches from the empty map by rounds
of the accept loop, removals of a record and `Stop`. -/
inductive Reachable (n : Int) (blocked permitted : List (List Nat)) : Server → Prop where
  | init : Reachable n blocked permitted
      { conns := [], maxConnections := n, permittedIPs := permitted, blockedIPs := blocked }
  | accept (s : Server) (a : Accepted) (now : Time) :
      Reachable n blocked permitted s → Reachable n blocked permitted (s.acceptStep a now).1
  | remove (s : Server) (id : List Nat) :
      Reachable n blocked permitted s → Reachable n blocked permitted (s.removeConn id)
  | stop (s : Server) :
      Reachable n blocked permitted s → Reachable n blocked permitted (s.Stop).1

/-! ## Auxiliary notions used in the statements -/

/-- The input `t` does not start with a byte that can continue a number literal. -/
def numStop (t : List Nat) : Prop :=
  ∀ c, t.head? = some c → isDigit c = false ∧ c ≠ 0x2E ∧ c ≠ 0x65 ∧ c ≠ 0x45


mutual
/-- The value the decoder reads back from the text of `j`: every string and every key
coerced to valid UTF-8. -/
def JSON.coerce : JSON → JSON
  | .null => .null
  | .bool b => .bool b
  | .num lit => .num lit
  | .str s => .str (coerceUTF8 s)
  | .arr xs => .arr (JSON.coerceElems xs)
  | .obj ms => .obj (JSON.coerceMembers ms)
/-- The elements read back. -/
def JSON.coerceElems : List JSON → List JSON
  | [] => []
  | x :: xs => x.coerce :: JSON.coerceElems xs
/-- The members read back. -/
def JSON.coerceMembers : List (List Nat × JSON) → List (List Nat × JSON)
  | [] => []
  | (k, x) :: ms => (coerceUTF8 k, x.coerce) :: JSON.coerceMembers ms
end

mutual
/-- The number of arrays and objects open at the deepest point of a value. -/
def JSON.depth : JSON → Nat
  | .null => 0
  | .bool _ => 0
  | .num _ => 0
  | .str _ => 0
  | .arr xs => JSON.depthElems xs + 1
  | .obj ms => JSON.depthMembers ms + 1
/-- The greatest depth of an element. -/
def JSON.depthElems : List JSON → Nat
  | [] => 0
  | x :: xs => max x.depth (JSON.depthElems xs)
/-- The greatest depth of the value of a member. -/
def JSON.depthMembers : List (List Nat × JSON) → Nat
  | [] => 0
  | (_, x) :: ms => max x.depth (JSON.depthMembers ms)
end

/-- The time `t` with its zone offset cut to whole minutes, which is all of the offset
that the RFC 3339 text of `t` shows. -/
def Time.normal (t : Time) : Time :=
  { t with offset := if t.offset < 0 then -(((t.offset.natAbs / 60 * 60 : Nat)) : Int)
                     else ((t.offset.natAbs / 60 * 60 : Nat) : Int) }

/-- The invariant of a `*time.Time`: nil, or a date and a clock reading. -/
def Time.wfOpt : Option Time → Prop
  | none => True
  | some t => t.wf

instance : (o : Option Time) → Decidable (Time.wfOpt o)
  | none => isTrue trivial
  | some t => inferInstanceAs (Decidable t.wf)

/-- The invariants of the Go types of a `Message`: `ContentLength` is an `int64`, the
elements of `PresharedKey` are bytes, the two timestamps are dates and clock readings. -/
def Message.wf (m : Message) : Prop :=
  -(2 ^ 63 : Int) ≤ m.ContentLength ∧ m.ContentLength < (2 ^ 63 : Int) ∧
    (∀ b ∈ m.PresharedKey, b < 256) ∧ m.TimestampUtc.wf ∧ Time.wfOpt m.ExpirationUtc

instance (m : Message) : Decidable m.wf :=
  inferInstanceAs (Decidable (-(2 ^ 63 : Int) ≤ m.ContentLength ∧
    m.ContentLength < (2 ^ 63 : Int) ∧ (∀ b ∈ m.PresharedKey, b < 256) ∧ m.TimestampUtc.wf ∧
    Time.wfOpt m.ExpirationUtc))

/-- The metadata of `m` can be read back from the header written for it: inside the
header (an object) and its member `md` (an object) the values nest arrays and objects
no deeper than the decoder's limit, and every number among them is within the range of
`float64`. -/
def Message.mdReadable (m : Message) : Prop :=
  JSON.depthMembers m.Metadata + 2 ≤ maxNestingDepth ∧
    (JSON.toAnyMembers (JSON.coerceMembers m.Metadata)).isSome = true

instance (m : Message) : Decidable m.mdReadable :=
  inferInstanceAs (Decidable (JSON.depthMembers m.Metadata + 2 ≤ maxNestingDepth ∧
    (JSON.toAnyMembers (JSON.coerceMembers m.Metadata)).isSome = true))

/-- The message `ParseHeader` returns for the header `BuildHeader` writes for `m`, when
it returns one: strings coerced to valid UTF-8, zone offsets cut to whole minutes, the
metadata as the decoder stores it (every number as a `float64`, a later entry
replacing an earlier one of the same key), and `SenderGUID` empty because it is never
written. -/
def Message.decoded (m : Message) : Message :=
  { ContentLength := m.ContentLength
    PresharedKey := m.PresharedKey
    Status := coerceUTF8 m.Status
    Metadata := ((JSON.toAnyMembers (JSON.coerceMembers m.Metadata)).getD []).foldl
      (fun acc kv => insertKV kv.1 kv.2 acc) []
    SyncRequest := m.SyncRequest
    SyncResponse := m.SyncResponse
    TimestampUtc := m.TimestampUtc.normal
    ExpirationUtc := m.ExpirationUtc.map Time.normal
    ConversationGUID := coerceUTF8 m.ConversationGUID
    SenderGUID := [] }

/-- The value of the first member of an object that has the key `key`. -/
def JSON.member (j : JSON) (key : List Nat) : Option JSON :=
  match j with
  | .obj ms => (ms.find? (fun kv => decide (kv.1 = key))).map (fun kv => kv.2)
  | _ => none

/-- Encoding followed by decoding: `ParseHeader` applied to a reader over the bytes
`BuildHeader` returns for `m`. -/
def roundTrip (m : Message) : Except Error Message :=
  match BuildHeader (some m) with
  | .error e => .error e
  | .ok h => (ParseHeader (some h)).1

/-- The bytes `BuildHeader` returns for `m` (empty when it fails). -/
def headerOf (m : Message) : List Nat :=
  match BuildHeader (some m) with
  | .ok h => h
  | .error _ => []

/-- A pattern matches an address, in the words of the specification: the pattern parses
as an IP address equal to it, or as a CIDR network that contains it. -/
def patternMatches (ip pattern : List Nat) : Prop :=
  (∃ ip2, ParseIP pattern = some ip2 ∧ IPEqual ip ip2 = true) ∨
  (∃ netw, ParseCIDR pattern = some netw ∧ netw.Contains ip = true)

/-! ## client/client.go: Connect, Disconnect, SendStream, SendSync -/

/-- `conn.Close()`. -/
def Conn.Close (c : Conn) : Conn := { c with closed := true }

/-- `io.CopyN(dst, src, n)` for `n > 0`, where `src` is the list of the bytes the reader
delivers before it ends: the first `n` bytes of `src` are written to `dst`; the error is
that of the write, or `io.EOF` when `src` holds fewer than `n` bytes.  Nothing is
written when `src` is empty. -/
def CopyN (dst : Conn) (src : List Nat) (n : Nat) : Conn × Option Error :=
  if src.take n = [] then (dst, if n = 0 then none else some .EOF)
  else
    match dst.Write (src.take n) with
    | .error e => (dst, some e)
    | .ok d => (d, if (src.take n).length < n then some .EOF else none)

/-- `Client.Disconnect`: the client afterwards, what the call did, and the result.  The
body runs under `c.dcOnce.Do`, so only on the first call: `close(c.done)` (which panics
on a closed channel), `c.conn.Close()` when `c.conn` is not nil, and `OnDisconnect`
when it is set. -/
def Client.Disconnect (c : Client) : Client × List Event × Result :=
  if c.dcOnce then (c, [], .ok)
  else if c.done then ({ c with dcOnce := true }, [], .panic)
  else
    ({ c with
        dcOnce := true
        done := true
        conn := c.conn.map Conn.Close },
      .closeDone :: ((if c.conn.isSome then [.connClose] else []) ++
        (if c.callbacks.OnDisconnect then [.onDisconnect] else [])),
      .ok)

/-- The read deadline that `conn.SetReadDeadline(time.Now().Add(timeout))` sets, as a
bound on the reads made under it: the number of bytes the reads can get, `none` when
they can get every byte and the end of the stream.  `inTime` is what the network does:
the number of bytes still to come that arrive within `timeout` (`none`: all of them and
the end of the stream).  A deadline that is not after the time of the call has expired
when the next read starts, so with a `timeout` of zero or less the reads get nothing. -/
def readLimit (timeout : Int) (inTime : Option Nat) : Option Nat :=
  if timeout ≤ 0 then some 0 else inTime

/-- The bytes of the stream that reads under the deadline `limit` can get. -/
def underDeadline (limit : Option Nat) (incoming : List Nat) : List Nat :=
  match limit with
  | none => incoming
  | some k => incoming.take k

/-- The bytes of the stream that arrive after the deadline `limit` has expired. -/
def afterDeadline (limit : Option Nat) (incoming : List Nat) : List Nat :=
  match limit with
  | none => []
  | some k => incoming.drop k

/-- The error of a read under the deadline `limit` that runs out of bytes: without a
bound it has met the end of the stream, with one it is still waiting when the deadline
expires and returns `os.ErrDeadlineExceeded`. -/
def deadlineError (limit : Option Nat) (e : Error) : Error :=
  match limit with
  | none => e
  | some _ => if e = .EOF ∨ e = .unexpectedEOF then .deadlineExceeded else e

/-- The block `if c.options.PresharedKey != ""` of `Connect`, up to its error check: the
authentication message is sent, the read deadline is set to
`time.Now().Add(c.options.ConnectTimeout)` (which fails on a closed connection), one
frame is read under it (`ParseHeader`, then
`payload := make([]byte, resp.ContentLength)` and `io.ReadFull`) and the deadline is
cleared; the error is the one `Connect` returns after closing the connection.
`inTime` is the number of incoming bytes that arrive before the deadline expires. -/
def Client.connectAuth (c : Client) (now : Time) (inTime : Option Nat) : Client × Result :=
  if c.options.PresharedKey = [] then (c, .ok)
  else
    match c.Send (some { Status := StatusAuthRequested
                         PresharedKey := c.options.PresharedKey }) [] now with
    | (c1, _, .err e) => (c1, .err e)
    | (c1, _, .panic) => (c1, .panic)
    | (c1, _, .ok) =>
      match c1.conn with
      | none => (c1, .panic)
      | some conn =>
        if conn.closed then (c1, .err .setDeadlineFailed)
        else
          match ParseHeader (some
              (underDeadline (readLimit c.options.ConnectTimeout inTime) conn.incoming)) with
          | (.error e, rest) =>
            ({ c1 with conn := some { conn with
                incoming := rest ++
                  afterDeadline (readLimit c.options.ConnectTimeout inTime) conn.incoming } },
              .err (deadlineError (readLimit c.options.ConnectTimeout inTime) e))
          | (.ok resp, rest) =>
            if makePanics resp.ContentLength then
              ({ c1 with conn := some { conn with
                  incoming := rest ++
                    afterDeadline (readLimit c.options.ConnectTimeout inTime) conn.incoming } },
                .panic)
            else
              match ReadFull rest resp.ContentLength.toNat with
              | (.error e, rest1) =>
                ({ c1 with conn := some { conn with
                    incoming := rest1 ++
                      afterDeadline (readLimit c.options.ConnectTimeout inTime) conn.incoming } },
                  .err (deadlineError (readLimit c.options.ConnectTimeout inTime) e))
              | (.ok _, rest1) =>
                ({ c1 with conn := some { conn with
                    incoming := rest1 ++
                      afterDeadline (readLimit c.options.ConnectTimeout inTime) conn.incoming } },
                  if resp.Status = StatusAuthSuccess then .ok else .err .authFailed)

/-- The wait of `Connect` for the registration message, up to its error check: the read
deadline is set to `time.Now().Add(c.options.ConnectTimeout)` (which fails on a closed
connection), then under it `ParseHeader` and, when the length is positive,
`io.CopyN(io.Discard, c.conn, regMsg.ContentLength)`, and the deadline is cleared; the
error is the one `Connect` returns after closing the connection.  `inTime` is the
number of incoming bytes that arrive before the deadline expires. -/
def Client.connectRegister (c : Client) (inTime : Option Nat) : Client × Result :=
  match c.conn with
  | none => (c, .panic)
  | some conn =>
    if conn.closed then (c, .err .setDeadlineFailed)
    else
      match ParseHeader (some
          (underDeadline (readLimit c.options.ConnectTimeout inTime) conn.incoming)) with
      | (.error e, rest) =>
        ({ c with conn := some { conn with
            incoming := rest ++
              afterDeadline (readLimit c.options.ConnectTimeout inTime) conn.incoming } },
          .err (deadlineError (readLimit c.options.ConnectTimeout inTime) e))
      | (.ok regMsg, rest) =>
        match (if 0 < regMsg.ContentLength then discardN rest regMsg.ContentLength.toNat
               else (rest, none)) with
        | (rest1, some e) =>
          ({ c with conn := some { conn with
              incoming := rest1 ++
                afterDeadline (readLimit c.options.ConnectTimeout inTime) conn.incoming } },
            .err (deadlineError (readLimit c.options.ConnectTimeout inTime) e))
        | (rest1, none) =>
          ({ c with conn := some { conn with
              incoming := rest1 ++
                afterDeadline (readLimit c.options.ConnectTimeout inTime) conn.incoming } },
            if regMsg.Status = StatusRegisterClient then .ok else .err .registrationFailed)

/-- `Client.Connect`, where `dial` is what `d.Dial` (followed by the TLS handshake when
a TLS configuration is set) returns, `now` the time of the `Send`, `later` the time
stored in `lastReceived`, and `inTime1` and `inTime2` the numbers of incoming bytes
that arrive before the first and the second read deadline expire: the client
afterwards, the connection dialled as `Connect` leaves it, what the call did, and the
result.  On every error after the dial the connection is closed and `c.conn` set to nil
again. -/
def Client.Connect (c : Client) (dial : Except Error Conn) (now later : Time)
    (inTime1 inTime2 : Option Nat) : Client × Option Conn × List Event × Result :=
  match c.conn with
  | some _ => (c, none, [], .err .alreadyConnected)
  | none =>
    match dial with
    | .error e => (c, none, [.dial], .err e)
    | .ok conn0 =>
      match Client.connectAuth { c with conn := some conn0 } now inTime1 with
      | (c1, .panic) => (c1, c1.conn, [.dial], .panic)
      | (c1, .err e) =>
        ({ c1 with conn := none }, c1.conn.map Conn.Close, [.dial, .connClose], .err e)
      | (c1, .ok) =>
        match Client.connectRegister c1 inTime2 with
        | (c2, .panic) => (c2, c2.conn, [.dial], .panic)
        | (c2, .err e) =>
          ({ c2 with conn := none }, c2.conn.map Conn.Close, [.dial, .connClose], .err e)
        | (c2, .ok) =>
          ({ c2 with lastReceived := later }, c2.conn,
            .dial :: ((if c2.callbacks.OnConnect then [.onConnect] else []) ++
              .goReadLoop :: (if 0 < c2.options.IdleTimeout then [.goIdleMonitor] else [])),
            .ok)

/-- `Client.SendStream(msg, r, length)` at the time `now`, where `r` is the list of the
bytes the reader delivers before it ends (`none` is the nil reader): the client
afterwards, the message afterwards and the result.  A nil `msg` is dereferenced. -/
def Client.SendStream (c : Client) (msg : Option Message) (r : Option (List Nat))
    (length : Int) (now : Time) : Client × Option Message × Result :=
  match c.conn with
  | none => (c, msg, .err .notConnected)
  | some conn =>
    match r with
    | none => (c, msg, .err .readerNil)
    | some src =>
      match msg with
      | none => (c, none, .panic)
      | some m =>
        match BuildHeader (some { m with ContentLength := length, TimestampUtc := now }) with
        | .error e => (c, some { m with ContentLength := length, TimestampUtc := now }, .err e)
        | .ok header =>
          match conn.Write header with
          | .error e =>
            (c, some { m with ContentLength := length, TimestampUtc := now }, .err e)
          | .ok conn1 =>
            match (if 0 < length then CopyN conn1 src length.toNat else (conn1, none)) with
            | (conn2, some e) =>
              ({ c with conn := some conn2 },
                some { m with ContentLength := length, TimestampUtc := now }, .err e)
            | (conn2, none) =>
              ({ c with
                  conn := some conn2
                  stats := (c.stats.IncrementSentMessages).AddSentBytes
                    (wrap64 ((header.length : Int) + length)) },
                some { m with ContentLength := length, TimestampUtc := now }, .ok)

/-- What the rest of the program does to a client while a `SendSync` call waits. -/
inductive EnvStep where
  /-- A round of the read loop at the given time. -/
  | readRound (now : Time)
  /-- The statement `c.respMap.Store(guid, ch)` of another `SendSync` call. -/
  | store (guid : List Nat) (ch : Nat)
  /-- The statement `c.respMap.Delete(guid)` of another `SendSync` call. -/
  | delete (guid : List Nat)
  deriving DecidableEq, Repr

/-- The client after a step of the rest of the program, and what the step did. -/
def Client.envStep (c : Client) : EnvStep → Client × List Event
  | .readRound now => ((c.readLoopStep now).1, (c.readLoopStep now).2.1)
  | .store guid ch => ({ c with respMap := mapStore c.respMap guid ch }, [])
  | .delete guid => ({ c with respMap := mapDelete c.respMap guid }, [])

/-- The client after a list of steps, and what they did. -/
def Client.envSteps (c : Client) : List EnvStep → Client × List Event
  | [] => (c, [])
  | e :: es =>
    ((Client.envSteps (c.envStep e).1 es).1,
      (c.envStep e).2 ++ (Client.envSteps (c.envStep e).1 es).2)

/-- The value received from the channel `ch`: the first send on it. -/
def received (ch : Nat) : List Event → Option (Message × List Nat)
  | [] => none
  | .chanSend ch1 msg payload :: es =>
    if ch1 = ch then some (msg, payload) else received ch es
  | _ :: es => received ch es

/-- How a `SendSync` call ends. -/
inductive SyncResult where
  /-- The response message and its payload. -/
  | response (msg : Message) (data : List Nat)
  | err (e : Error)
  /-- A run-time panic (a nil pointer dereference). -/
  | panic
  /-- The call does not return: no response arrives and the context is not cancelled. -/
  | blocked
  deriving DecidableEq, Repr

/-- The key under which `SendSync` stores its channel: the `ConversationGUID` of the
message, or the value of `newGUID()` when that is empty. -/
def syncGUID (m : Message) (fresh : List Nat) : List Nat :=
  if m.ConversationGUID = [] then fresh else m.ConversationGUID

/-- `Client.SendSync(ctx, msg, data)` at the time `now`, where `fresh` is the value
`newGUID()` returns, `ch` the channel `make` returns, `env` what the rest of the program
does while the call waits in its `select`, `cancelled` whether `ctx.Done()` is closed at
the end of that, and `pickDone` whether the `select` takes that case when both are
ready: the client afterwards, the message afterwards and how the call ends.  A nil `msg`
is dereferenced. -/
def Client.SendSync (c : Client) (msg : Option Message) (data : List Nat) (fresh : List Nat)
    (ch : Nat) (now : Time) (env : List EnvStep) (cancelled pickDone : Bool) :
    Client × Option Message × SyncResult :=
  match msg with
  | none => (c, none, .panic)
  | some m =>
    match Client.Send { c with respMap := mapStore c.respMap (syncGUID m fresh) ch }
        (some { m with ConversationGUID := syncGUID m fresh, SyncRequest := true }) data now with
    | (c1, m1, .panic) => (c1, m1, .panic)
    | (c1, m1, .err e) =>
      ({ c1 with respMap := mapDelete c1.respMap (syncGUID m fresh) }, m1, .err e)
    | (c1, m1, .ok) =>
      match received ch (c1.envSteps env).2 with
      | some (resp, payload) =>
        if cancelled && pickDone then
          ({ (c1.envSteps env).1 with
              respMap := mapDelete (c1.envSteps env).1.respMap (syncGUID m fresh) },
            m1, .err .ctxErr)
        else ((c1.envSteps env).1, m1, .response resp payload)
      | none =>
        if cancelled then
          ({ (c1.envSteps env).1 with
              respMap := mapDelete (c1.envSteps env).1.respMap (syncGUID m fresh) },
            m1, .err .ctxErr)
        else ((c1.envSteps env).1, m1, .blocked)

/-! ## server/server.go: the handshake of a connection, SendStream -/

/-- A `c.conn.Write(hdr)` whose result is discarded. -/
def Conn.WriteIgnore (c : Conn) (p : List Nat) : Conn :=
  match c.Write p with
  | .ok c1 => c1
  | .error _ => c

/-- The statement `if hdr, err := message.BuildHeader(msg); err == nil { c.conn.Write(hdr) }`. -/
def writeHeader (c : Conn) (m : Message) : Conn :=
  match BuildHeader (some m) with
  | .ok hdr => c.WriteIgnore hdr
  | .error _ => c

/-- The part of `Server.handleConn` before its read loop, on the connection `conn` of
the record: with a preshared key configured one frame is read and answered with
`AuthFailure` (and the handler returns) or with `AuthSuccess` and `RegisterClient`;
without one `RegisterClient` is written.  The result is the connection afterwards and
whether the handler goes on to its read loop; when it returns, its deferred function
closes the connection. -/
def Server.handleConnHandshake (s : Server) (conn : Conn) : Conn × LoopStatus :=
  if s.options.PresharedKey = [] then
    (writeHeader conn { Status := StatusRegisterClient }, .next)
  else
    match ParseHeader (some conn.incoming) with
    | (.error _, rest) => (Conn.Close { conn with incoming := rest }, .exit)
    | (.ok msg, rest) =>
      if makePanics msg.ContentLength then ({ conn with incoming := rest }, .panic)
      else
        match ReadFull rest msg.ContentLength.toNat with
        | (.error _, rest1) => (Conn.Close { conn with incoming := rest1 }, .exit)
        | (.ok _, rest1) =>
          if msg.Status ≠ StatusAuthRequested ∨ msg.PresharedKey ≠ s.options.PresharedKey then
            (Conn.Close (writeHeader { conn with incoming := rest1 }
              { Status := StatusAuthFailure }), .exit)
          else
            (writeHeader (writeHeader { conn with incoming := rest1 }
              { Status := StatusAuthSuccess }) { Status := StatusRegisterClient }, .next)

/-- The lookup `s.conns[id]` (nil when there is no record). -/
def connsLoad (m : List (List Nat × ClientConn)) (id : List Nat) : Option ClientConn :=
  (m.find? (fun e => decide (e.1 = id))).map (fun e => e.2)

/-- The map after a write through the pointer `s.conns[id]` has changed the stream of
that record. -/
def connsSetStream (m : List (List Nat × ClientConn)) (id : List Nat) (k : Conn) :
    List (List Nat × ClientConn) :=
  m.map (fun e => if e.1 = id then (e.1, { e.2 with stream := k }) else e)

/-- `Server.SendStream(id, msg, r, length)` at the time `now`, where `r` is the list of
the bytes the reader delivers before it ends (`none` is the nil reader): the server
afterwards, the message afterwards and the result.  A nil `msg` is dereferenced. -/
def Server.SendStream (s : Server) (id : List Nat) (msg : Option Message)
    (r : Option (List Nat)) (length : Int) (now : Time) : Server × Option Message × Result :=
  match r with
  | none => (s, msg, .err .readerNil)
  | some src =>
    match connsLoad s.conns id with
    | none => (s, msg, .err .unknownClient)
    | some c =>
      match msg with
      | none => (s, none, .panic)
      | some m =>
        match BuildHeader (some { m with ContentLength := length, TimestampUtc := now }) with
        | .error e => (s, some { m with ContentLength := length, TimestampUtc := now }, .err e)
        | .ok header =>
          match c.stream.Write header with
          | .error e =>
            (s, some { m with ContentLength := length, TimestampUtc := now }, .err e)
          | .ok conn1 =>
            match (if 0 < length then CopyN conn1 src length.toNat else (conn1, none)) with
            | (conn2, some e) =>
              ({ s with conns := connsSetStream s.conns id conn2 },
                some { m with ContentLength := length, TimestampUtc := now }, .err e)
            | (conn2, none) =>
              ({ s with
                  conns := connsSetStream s.conns id conn2
                  stats := (s.stats.IncrementSentMessages).AddSentBytes
                    (wrap64 ((header.length : Int) + length)) },
                some { m with ContentLength := length, TimestampUtc := now }, .ok)

/-! ## Auxiliary notions used in the statements -/

/-- The client after `n` calls of `Disconnect` in a row, and everything they did. -/
def Client.DisconnectTimes : Nat → Client → Client × List Event
  | 0, c => (c, [])
  | n + 1, c =>
    ((Client.DisconnectTimes n (c.Disconnect).1).1,
      (c.Disconnect).2.1 ++ (Client.DisconnectTimes n (c.Disconnect).1).2)

/-- The bytes a client with the preshared key `kc` writes in `Connect` before it reads:
what it has written when it meets a peer that sends nothing. -/
def clientHello (kc : List Nat) (now later : Time) : List Nat :=
  match (Client.Connect { options := { PresharedKey := kc } } (.ok {}) now later
    none none).2.1 with
  | some conn => conn.written
  | none => []

/-- The handshake of a server with the preshared key `ks`, on a fresh connection that
delivers what the client with the key `kc` writes. -/
def serverHandshake (ks kc : List Nat) (now later : Time) : Conn × LoopStatus :=
  Server.handleConnHandshake { options := { PresharedKey := ks } }
    { incoming := clientHello kc now later }

/-- `Connect` of a client with the preshared key `kc` and the connect timeout
`timeout`, on a fresh connection that delivers what the server with the key `ks` writes
in its handshake; `inTime1` and `inTime2` are the numbers of these bytes that arrive
before the first and the second read deadline of `Connect` expire. -/
def clientConnect (ks kc : List Nat) (now later : Time) (timeout : Int)
    (inTime1 inTime2 : Option Nat) : Client × Option Conn × List Event × Result :=
  Client.Connect { options := { PresharedKey := kc, ConnectTimeout := timeout } }
    (.ok { incoming := (serverHandshake ks kc now later).1.written }) now later
    inTime1 inTime2

/-- The bytes the server writes in its handshake all arrive before a read deadline of
the client expires. -/
def arrivesInTime (ks kc : List Nat) (now later : Time) (inTime : Option Nat) : Prop :=
  ∀ k, inTime = some k → (serverHandshake ks kc now later).1.written.length ≤ k

/-! ## client/client.go: newGUID -/

/-- `hex.EncodeToString(b)`: for each byte the digit of its high half and the digit of
its low half, from the table `0123456789abcdef`. -/
def hexEncode : List Nat → List Nat
  | [] => []
  | b :: r => hexDigit (b / 16) :: hexDigit (b % 16) :: hexEncode r

/-- The days from 1970-01-01 to the day `d` of the month `m` of the year `y` of the
proleptic Gregorian calendar. -/
def daysFromCivil (y : Int) (m d : Nat) : Int :=
  (if m ≤ 2 then y - 1 else y) / 400 * 146097 +
    (((if m ≤ 2 then y - 1 else y) % 400) * 365 + ((if m ≤ 2 then y - 1 else y) % 400) / 4 -
      ((if m ≤ 2 then y - 1 else y) % 400) / 100 +
      (((153 * (if m ≤ 2 then m + 9 else m - 3) + 2) / 5 + d : Nat) : Int) - 1) - 719468

/-- The nanoseconds from 1970-01-01T00:00:00Z to `t`, as an unbounded number. -/
def Time.nanos (t : Time) : Int :=
  ((daysFromCivil t.year t.month t.day * 86400 +
    ((t.hour * 3600 + t.minute * 60 + t.second : Nat) : Int) - t.offset) * 1000000000) +
    (t.nano : Int)

/-- `t.UnixNano()`, an `int64`. -/
def Time.UnixNano (t : Time) : Int := wrap64 t.nanos

/-- `t.Sub(u)`, a `time.Duration`: the difference in nanoseconds, or the largest or the
smallest duration when the difference is no `int64`.  (The monotonic clock reading of a
`time.Time` is not modelled.) -/
def Time.Sub (t u : Time) : Int :=
  if 2 ^ 63 ≤ t.nanos - u.nanos then 2 ^ 63 - 1
  else if t.nanos - u.nanos < -(2 ^ 63) then -(2 ^ 63)
  else t.nanos - u.nanos

/-- `newGUID()`, where `rnd` is what `rand.Read(b)` has put into the 16 bytes of `b`
(`none` when it returns an error) and `now` the value of `time.Now()`. -/
def newGUID (rnd : Option (List Nat)) (now : Time) : List Nat :=
  match rnd with
  | none => formatInt now.UnixNano
  | some b => hexEncode b

/-! ## server/server.go: the read loop of a connection, the idle sweep -/

/-- What a step of the server does to the world outside its own state. -/
inductive ServerEvent where
  /-- The call `s.callbacks.OnMessage(id, msg, payload)`. -/
  | onMessage (id : List Nat) (msg : Message) (payload : List Nat)
  /-- The call `s.callbacks.OnStream(id, msg, lr)` and the bytes the callback read. -/
  | onStream (id : List Nat) (msg : Message) (read : List Nat)
  /-- The call `c.conn.Close()` of the deferred function of `handleConn`. -/
  | connClose (id : List Nat)
  /-- The call `s.callbacks.OnDisconnect(id)`. -/
  | onDisconnect (id : List Nat)
  deriving DecidableEq, Repr

/-- The map after writes through the pointer `s.conns[id]` have changed the record. -/
def connsPut (m : List (List Nat × ClientConn)) (id : List Nat) (c : ClientConn) :
    List (List Nat × ClientConn) :=
  m.map (fun e => if e.1 = id then (e.1, c) else e)

/-- The deferred function of `Server.handleConn`: the connection is closed, the record
deleted, and `OnDisconnect` called when it is set. -/
def Server.handleConnExit (s : Server) (id : List Nat) : Server × List ServerEvent :=
  ({ s with conns := connsDelete s.conns id },
    .connClose id :: (if s.callbacks.OnDisconnect then [.onDisconnect id] else []))

/-- One round of the read loop of `Server.handleConn` for the record `id` at the time
`now`: the server afterwards, what the round did to the outside, and how it ended.  When
the loop returns, the deferred function runs.  (A handler whose record is gone from the
map, after `Stop`, reads from a closed connection and returns.) -/
def Server.handleConnStep (s : Server) (id : List Nat) (now : Time) :
    Server × List ServerEvent × LoopStatus :=
  match connsLoad s.conns id with
  | none => (s, [], .exit)
  | some c =>
    match ParseHeader (some c.stream.incoming) with
    | (.error _, _) => ((s.handleConnExit id).1, (s.handleConnExit id).2, .exit)
    | (.ok msg, rest) =>
      match (if s.callbacks.OnMessage = false then s.callbacks.OnStream else none) with
      | some onStream =>
        ({ s with
            conns := connsPut s.conns id
              { c with
                stream := { c.stream with
                  incoming := (streamPayload (onStream id msg) rest msg.ContentLength).2 }
                lastActive := now }
            stats := (s.stats.IncrementReceivedMessages).AddReceivedBytes msg.ContentLength },
          [.onStream id msg (streamPayload (onStream id msg) rest msg.ContentLength).1],
          .next)
      | none =>
        if makePanics msg.ContentLength then
          ((s.handleConnExit id).1, (s.handleConnExit id).2, .panic)
        else
          match ReadFull rest msg.ContentLength.toNat with
          | (.error _, _) => ((s.handleConnExit id).1, (s.handleConnExit id).2, .exit)
          | (.ok payload, rest1) =>
            ({ s with
                conns := connsPut s.conns id
                  { c with
                    stream := { c.stream with incoming := rest1 }
                    lastActive := now }
                stats := (s.stats.IncrementReceivedMessages).AddReceivedBytes
                  (payload.length : Int) },
              if s.callbacks.OnMessage then [.onMessage id msg payload] else [], .next)

/-- The ids that `Server.monitorLoop` collects in `toClose` at a tick at the time `now`:
those of the records with `now.Sub(c.lastActive) > s.idleTimeout`. -/
def Server.toClose (s : Server) (now : Time) : List (List Nat) :=
  (s.conns.filter (fun e => decide (s.idleTimeout < now.Sub e.2.lastActive))).map
    (fun e => e.1)

/-- The statement `c.conn.Close()` of `Server.monitorLoop` for one id of `toClose`. -/
def Server.closeConn (s : Server) (id : List Nat) : Server :=
  match connsLoad s.conns id with
  | none => s
  | some c => { s with conns := connsSetStream s.conns id c.stream.Close }

/-- A tick of `Server.monitorLoop` at the time `now`: every connection in `toClose` is
closed. -/
def Server.monitorTick (s : Server) (now : Time) : Server :=
  List.foldl Server.closeConn s (s.toClose now)

/-! ## Auxiliary notions used in the statements -/

/-- The dispatch rule in the words of the specification: a frame is streamed when
`OnStream` is set, `OnMessage` is not set and the frame is not a sync response, and
buffered otherwise. -/
def streamRule (onStream onMessage : Bool) (msg : Message) : Bool :=
  onStream && !onMessage && !msg.SyncResponse

/-- A byte is one of the characters `0`-`9`, `a`-`f`. -/
def isLowerHex (c : Nat) : Bool :=
  (decide (0x30 ≤ c) && decide (c ≤ 0x39)) || (decide (0x61 ≤ c) && decide (c ≤ 0x66))

/-! ## The read loop of ParseHeader -/

theorem drop_last_four (h s : List Nat) (hs : s.length = 4) :
    (4 ≤ h.length ∧ h.drop (h.length - 4) = s) ↔ ∃ pre, h = pre ++ s := by
  constructor
  · rintro ⟨_, hd⟩
    exact ⟨h.take (h.length - 4), by rw [← hd, List.take_append_drop]⟩
  · rintro ⟨pre, rfl⟩
    refine ⟨by simp [hs], ?_⟩
    have : (pre ++ s).length - 4 = pre.length := by simp [hs]
    rw [this, List.drop_left]

theorem readHeader_zero (acc : List Nat) (b : Nat) (r pre : List Nat)
    (h : acc ++ [b] = pre ++ [0, 0, 0, 0]) :
    readHeader acc (b :: r) = (.error .nullHeader, r) := by
  have h1 := (drop_last_four (acc ++ [b]) [0, 0, 0, 0] rfl).2 ⟨pre, h⟩
  rw [readHeader, if_pos h1.1, if_pos h1.2]

theorem readHeader_term (acc : List Nat) (b : Nat) (r pre : List Nat)
    (h : acc ++ [b] = pre ++ terminator) :
    readHeader acc (b :: r) = (.ok (acc ++ [b]), r) := by
  have h1 := (drop_last_four (acc ++ [b]) terminator rfl).2 ⟨pre, h⟩
  have h2 : (acc ++ [b]).drop ((acc ++ [b]).length - 4) ≠ [0, 0, 0, 0] := by
    rw [h1.2]; decide
  have h3 : (acc ++ [b]).drop ((acc ++ [b]).length - 4) = [0x0D, 0x0A, 0x0D, 0x0A] := h1.2
  rw [readHeader, if_pos h1.1, if_neg h2, if_pos h3]

theorem readHeader_skip (acc : List Nat) (b : Nat) (r : List Nat)
    (hz : ∀ pre, acc ++ [b] ≠ pre ++ [0, 0, 0, 0])
    (ht : ∀ pre, acc ++ [b] ≠ pre ++ terminator) :
    readHeader acc (b :: r) = readHeader (acc ++ [b]) r := by
  rw [readHeader]
  by_cases h4 : 4 ≤ (acc ++ [b]).length
  · have h2 : (acc ++ [b]).drop ((acc ++ [b]).length - 4) ≠ [0, 0, 0, 0] := by
      intro hd
      obtain ⟨pre, hp⟩ := (drop_last_four (acc ++ [b]) [0, 0, 0, 0] rfl).1 ⟨h4, hd⟩
      exact hz pre hp
    have h3 : (acc ++ [b]).drop ((acc ++ [b]).length - 4) ≠ [0x0D, 0x0A, 0x0D, 0x0A] := by
      intro hd
      obtain ⟨pre, hp⟩ := (drop_last_four (acc ++ [b]) terminator rfl).1 ⟨h4, hd⟩
      exact ht pre hp
    rw [if_pos h4, if_neg h2, if_neg h3]
  · rw [if_neg h4]

/-- When the last byte is neither zero nor a line feed the loop goes on. -/
theorem readHeader_skip_last (acc : List Nat) (b : Nat) (r : List Nat)
    (h0 : b ≠ 0) (hA : b ≠ 0x0A) :
    readHeader acc (b :: r) = readHeader (acc ++ [b]) r := by
  apply readHeader_skip
  · intro pre h
    have := congrArg List.getLast? h
    simp at this
    exact h0 this
  · intro pre h
    have := congrArg List.getLast? h
    simp [terminator] at this
    exact hA this

/-- A run of bytes that are all at least 0x20 is read through. -/
theorem readHeader_clean (js : List Nat) (hjs : ∀ b ∈ js, 0x20 ≤ b) (acc r : List Nat) :
    readHeader acc (js ++ r) = readHeader (acc ++ js) r := by
  induction js generalizing acc with
  | nil => simp
  | cons b js ih =>
    have hb : 0x20 ≤ b := hjs b (List.mem_cons_self _ _)
    rw [List.cons_append, readHeader_skip_last acc b _ (by omega) (by omega),
      ih (fun x hx => hjs x (List.mem_cons_of_mem _ hx))]
    simp

/-- After a run of bytes at least 0x20 the terminator ends the loop. -/
theorem readHeader_terminator (acc : List Nat) (hacc : ∀ b ∈ acc, 0x20 ≤ b) (r : List Nat) :
    readHeader acc (terminator ++ r) = (.ok (acc ++ terminator), r) := by
  have e1 : readHeader acc (terminator ++ r) = readHeader (acc ++ [0x0D]) (0x0A :: 0x0D :: 0x0A :: r) :=
    readHeader_skip_last acc 0x0D _ (by decide) (by decide)
  have e2 : readHeader (acc ++ [0x0D]) (0x0A :: 0x0D :: 0x0A :: r) =
      readHeader (acc ++ [0x0D] ++ [0x0A]) (0x0D :: 0x0A :: r) := by
    apply readHeader_skip
    · intro pre h
      have := congrArg List.getLast? h
      simp at this
    · intro pre h
      have h' : (acc ++ [0x0D, 0x0A]) = (pre ++ [0x0D, 0x0A]) ++ [0x0D, 0x0A] := by
        simpa [terminator] using h
      have h2 := List.append_inj_left' h' rfl
      have : 0x0D ∈ acc := by rw [h2]; simp
      have := hacc _ this
      omega
  have e3 : readHeader (acc ++ [0x0D] ++ [0x0A]) (0x0D :: 0x0A :: r) =
      readHeader (acc ++ [0x0D] ++ [0x0A] ++ [0x0D]) (0x0A :: r) :=
    readHeader_skip_last _ 0x0D _ (by decide) (by decide)
  have e4 : readHeader (acc ++ [0x0D] ++ [0x0A] ++ [0x0D]) (0x0A :: r) =
      (.ok (acc ++ [0x0D] ++ [0x0A] ++ [0x0D] ++ [0x0A]), r) :=
    readHeader_term _ _ _ acc (by simp [terminator])
  rw [e1, e2, e3, e4]
  simp [terminator]

/-- The loop reads a clean text and its terminator and stops there. -/
theorem readHeader_frame (js : List Nat) (hjs : ∀ b ∈ js, 0x20 ≤ b) (r : List Nat) :
    readHeader [] (js ++ terminator ++ r) = (.ok (js ++ terminator), r) := by
  rw [List.append_assoc, readHeader_clean js hjs, List.nil_append, readHeader_terminator js hjs]

/-- Without a terminator and without four zero bytes the loop ends in `io.EOF`. -/
theorem readHeader_eof (input acc : List Nat)
    (hz : ∀ pre suf, acc ++ input ≠ pre ++ [0, 0, 0, 0] ++ suf)
    (ht : ∀ pre suf, acc ++ input ≠ pre ++ terminator ++ suf) :
    readHeader acc input = (.error .EOF, []) := by
  induction input generalizing acc with
  | nil => rfl
  | cons b r ih =>
    rw [readHeader_skip]
    · apply ih
      · intro pre suf h; exact hz pre suf (by simpa using h)
      · intro pre suf h; exact ht pre suf (by simpa using h)
    · intro pre h
      apply hz pre r
      rw [← h]; simp
    · intro pre h
      apply ht pre r
      rw [← h]; simp

/-! ## The encoder writes no control byte -/

theorem hexDigit_ge (n : Nat) : 0x20 ≤ hexDigit n := by
  unfold hexDigit; split <;> omega

theorem escapeByte_ge (b : Nat) : ∀ x ∈ escapeByte b, 0x20 ≤ x := by
  intro x hx
  unfold escapeByte at hx
  have h1 := hexDigit_ge (b / 16)
  have h2 := hexDigit_ge (b % 16)
  split_ifs at hx with c1 <;> simp at hx <;> omega

theorem isCont_ge {b : Nat} (h : isCont b = true) : 0x80 ≤ b ∧ b ≤ 0xBF := by
  simpa [isCont] using h

theorem acceptLo_ge (p : Nat) : 0x80 ≤ acceptLo p := by
  unfold acceptLo; split_ifs <;> omega

theorem acceptHi_le (p : Nat) : acceptHi p ≤ 0xBF := by
  unfold acceptHi; split_ifs <;> omega

/-- The shapes of a result of `DecodeRune` on a non-empty input. -/
theorem DecodeRune_cases (p0 : Nat) (rest : List Nat) :
    (0x80 ≤ p0 ∧ DecodeRune (p0 :: rest) = (RuneError, 1)) ∨
    (p0 < 0x80 ∧ DecodeRune (p0 :: rest) = (p0, 1)) ∨
    (∃ b1 r1, rest = b1 :: r1 ∧ 0xC2 ≤ p0 ∧ p0 < 0xE0 ∧ acceptLo p0 ≤ b1 ∧ b1 ≤ acceptHi p0 ∧
      DecodeRune (p0 :: rest) = ((p0 % 32) * 64 + b1 % 64, 2)) ∨
    (∃ b1 b2 r2, rest = b1 :: b2 :: r2 ∧ 0xE0 ≤ p0 ∧ p0 < 0xF0 ∧
      acceptLo p0 ≤ b1 ∧ b1 ≤ acceptHi p0 ∧ 0x80 ≤ b2 ∧ b2 ≤ 0xBF ∧
      DecodeRune (p0 :: rest) = ((p0 % 16) * 4096 + (b1 % 64) * 64 + b2 % 64, 3)) ∨
    (∃ b1 b2 b3 r3, rest = b1 :: b2 :: b3 :: r3 ∧ 0xF0 ≤ p0 ∧ p0 < 0xF5 ∧
      acceptLo p0 ≤ b1 ∧ b1 ≤ acceptHi p0 ∧ 0x80 ≤ b2 ∧ b2 ≤ 0xBF ∧ 0x80 ≤ b3 ∧ b3 ≤ 0xBF ∧
      DecodeRune (p0 :: rest) =
        ((p0 % 8) * 262144 + (b1 % 64) * 4096 + (b2 % 64) * 64 + b3 % 64, 4)) := by
  by_cases h1 : p0 < 0x80
  · right; left; exact ⟨h1, by simp [DecodeRune, h1]⟩
  by_cases h2 : p0 < 0xC2 ∨ 0xF5 ≤ p0
  · left; exact ⟨by omega, by simp only [DecodeRune, if_neg h1, if_pos h2]⟩
  cases rest with
  | nil => left; exact ⟨by omega, by simp only [DecodeRune, if_neg h1, if_neg h2]⟩
  | cons b1 rest1 =>
    by_cases h3 : b1 < acceptLo p0 ∨ acceptHi p0 < b1
    · left; exact ⟨by omega, by simp only [DecodeRune, if_neg h1, if_neg h2, if_pos h3]⟩
    by_cases h4 : p0 < 0xE0
    · right; right; left
      exact ⟨b1, rest1, rfl, by omega, h4, by omega, by omega,
        by simp only [DecodeRune, if_neg h1, if_neg h2, if_neg h3, if_pos h4]⟩
    cases rest1 with
    | nil =>
      left
      exact ⟨by omega, by simp only [DecodeRune, if_neg h1, if_neg h2, if_neg h3, if_neg h4]⟩
    | cons b2 rest2 =>
      by_cases h5 : isCont b2 = false
      · left
        exact ⟨by omega,
          by simp only [DecodeRune, if_neg h1, if_neg h2, if_neg h3, if_neg h4, if_pos h5]⟩
      have h5' := isCont_ge (by simpa using h5 : isCont b2 = true)
      by_cases h6 : p0 < 0xF0
      · right; right; right; left
        exact ⟨b1, b2, rest2, rfl, by omega, h6, by omega, by omega, h5'.1, h5'.2,
          by simp only [DecodeRune, if_neg h1, if_neg h2, if_neg h3, if_neg h4, if_neg h5,
            if_pos h6]⟩
      cases rest2 with
      | nil =>
        left
        exact ⟨by omega,
          by simp only [DecodeRune, if_neg h1, if_neg h2, if_neg h3, if_neg h4, if_neg h5,
            if_neg h6]⟩
      | cons b3 rest3 =>
        by_cases h7 : isCont b3 = false
        · left
          exact ⟨by omega,
            by simp only [DecodeRune, if_neg h1, if_neg h2, if_neg h3, if_neg h4, if_neg h5,
              if_neg h6, if_pos h7]⟩
        have h7' := isCont_ge (by simpa using h7 : isCont b3 = true)
        right; right; right; right
        exact ⟨b1, b2, b3, rest3, rfl, by omega, by omega, by omega, by omega,
          h5'.1, h5'.2, h7'.1, h7'.2,
          by simp only [DecodeRune, if_neg h1, if_neg h2, if_neg h3, if_neg h4, if_neg h5,
            if_neg h6, if_neg h7]⟩

/-- The bytes of the rune that `DecodeRune` reads after a lead byte above 0x7F are all
above 0x7F. -/
theorem DecodeRune_take_ge (b : Nat) (rest : List Nat) (hb : 0x80 ≤ b) :
    ∀ x ∈ (b :: rest).take (DecodeRune (b :: rest)).2, 0x80 ≤ x := by
  rcases DecodeRune_cases b rest with ⟨_, h⟩ | ⟨_, h⟩ | ⟨b1, r1, rfl, _, _, h1, _, h⟩ |
    ⟨b1, b2, r2, rfl, _, _, h1, _, _, _, h⟩ | ⟨b1, b2, b3, r3, rfl, _, _, h1, _, _, _, _, _, h⟩
  all_goals rw [h]
  all_goals have := acceptLo_ge b
  all_goals simp
  all_goals omega

theorem appendStringStep_ge (b : Nat) (rest : List Nat) :
    ∀ x ∈ (appendStringStep b rest).1, 0x20 ≤ x := by
  intro x hx
  unfold appendStringStep at hx
  by_cases h1 : b < 0x80
  · rw [if_pos h1] at hx
    by_cases h2 : htmlSafe b = true
    · simp only [h2, if_true, List.mem_singleton] at hx
      simp [htmlSafe] at h2
      omega
    · simp only [h2] at hx
      exact escapeByte_ge b x hx
  · rw [if_neg h1] at hx
    simp only at hx
    split_ifs at hx with h3 h4
    · simp at hx; omega
    · have := hexDigit_ge ((DecodeRune (b :: rest)).1 % 16)
      simp at hx; omega
    · have := DecodeRune_take_ge b rest (by omega) x hx
      omega

theorem appendStringBody_ge (s : List Nat) (skip : Nat) :
    ∀ x ∈ appendStringBody s skip, 0x20 ≤ x := by
  induction s generalizing skip with
  | nil => simp [appendStringBody]
  | cons b rest ih =>
    cases skip with
    | succ k => simpa [appendStringBody] using ih k
    | zero =>
      intro x hx
      simp only [appendStringBody, List.mem_append] at hx
      rcases hx with hx | hx
      · exact appendStringStep_ge b rest x hx
      · exact ih _ x hx

theorem appendString_ge (s : List Nat) : ∀ x ∈ appendString s, 0x20 ≤ x := by
  intro x hx
  simp only [appendString, List.mem_cons, List.mem_append, List.mem_singleton] at hx
  rcases hx with hx | hx | hx
  · omega
  · exact appendStringBody_ge s 0 x hx
  · simp at hx; omega

theorem isDigit_iff {c : Nat} : isDigit c = true ↔ 0x30 ≤ c ∧ c ≤ 0x39 := by
  simp [isDigit]

theorem spanDigits_digits (s : List Nat) : ∀ x ∈ (spanDigits s).1, isDigit x = true := by
  induction s with
  | nil => simp [spanDigits]
  | cons c r ih =>
    unfold spanDigits
    split_ifs with h
    · intro x hx
      simp only [List.mem_cons] at hx
      rcases hx with rfl | hx
      · exact h
      · exact ih x hx
    · simp

theorem spanDigits_ge (s : List Nat) : ∀ x ∈ (spanDigits s).1, 0x20 ≤ x := by
  intro x hx
  have := isDigit_iff.1 (spanDigits_digits s x hx)
  omega

theorem scanExp_ge (acc s lit r : List Nat) (h : scanExp acc s = some (lit, r))
    (hacc : ∀ x ∈ acc, 0x20 ≤ x) : ∀ x ∈ lit, 0x20 ≤ x := by
  unfold scanExp at h
  cases s with
  | nil =>
    simp only [Option.some.injEq, Prod.mk.injEq] at h
    obtain ⟨rfl, _⟩ := h
    exact hacc
  | cons c r0 =>
    simp only at h
    by_cases h1 : c = 0x65 ∨ c = 0x45
    · rw [if_pos h1] at h
      cases r0 with
      | nil => simp at h
      | cons g r1 =>
        simp only at h
        by_cases h2 : g = 0x2B ∨ g = 0x2D
        · rw [if_pos h2] at h
          by_cases h3 : (spanDigits r1).1 = []
          · simp [h3] at h
          · rw [if_neg h3] at h
            simp only [Option.some.injEq, Prod.mk.injEq] at h
            obtain ⟨rfl, _⟩ := h
            intro x hx
            simp only [List.mem_append, List.mem_cons] at hx
            rcases hx with hx | rfl | rfl | hx
            · exact hacc x hx
            · omega
            · omega
            · exact spanDigits_ge _ x hx
        · rw [if_neg h2] at h
          by_cases h3 : (spanDigits (g :: r1)).1 = []
          · simp [h3] at h
          · rw [if_neg h3] at h
            simp only [Option.some.injEq, Prod.mk.injEq] at h
            obtain ⟨rfl, _⟩ := h
            intro x hx
            simp only [List.mem_append, List.mem_cons] at hx
            rcases hx with hx | rfl | hx
            · exact hacc x hx
            · omega
            · exact spanDigits_ge _ x hx
    · rw [if_neg h1] at h
      simp only [Option.some.injEq, Prod.mk.injEq] at h
      obtain ⟨rfl, _⟩ := h
      exact hacc

theorem scanFrac_ge (acc s lit r : List Nat) (h : scanFrac acc s = some (lit, r))
    (hacc : ∀ x ∈ acc, 0x20 ≤ x) : ∀ x ∈ lit, 0x20 ≤ x := by
  unfold scanFrac at h
  cases s with
  | nil =>
    simp only [Option.some.injEq, Prod.mk.injEq] at h
    obtain ⟨rfl, _⟩ := h
    exact hacc
  | cons c r0 =>
    simp only at h
    by_cases h1 : c = 0x2E
    · rw [if_pos h1] at h
      by_cases h3 : (spanDigits r0).1 = []
      · simp [h3] at h
      · rw [if_neg h3] at h
        refine scanExp_ge _ _ _ _ h ?_
        intro x hx
        simp only [List.mem_append, List.mem_cons] at hx
        rcases hx with hx | rfl | hx
        · exact hacc x hx
        · omega
        · exact spanDigits_ge _ x hx
    · rw [if_neg h1] at h
      exact scanExp_ge _ _ _ _ h hacc

theorem scanInt_ge (acc s lit r : List Nat) (h : scanInt acc s = some (lit, r))
    (hacc : ∀ x ∈ acc, 0x20 ≤ x) : ∀ x ∈ lit, 0x20 ≤ x := by
  unfold scanInt at h
  cases s with
  | nil => simp at h
  | cons c r0 =>
    simp only at h
    by_cases h1 : c = 0x30
    · rw [if_pos h1] at h
      refine scanFrac_ge _ _ _ _ h ?_
      intro x hx
      simp only [List.mem_append, List.mem_singleton] at hx
      rcases hx with hx | rfl
      · exact hacc x hx
      · omega
    · rw [if_neg h1] at h
      by_cases h2 : isDigit c = true
      · rw [if_pos h2] at h
        refine scanFrac_ge _ _ _ _ h ?_
        have := isDigit_iff.1 h2
        intro x hx
        simp only [List.mem_append, List.mem_cons] at hx
        rcases hx with hx | rfl | hx
        · exact hacc x hx
        · omega
        · exact spanDigits_ge _ x hx
      · simp [h2] at h

theorem scanNumber_ge (s lit r : List Nat) (h : scanNumber s = some (lit, r)) :
    ∀ x ∈ lit, 0x20 ≤ x := by
  unfold scanNumber at h
  cases s with
  | nil => simp at h
  | cons c r0 =>
    simp only at h
    by_cases h1 : c = 0x2D
    · rw [if_pos h1] at h
      refine scanInt_ge _ _ _ _ h ?_
      intro x hx
      simp only [List.mem_singleton] at hx
      omega
    · rw [if_neg h1] at h
      exact scanInt_ge _ _ _ _ h (by simp)

theorem isValidNumber_ge (lit : List Nat) (h : isValidNumber lit = true) :
    ∀ x ∈ lit, 0x20 ≤ x := by
  simp only [isValidNumber, decide_eq_true_eq] at h
  exact scanNumber_ge _ _ _ h

mutual
/-- Every byte the encoder writes for a value is at least 0x20. -/
theorem JSON.render_ge : ∀ (j : JSON) (bs : List Nat), j.render = some bs → ∀ b ∈ bs, 0x20 ≤ b
  | .null, bs, h => by
    simp only [JSON.render, Option.some.injEq] at h; subst h; decide
  | .bool true, bs, h => by
    simp only [JSON.render, Option.some.injEq] at h; subst h; decide
  | .bool false, bs, h => by
    simp only [JSON.render, Option.some.injEq] at h; subst h; decide
  | .num lit, bs, h => by
    simp only [JSON.render] at h
    split_ifs at h with hv
    simp only [Option.some.injEq] at h; subst h
    exact isValidNumber_ge _ hv
  | .str s, bs, h => by
    simp only [JSON.render, Option.some.injEq] at h; subst h
    exact appendString_ge s
  | .arr [], bs, h => by
    simp only [JSON.render, Option.some.injEq] at h; subst h; decide
  | .arr (x :: xs), bs, h => by
    simp only [JSON.render] at h
    cases hx : x.render with
    | none => simp [hx] at h
    | some a =>
      cases hxs : JSON.renderElems xs with
      | none => simp [hx, hxs] at h
      | some b =>
        simp only [hx, hxs, Option.some.injEq] at h; subst h
        have ih1 := JSON.render_ge x a hx
        have ih2 := JSON.renderElems_ge xs b hxs
        intro y hy
        simp only [List.mem_cons, List.mem_append] at hy
        rcases hy with rfl | hy | hy
        · omega
        · exact ih1 y hy
        · exact ih2 y hy
  | .obj [], bs, h => by
    simp only [JSON.render, Option.some.injEq] at h; subst h; decide
  | .obj ((k, x) :: ms), bs, h => by
    simp only [JSON.render] at h
    cases hx : x.render with
    | none => simp [hx] at h
    | some a =>
      cases hxs : JSON.renderMembers ms with
      | none => simp [hx, hxs] at h
      | some b =>
        simp only [hx, hxs, Option.some.injEq] at h; subst h
        have ih1 := JSON.render_ge x a hx
        have ih2 := JSON.renderMembers_ge ms b hxs
        intro y hy
        simp only [List.mem_cons, List.mem_append] at hy
        rcases hy with rfl | hy | rfl | hy | hy
        · omega
        · exact appendString_ge k y hy
        · omega
        · exact ih1 y hy
        · exact ih2 y hy
theorem JSON.renderElems_ge :
    ∀ (xs : List JSON) (bs : List Nat), JSON.renderElems xs = some bs → ∀ b ∈ bs, 0x20 ≤ b
  | [], bs, h => by
    simp only [JSON.renderElems, Option.some.injEq] at h; subst h; decide
  | x :: xs, bs, h => by
    simp only [JSON.renderElems] at h
    cases hx : x.render with
    | none => simp [hx] at h
    | some a =>
      cases hxs : JSON.renderElems xs with
      | none => simp [hx, hxs] at h
      | some b =>
        simp only [hx, hxs, Option.some.injEq] at h; subst h
        have ih1 := JSON.render_ge x a hx
        have ih2 := JSON.renderElems_ge xs b hxs
        intro y hy
        simp only [List.mem_cons, List.mem_append] at hy
        rcases hy with rfl | hy | hy
        · omega
        · exact ih1 y hy
        · exact ih2 y hy
theorem JSON.renderMembers_ge :
    ∀ (ms : List (List Nat × JSON)) (bs : List Nat),
      JSON.renderMembers ms = some bs → ∀ b ∈ bs, 0x20 ≤ b
  | [], bs, h => by
    simp only [JSON.renderMembers, Option.some.injEq] at h; subst h; decide
  | (k, x) :: ms, bs, h => by
    simp only [JSON.renderMembers] at h
    cases hx : x.render with
    | none => simp [hx] at h
    | some a =>
      cases hxs : JSON.renderMembers ms with
      | none => simp [hx, hxs] at h
      | some b =>
        simp only [hx, hxs, Option.some.injEq] at h; subst h
        have ih1 := JSON.render_ge x a hx
        have ih2 := JSON.renderMembers_ge ms b hxs
        intro y hy
        simp only [List.mem_cons, List.mem_append] at hy
        rcases hy with rfl | hy | rfl | hy | hy
        · omega
        · exact appendString_ge k y hy
        · omega
        · exact ih1 y hy
        · exact ih2 y hy
end

/-- Every byte of the text `json.Marshal` returns is at least 0x20. -/
theorem Marshal_ge (m : Message) (bs : List Nat) (h : Marshal m = some bs) :
    ∀ b ∈ bs, 0x20 ≤ b := by
  unfold Marshal at h
  split at h
  · simp at h
  · exact JSON.render_ge _ _ h

/-! ## String literals: what the decoder reads back -/

theorem appendStringBody_skip (s : List Nat) (k : Nat) :
    appendStringBody s k = appendStringBody (s.drop k) 0 := by
  induction s generalizing k with
  | nil => simp [appendStringBody]
  | cons b r ih =>
    cases k with
    | zero => rfl
    | succ k => simpa [appendStringBody] using ih k

theorem coerceUTF8Aux_skip (s : List Nat) (k : Nat) :
    coerceUTF8Aux s k = coerceUTF8Aux (s.drop k) 0 := by
  induction s generalizing k with
  | nil => simp [coerceUTF8Aux]
  | cons b r ih =>
    cases k with
    | zero => rfl
    | succ k => simpa [coerceUTF8Aux] using ih k

theorem validUTF8Aux_skip (s : List Nat) (k : Nat) :
    validUTF8Aux s k = validUTF8Aux (s.drop k) 0 := by
  induction s generalizing k with
  | nil => simp [validUTF8Aux]
  | cons b r ih =>
    cases k with
    | zero => rfl
    | succ k => simpa [validUTF8Aux] using ih k

theorem unquoteBody_skip (xs t : List Nat) :
    unquoteBody (xs ++ t) xs.length = unquoteBody t 0 := by
  induction xs with
  | nil => rfl
  | cons x xs ih => simpa [unquoteBody] using ih

theorem hexVal_hexDigit (n : Nat) (h : n < 16) : hexVal (hexDigit n) = some n := by
  unfold hexDigit hexVal
  by_cases h1 : n < 10
  · rw [if_pos h1, if_pos (by omega)]
    congr 1
    omega
  · rw [if_neg h1, if_neg (by omega), if_pos (by omega)]
    congr 1
    omega

theorem EncodeRune_ascii (b : Nat) (h : b < 0x80) : EncodeRune b = [b] := by
  unfold EncodeRune
  rw [if_pos (by omega)]

/-- After a valid rune, `DecodeRune` only depends on the bytes of the rune. -/
theorem DecodeRune_take (b : Nat) (rest t : List Nat) :
    DecodeRune (b :: (rest.take ((DecodeRune (b :: rest)).2 - 1) ++ t)) = DecodeRune (b :: rest) ∨
      (0x80 ≤ b ∧ DecodeRune (b :: rest) = (RuneError, 1)) := by
  rcases DecodeRune_cases b rest with ⟨h0, h⟩ | ⟨h0, h⟩ | ⟨b1, r1, rfl, h1, h2, h3, h4, h⟩ |
    ⟨b1, b2, r2, rfl, h1, h2, h3, h4, h5, h6, h⟩ |
    ⟨b1, b2, b3, r3, rfl, h1, h2, h3, h4, h5, h6, h7, h8, h⟩
  · right; exact ⟨h0, h⟩
  · left; rw [h]; simp [DecodeRune, h0]
  · left; rw [h]
    simp only [Nat.add_one_sub_one, List.take_succ_cons, List.take_zero, List.cons_append,
      List.nil_append, DecodeRune]
    rw [if_neg (by omega), if_neg (by omega), if_neg (by omega), if_pos h2]
  · left; rw [h]
    have c2 : isCont b2 = true := by simp [isCont]; omega
    simp only [Nat.add_one_sub_one, List.take_succ_cons, List.take_zero, List.cons_append,
      List.nil_append, DecodeRune]
    rw [if_neg (by omega), if_neg (by omega), if_neg (by omega), if_neg (by omega),
      if_neg (by simp [c2]), if_pos h2]
  · left; rw [h]
    have c2 : isCont b2 = true := by simp [isCont]; omega
    have c3 : isCont b3 = true := by simp [isCont]; omega
    simp only [Nat.add_one_sub_one, List.take_succ_cons, List.take_zero, List.cons_append,
      List.nil_append, DecodeRune]
    rw [if_neg (by omega), if_neg (by omega), if_neg (by omega), if_neg (by omega),
      if_neg (by simp [c2]), if_neg (by omega), if_neg (by simp [c3])]

/-- A valid encoding is the encoding of the rune it decodes to. -/
theorem EncodeRune_DecodeRune (b : Nat) (rest : List Nat)
    (hv : ¬ ((DecodeRune (b :: rest)).1 = RuneError ∧ (DecodeRune (b :: rest)).2 = 1)) :
    EncodeRune (DecodeRune (b :: rest)).1 = (b :: rest).take (DecodeRune (b :: rest)).2 := by
  rcases DecodeRune_cases b rest with ⟨h0, h⟩ | ⟨h0, h⟩ | ⟨b1, r1, rfl, h1, h2, h3, h4, h⟩ |
    ⟨b1, b2, r2, rfl, h1, h2, h3, h4, h5, h6, h⟩ |
    ⟨b1, b2, b3, r3, rfl, h1, h2, h3, h4, h5, h6, h7, h8, h⟩
  · exact absurd (by rw [h]; exact ⟨rfl, rfl⟩) hv
  · rw [h]; simp [EncodeRune_ascii b h0]
  · rw [h]
    have l := acceptLo_ge b
    have u := acceptHi_le b
    unfold EncodeRune
    rw [if_neg (by omega), if_pos (by omega)]
    simp only [List.take_succ_cons, List.take_zero, List.cons.injEq, and_true]
    constructor <;> omega
  · rw [h]
    unfold acceptLo at h3
    unfold acceptHi at h4
    unfold EncodeRune
    rw [if_neg (by split_ifs at h3 h4 <;> omega), if_neg (by split_ifs at h3 h4 <;> omega),
      if_neg (by split_ifs at h3 h4 <;> omega), if_pos (by omega)]
    simp only [List.take_succ_cons, List.take_zero, List.cons.injEq, and_true]
    refine ⟨?_, ?_, ?_⟩ <;> split_ifs at h3 h4 <;> omega
  · rw [h]
    unfold acceptLo at h3
    unfold acceptHi at h4
    unfold EncodeRune
    rw [if_neg (by split_ifs at h3 h4 <;> omega), if_neg (by split_ifs at h3 h4 <;> omega),
      if_neg (by split_ifs at h3 h4 <;> omega), if_neg (by split_ifs at h3 h4 <;> omega)]
    simp only [List.take_succ_cons, List.take_zero, List.cons.injEq, and_true]
    refine ⟨?_, ?_, ?_, ?_⟩ <;> split_ifs at h3 h4 <;> omega

theorem DecodeRune_size_pos (b : Nat) (rest : List Nat) : 1 ≤ (DecodeRune (b :: rest)).2 := by
  rcases DecodeRune_cases b rest with ⟨h0, h⟩ | ⟨h0, h⟩ | ⟨b1, r1, rfl, h1, h2, h3, h4, h⟩ |
    ⟨b1, b2, r2, rfl, h1, h2, h3, h4, h5, h6, h⟩ |
    ⟨b1, b2, b3, r3, rfl, h1, h2, h3, h4, h5, h6, h7, h8, h⟩
  all_goals rw [h]
  all_goals simp

theorem DecodeRune_size_le (b : Nat) (rest : List Nat) :
    (DecodeRune (b :: rest)).2 ≤ (b :: rest).length := by
  rcases DecodeRune_cases b rest with ⟨h0, h⟩ | ⟨h0, h⟩ | ⟨b1, r1, rfl, h1, h2, h3, h4, h⟩ |
    ⟨b1, b2, r2, rfl, h1, h2, h3, h4, h5, h6, h⟩ |
    ⟨b1, b2, b3, r3, rfl, h1, h2, h3, h4, h5, h6, h7, h8, h⟩
  all_goals rw [h]
  all_goals simp

theorem getu4_escape (a b c d : Nat) (t : List Nat) (ha : a < 16) (hb : b < 16) (hc : c < 16)
    (hd : d < 16) :
    getu4 (0x5C :: 0x75 :: hexDigit a :: hexDigit b :: hexDigit c :: hexDigit d :: t) =
      some (((a * 16 + b) * 16 + c) * 16 + d) := by
  simp [getu4, hexVal_hexDigit, ha, hb, hc, hd]

theorem unquoteStep_u (a b c d : Nat) (t : List Nat) (ha : a < 16) (hb : b < 16) (hc : c < 16)
    (hd : d < 16)
    (hs : ¬ (0xD800 ≤ ((a * 16 + b) * 16 + c) * 16 + d ∧ ((a * 16 + b) * 16 + c) * 16 + d < 0xE000)) :
    unquoteStep 0x5C (0x75 :: hexDigit a :: hexDigit b :: hexDigit c :: hexDigit d :: t) =
      some (EncodeRune (((a * 16 + b) * 16 + c) * 16 + d), 6) := by
  simp [unquoteStep, getu4_escape a b c d t ha hb hc hd]
  intro h1 h2
  exact absurd ⟨h1, h2⟩ hs

/-- One round of the encoder's loop is read back by one round of the decoder's. -/
theorem unquoteStep_appendStringStep (b : Nat) (rest t : List Nat) :
    ∃ c out, (appendStringStep b rest).1 = c :: out ∧ c ≠ 0x22 ∧
      unquoteStep c (out ++ t) = some (EncodeRune (DecodeRune (b :: rest)).1, out.length + 1) ∧
      (appendStringStep b rest).2 = (DecodeRune (b :: rest)).2 := by
  by_cases h1 : b < 0x80
  · have hd : DecodeRune (b :: rest) = (b, 1) := by simp [DecodeRune, h1]
    rw [hd]
    by_cases h2 : htmlSafe b = true
    · refine ⟨b, [], by simp [appendStringStep, h1, h2], ?_, ?_, by simp [appendStringStep, h1]⟩
      · simp [htmlSafe] at h2; omega
      · simp only [htmlSafe, Bool.and_eq_true, decide_eq_true_eq] at h2
        unfold unquoteStep
        rw [if_neg (by omega), if_neg (by omega), if_pos h1, EncodeRune_ascii b h1]
        rfl
    · have e : (appendStringStep b rest).1 = escapeByte b := by
        simp [appendStringStep, h1, h2]
      have e2 : (appendStringStep b rest).2 = 1 := by simp [appendStringStep, h1]
      rw [e, e2, EncodeRune_ascii b h1]
      unfold escapeByte
      by_cases c1 : b = 0x5C ∨ b = 0x22
      · rw [if_pos c1]
        refine ⟨0x5C, [b], rfl, by decide, ?_, rfl⟩
        unfold unquoteStep
        rw [if_pos rfl]
        simp only [List.singleton_append]
        rw [if_pos (by omega)]
        rfl
      rw [if_neg c1]
      by_cases c2 : b = 0x08
      · rw [if_pos c2]; subst c2
        exact ⟨0x5C, [0x62], rfl, by decide, by simp [unquoteStep], rfl⟩
      rw [if_neg c2]
      by_cases c3 : b = 0x0C
      · rw [if_pos c3]; subst c3
        exact ⟨0x5C, [0x66], rfl, by decide, by simp [unquoteStep], rfl⟩
      rw [if_neg c3]
      by_cases c4 : b = 0x0A
      · rw [if_pos c4]; subst c4
        exact ⟨0x5C, [0x6E], rfl, by decide, by simp [unquoteStep], rfl⟩
      rw [if_neg c4]
      by_cases c5 : b = 0x0D
      · rw [if_pos c5]; subst c5
        exact ⟨0x5C, [0x72], rfl, by decide, by simp [unquoteStep], rfl⟩
      rw [if_neg c5]
      by_cases c6 : b = 0x09
      · rw [if_pos c6]; subst c6
        exact ⟨0x5C, [0x74], rfl, by decide, by simp [unquoteStep], rfl⟩
      rw [if_neg c6]
      refine ⟨0x5C, [0x75, 0x30, 0x30, hexDigit (b / 16), hexDigit (b % 16)], rfl, by decide, ?_, rfl⟩
      have key := unquoteStep_u 0 0 (b / 16) (b % 16) t (by omega) (by omega) (by omega)
        (by omega) (by omega)
      have e0 : hexDigit 0 = 0x30 := by decide
      rw [e0] at key
      have e3 : ((0 * 16 + 0) * 16 + b / 16) * 16 + b % 16 = b := by omega
      rw [e3, EncodeRune_ascii b h1] at key
      simpa using key
  · by_cases h2 : (DecodeRune (b :: rest)).1 = RuneError ∧ (DecodeRune (b :: rest)).2 = 1
    · refine ⟨0x5C, [0x75, 0x66, 0x66, 0x66, 0x64], by simp [appendStringStep, h1, h2],
        by decide, ?_, by simp [appendStringStep, h1, h2]⟩
      have key := unquoteStep_u 15 15 15 13 t (by omega) (by omega) (by omega)
        (by omega) (by omega)
      have e0 : hexDigit 15 = 0x66 := by decide
      have e1 : hexDigit 13 = 0x64 := by decide
      rw [e0, e1] at key
      rw [h2.1]
      simpa [RuneError] using key
    · by_cases h3 : (DecodeRune (b :: rest)).1 = 0x2028 ∨ (DecodeRune (b :: rest)).1 = 0x2029
      · refine ⟨0x5C, [0x75, 0x32, 0x30, 0x32, hexDigit ((DecodeRune (b :: rest)).1 % 16)],
          by simp [appendStringStep, h1, h2, h3], by decide, ?_,
          by simp [appendStringStep, h1, h2, h3]⟩
        have key := unquoteStep_u 2 0 2 ((DecodeRune (b :: rest)).1 % 16) t (by omega) (by omega)
          (by omega) (by omega) (by omega)
        have e0 : hexDigit 2 = 0x32 := by decide
        have e1 : hexDigit 0 = 0x30 := by decide
        rw [e0, e1] at key
        have e3 : ((2 * 16 + 0) * 16 + 2) * 16 + (DecodeRune (b :: rest)).1 % 16 =
            (DecodeRune (b :: rest)).1 := by omega
        rw [e3] at key
        simpa using key
      · have hp := DecodeRune_size_pos b rest
        have hl := DecodeRune_size_le b rest
        have e : (appendStringStep b rest).1 =
            b :: rest.take ((DecodeRune (b :: rest)).2 - 1) := by
          simp only [appendStringStep, if_neg h1, if_neg h2, if_neg h3]
          obtain ⟨k, hk⟩ : ∃ k, (DecodeRune (b :: rest)).2 = k + 1 := ⟨_, (Nat.sub_add_cancel hp).symm⟩
          rw [hk]; simp
        refine ⟨b, rest.take ((DecodeRune (b :: rest)).2 - 1), e, by omega, ?_,
          by simp [appendStringStep, h1, h2, h3]⟩
        have hlen : (rest.take ((DecodeRune (b :: rest)).2 - 1)).length + 1 =
            (DecodeRune (b :: rest)).2 := by
          simp only [List.length_take, List.length_cons] at hl ⊢
          omega
        unfold unquoteStep
        rw [if_neg (by omega), if_neg (by omega), if_neg h1, hlen]
        rcases DecodeRune_take b rest t with hk | hk
        · rw [hk]
        · exact absurd (by rw [hk.2]; exact ⟨rfl, rfl⟩) h2

/-- The decoder reads the literal `appendString` writes for `s` back as `s` coerced to
valid UTF-8, and stops after the closing quote. -/
theorem unquoteBody_appendStringBody (s rest : List Nat) :
    unquoteBody (appendStringBody s 0 ++ 0x22 :: rest) 0 = some (coerceUTF8 s, rest) := by
  generalize h : s.length = n
  induction n using Nat.strong_induction_on generalizing s with
  | _ n ih =>
    cases s with
    | nil => simp [appendStringBody, unquoteBody, coerceUTF8, coerceUTF8Aux]
    | cons b r =>
      obtain ⟨c, out, e1, e2, e3, e4⟩ :=
        unquoteStep_appendStringStep b r
          (appendStringBody (r.drop ((DecodeRune (b :: r)).2 - 1)) 0 ++ 0x22 :: rest)
      have hstep : appendStringBody (b :: r) 0 =
          c :: (out ++ appendStringBody (r.drop ((DecodeRune (b :: r)).2 - 1)) 0) := by
        rw [appendStringBody, e1, e4, appendStringBody_skip r]
        simp
      rw [hstep]
      simp only [List.cons_append, List.append_assoc]
      rw [unquoteBody, if_neg e2, e3]
      simp only [Nat.add_one_sub_one]
      rw [unquoteBody_skip]
      have hlt : (r.drop ((DecodeRune (b :: r)).2 - 1)).length < n := by
        rw [← h]; simp; omega
      rw [ih _ hlt _ rfl]
      simp only [coerceUTF8, coerceUTF8Aux]
      rw [coerceUTF8Aux_skip r]

/-- The scanner's walk through the literal that `appendString` writes. -/
theorem unquote_appendString (s rest : List Nat) :
    unquoteBody ((appendString s).tail ++ rest) 0 = some (coerceUTF8 s, rest) := by
  have := unquoteBody_appendStringBody s rest
  simpa [appendString] using this

/-- Coercion leaves valid UTF-8 as it is. -/
theorem coerceUTF8_valid (s : List Nat) (hv : validUTF8 s = true) : coerceUTF8 s = s := by
  generalize h : s.length = n
  induction n using Nat.strong_induction_on generalizing s with
  | _ n ih =>
    cases s with
    | nil => rfl
    | cons b r =>
      simp only [validUTF8, validUTF8Aux] at hv
      by_cases h2 : (DecodeRune (b :: r)).1 = RuneError ∧ (DecodeRune (b :: r)).2 = 1
      · simp [h2] at hv
      · rw [if_neg h2, validUTF8Aux_skip] at hv
        have hp := DecodeRune_size_pos b r
        have hlt : (r.drop ((DecodeRune (b :: r)).2 - 1)).length < n := by
          rw [← h]; simp; omega
        have ih' := ih _ hlt _ hv rfl
        simp only [coerceUTF8, coerceUTF8Aux] at ih' ⊢
        rw [coerceUTF8Aux_skip, ih', EncodeRune_DecodeRune b r h2]
        obtain ⟨k, hk⟩ : ∃ k, (DecodeRune (b :: r)).2 = k + 1 := ⟨_, (Nat.sub_add_cancel hp).symm⟩
        rw [hk]
        simp

/-- Coercion leaves ASCII text as it is. -/
theorem coerceUTF8_ascii (s : List Nat) (hs : ∀ b ∈ s, b < 0x80) : coerceUTF8 s = s := by
  induction s with
  | nil => rfl
  | cons b r ih =>
    have hb : b < 0x80 := hs b (List.mem_cons_self _ _)
    have hd : DecodeRune (b :: r) = (b, 1) := by simp [DecodeRune, hb]
    have ih' := ih (fun x hx => hs x (List.mem_cons_of_mem _ hx))
    simp only [coerceUTF8, coerceUTF8Aux] at ih' ⊢
    rw [hd, EncodeRune_ascii b hb]
    simp [ih']

/-! ## Number literals -/

theorem parseDigitsAux_append (xs : List Nat) (d acc : Nat) (hd : isDigit d = true) :
    parseDigitsAux (xs ++ [d]) acc = (parseDigitsAux xs acc).map (fun v => v * 10 + (d - 0x30)) := by
  induction xs generalizing acc with
  | nil => simp [parseDigitsAux, hd]
  | cons x xs ih =>
    simp only [List.cons_append, parseDigitsAux]
    split_ifs
    · exact ih _
    · rfl

/-- The shape of the digits of a number: a single `0`, or a digit `1..9` and digits. -/
theorem formatNatAux_shape (f n : Nat) (h : n < f) :
    ∃ d ds, formatNatAux f n = d :: ds ∧ isDigit d = true ∧ (∀ x ∈ ds, isDigit x = true) ∧
      (n = 0 → d = 0x30 ∧ ds = []) ∧ (n ≠ 0 → d ≠ 0x30) ∧
      parseDigitsAux (formatNatAux f n) 0 = some n := by
  induction f generalizing n with
  | zero => omega
  | succ f ih =>
    unfold formatNatAux
    by_cases h1 : n < 10
    · rw [if_pos h1]
      refine ⟨0x30 + n, [], rfl, by simp [isDigit]; omega, by simp, ?_, ?_, ?_⟩
      · intro h0; subst h0; exact ⟨rfl, rfl⟩
      · intro h0; omega
      · have hd : isDigit (0x30 + n) = true := by simp [isDigit]; omega
        simp [parseDigitsAux, hd]
    · rw [if_neg h1]
      obtain ⟨d, ds, e, hd, hds, _, hnz, hp⟩ := ih (n / 10) (by omega)
      have hl : isDigit (0x30 + n % 10) = true := by simp [isDigit]; omega
      refine ⟨d, ds ++ [0x30 + n % 10], by rw [e]; rfl, hd, ?_, ?_, ?_, ?_⟩
      · intro x hx
        simp only [List.mem_append, List.mem_singleton] at hx
        rcases hx with hx | rfl
        · exact hds x hx
        · exact hl
      · intro h0; omega
      · intro _; exact hnz (by omega)
      · rw [parseDigitsAux_append _ _ _ hl, hp]
        simp only [Option.map_some', Option.some.injEq]
        omega

theorem formatNat_shape (n : Nat) :
    ∃ d ds, formatNat n = d :: ds ∧ isDigit d = true ∧ (∀ x ∈ ds, isDigit x = true) ∧
      (n = 0 → d = 0x30 ∧ ds = []) ∧ (n ≠ 0 → d ≠ 0x30) :=
  let ⟨d, ds, e, h1, h2, h3, h4, _⟩ := formatNatAux_shape (n + 1) n (by omega)
  ⟨d, ds, e, h1, h2, h3, h4⟩

theorem parseDigits_formatNat (n : Nat) : parseDigits (formatNat n) = some n := by
  obtain ⟨d, ds, e, _, _, _, _, hp⟩ := formatNatAux_shape (n + 1) n (by omega)
  unfold formatNat at *
  rw [e] at hp ⊢
  exact hp

theorem parseInt64_formatInt (i : Int) (hlo : -(2 ^ 63 : Int) ≤ i) (hhi : i < (2 ^ 63 : Int)) :
    parseInt64 (formatInt i) = some i := by
  unfold formatInt
  by_cases hneg : i < 0
  · rw [if_pos hneg]
    unfold parseInt64
    simp only [if_true]
    rw [parseDigits_formatNat]
    simp only
    have : i.natAbs ≤ 2 ^ 63 := by omega
    rw [if_pos this]
    congr 1
    omega
  · rw [if_neg hneg]
    obtain ⟨d, ds, e, hd, _, _, _⟩ := formatNat_shape i.natAbs
    have hp := parseDigits_formatNat i.natAbs
    rw [e] at hp ⊢
    have hd' := isDigit_iff.1 hd
    unfold parseInt64
    simp only
    rw [if_neg (by omega), hp]
    simp only
    have : i.natAbs < 2 ^ 63 := by omega
    rw [if_pos this]
    congr 1
    omega

theorem spanDigits_append (r t : List Nat) (ht : ∀ c, t.head? = some c → isDigit c = false) :
    spanDigits (r ++ t) = ((spanDigits r).1, (spanDigits r).2 ++ t) := by
  induction r with
  | nil =>
    cases t with
    | nil => rfl
    | cons c t' =>
      have := ht c rfl
      simp [spanDigits, this]
  | cons x xs ih =>
    by_cases hx : isDigit x = true
    · simp [spanDigits, hx, ih]
    · simp [spanDigits, hx]

theorem spanDigits_all (ds : List Nat) (h : ∀ x ∈ ds, isDigit x = true) :
    spanDigits ds = (ds, []) := by
  induction ds with
  | nil => rfl
  | cons x xs ih =>
    have hx := h x (List.mem_cons_self _ _)
    have := ih (fun y hy => h y (List.mem_cons_of_mem _ hy))
    simp [spanDigits, hx, this]

theorem scanExp_append (acc s lit t : List Nat) (h : scanExp acc s = some (lit, []))
    (ht : numStop t) : scanExp acc (s ++ t) = some (lit, t) := by
  have htd : ∀ c, t.head? = some c → isDigit c = false := fun c hc => (ht c hc).1
  unfold scanExp at h
  cases s with
  | nil =>
    simp only [Option.some.injEq, Prod.mk.injEq, and_true] at h
    subst h
    cases t with
    | nil => rfl
    | cons c t' =>
      have := ht c rfl
      unfold scanExp
      simp only [List.nil_append]
      rw [if_neg (by omega)]
  | cons c r0 =>
    simp only at h
    by_cases h1 : c = 0x65 ∨ c = 0x45
    · rw [if_pos h1] at h
      cases r0 with
      | nil => simp at h
      | cons g r1 =>
        simp only at h
        unfold scanExp
        simp only [List.cons_append]
        rw [if_pos h1]
        by_cases h2 : g = 0x2B ∨ g = 0x2D
        · rw [if_pos h2] at h ⊢
          by_cases h3 : (spanDigits r1).1 = []
          · simp [h3] at h
          · rw [if_neg h3] at h
            simp only [Option.some.injEq, Prod.mk.injEq] at h
            rw [spanDigits_append r1 t htd]
            simp only
            rw [if_neg h3, h.2, h.1]
            rfl
        · rw [if_neg h2] at h ⊢
          by_cases h3 : (spanDigits (g :: r1)).1 = []
          · simp [h3] at h
          · rw [if_neg h3] at h
            simp only [Option.some.injEq, Prod.mk.injEq] at h
            have := spanDigits_append (g :: r1) t htd
            simp only [List.cons_append] at this
            rw [this]
            simp only
            rw [if_neg h3, h.2, h.1]
            rfl
    · rw [if_neg h1] at h
      simp at h

theorem scanFrac_append (acc s lit t : List Nat) (h : scanFrac acc s = some (lit, []))
    (ht : numStop t) : scanFrac acc (s ++ t) = some (lit, t) := by
  have htd : ∀ c, t.head? = some c → isDigit c = false := fun c hc => (ht c hc).1
  unfold scanFrac at h
  cases s with
  | nil =>
    simp only [Option.some.injEq, Prod.mk.injEq, and_true] at h
    subst h
    cases t with
    | nil => rfl
    | cons c t' =>
      have := ht c rfl
      unfold scanFrac scanExp
      simp only [List.nil_append]
      rw [if_neg (by omega), if_neg (by omega)]
  | cons c r0 =>
    simp only at h
    unfold scanFrac
    simp only [List.cons_append]
    by_cases h1 : c = 0x2E
    · rw [if_pos h1] at h ⊢
      by_cases h3 : (spanDigits r0).1 = []
      · simp [h3] at h
      · rw [if_neg h3] at h
        rw [spanDigits_append r0 t htd]
        simp only
        rw [if_neg h3]
        exact scanExp_append _ _ _ _ h ht
    · rw [if_neg h1] at h ⊢
      have := scanExp_append _ _ _ _ h ht
      simpa using this

theorem scanInt_append (acc s lit t : List Nat) (h : scanInt acc s = some (lit, []))
    (ht : numStop t) : scanInt acc (s ++ t) = some (lit, t) := by
  have htd : ∀ c, t.head? = some c → isDigit c = false := fun c hc => (ht c hc).1
  unfold scanInt at h
  cases s with
  | nil => simp at h
  | cons c r0 =>
    simp only at h
    unfold scanInt
    simp only [List.cons_append]
    by_cases h1 : c = 0x30
    · rw [if_pos h1] at h ⊢
      exact scanFrac_append _ _ _ _ h ht
    · rw [if_neg h1] at h ⊢
      by_cases h2 : isDigit c = true
      · rw [if_pos h2] at h ⊢
        rw [spanDigits_append r0 t htd]
        exact scanFrac_append _ _ _ _ h ht
      · simp [h2] at h

/-- A number literal followed by a byte that cannot continue it is scanned whole. -/
theorem scanNumber_append (lit t : List Nat) (h : isValidNumber lit = true) (ht : numStop t) :
    scanNumber (lit ++ t) = some (lit, t) := by
  simp only [isValidNumber, decide_eq_true_eq] at h
  unfold scanNumber at h
  cases lit with
  | nil => simp at h
  | cons c r0 =>
    simp only at h
    unfold scanNumber
    simp only [List.cons_append]
    by_cases h1 : c = 0x2D
    · rw [if_pos h1] at h ⊢
      exact scanInt_append _ _ _ _ h ht
    · rw [if_neg h1] at h ⊢
      have := scanInt_append _ _ _ _ h ht
      simpa using this

theorem scanInt_formatNat (acc : List Nat) (n : Nat) :
    scanInt acc (formatNat n) = some (acc ++ formatNat n, []) := by
  obtain ⟨d, ds, e, hd, hds, h0, hnz⟩ := formatNat_shape n
  rw [e]
  unfold scanInt
  simp only
  by_cases hn : n = 0
  · obtain ⟨rfl, rfl⟩ := h0 hn
    rw [if_pos rfl]
    rfl
  · rw [if_neg (hnz hn), if_pos hd, spanDigits_all ds hds]
    rfl

theorem isValidNumber_formatInt (i : Int) : isValidNumber (formatInt i) = true := by
  simp only [isValidNumber, decide_eq_true_eq]
  unfold formatInt
  by_cases hneg : i < 0
  · rw [if_pos hneg]
    unfold scanNumber
    simp only [if_true]
    rw [scanInt_formatNat]
    rfl
  · rw [if_neg hneg]
    obtain ⟨d, ds, e, hd, _, _, _⟩ := formatNat_shape i.natAbs
    have hd' := isDigit_iff.1 hd
    have := scanInt_formatNat [] i.natAbs
    rw [e] at this ⊢
    unfold scanNumber
    simp only
    rw [if_neg (by omega), this]
    rfl

/-! ## The decoder reads back what the encoder writes -/

theorem skipWS_cons (c : Nat) (r : List Nat) (h : isSpace c = false) :
    skipWS (c :: r) = c :: r := by
  simp [skipWS, h]

theorem isValidNumber_head (lit : List Nat) (h : isValidNumber lit = true) :
    ∃ c r, lit = c :: r ∧ (c = 0x2D ∨ isDigit c = true) := by
  simp only [isValidNumber, decide_eq_true_eq] at h
  cases lit with
  | nil => simp [scanNumber] at h
  | cons c r =>
    refine ⟨c, r, rfl, ?_⟩
    by_cases h1 : c = 0x2D
    · exact Or.inl h1
    · right
      simp only [scanNumber, if_neg h1, scanInt] at h
      by_cases h2 : c = 0x30
      · subst h2; rfl
      · rw [if_neg h2] at h
        by_cases h3 : isDigit c = true
        · exact h3
        · simp [h3] at h

/-- The first byte of a rendered value. -/
theorem JSON.render_head (j : JSON) (bs : List Nat) (h : j.render = some bs) :
    ∃ c r, bs = c :: r ∧ isSpace c = false ∧ c ≠ 0x5D ∧ c ≠ 0x7D := by
  cases j with
  | null => simp only [JSON.render, Option.some.injEq] at h; subst h; exact ⟨_, _, rfl, by decide⟩
  | bool b =>
    cases b <;> simp only [JSON.render, Option.some.injEq] at h <;> subst h <;>
      exact ⟨_, _, rfl, by decide⟩
  | num lit =>
    simp only [JSON.render] at h
    split_ifs at h with hv
    simp only [Option.some.injEq] at h; subst h
    obtain ⟨c, r, rfl, hc⟩ := isValidNumber_head _ hv
    refine ⟨c, r, rfl, ?_⟩
    rcases hc with rfl | hc
    · decide
    · have := isDigit_iff.1 hc
      refine ⟨?_, by omega, by omega⟩
      simp [isSpace]; omega
  | str s =>
    simp only [JSON.render, Option.some.injEq] at h; subst h
    exact ⟨_, _, rfl, by decide⟩
  | arr xs =>
    cases xs with
    | nil => simp only [JSON.render, Option.some.injEq] at h; subst h; exact ⟨_, _, rfl, by decide⟩
    | cons x xs =>
      simp only [JSON.render] at h
      cases hx : x.render <;> cases hxs : JSON.renderElems xs <;> simp [hx, hxs] at h
      subst h; exact ⟨_, _, rfl, by decide⟩
  | obj ms =>
    cases ms with
    | nil => simp only [JSON.render, Option.some.injEq] at h; subst h; exact ⟨_, _, rfl, by decide⟩
    | cons kx ms =>
      obtain ⟨k, x⟩ := kx
      simp only [JSON.render] at h
      cases hx : x.render <;> cases hxs : JSON.renderMembers ms <;> simp [hx, hxs] at h
      subst h; exact ⟨_, _, rfl, by decide⟩

theorem numStop_cons (c : Nat) (t : List Nat) (h : c = 0x2C ∨ c = 0x5D ∨ c = 0x7D) :
    numStop (c :: t) := by
  intro d hd
  simp only [List.head?_cons, Option.some.injEq] at hd
  subst hd
  rcases h with rfl | rfl | rfl <;> decide

theorem numStop_nil : numStop [] := by
  intro d hd; simp at hd

theorem JSON.renderElems_head (xs : List JSON) (bs : List Nat) (h : JSON.renderElems xs = some bs) :
    ∃ c r, bs = c :: r ∧ (c = 0x2C ∨ c = 0x5D ∨ c = 0x7D) := by
  cases xs with
  | nil => simp only [JSON.renderElems, Option.some.injEq] at h; subst h; exact ⟨_, _, rfl, by decide⟩
  | cons x xs =>
    simp only [JSON.renderElems] at h
    cases hx : x.render <;> cases hxs : JSON.renderElems xs <;> simp [hx, hxs] at h
    subst h; exact ⟨_, _, rfl, by decide⟩

theorem JSON.renderMembers_head (ms : List (List Nat × JSON)) (bs : List Nat)
    (h : JSON.renderMembers ms = some bs) :
    ∃ c r, bs = c :: r ∧ (c = 0x2C ∨ c = 0x5D ∨ c = 0x7D) := by
  cases ms with
  | nil => simp only [JSON.renderMembers, Option.some.injEq] at h; subst h; exact ⟨_, _, rfl, by decide⟩
  | cons kx ms =>
    obtain ⟨k, x⟩ := kx
    simp only [JSON.renderMembers] at h
    cases hx : x.render <;> cases hxs : JSON.renderMembers ms <;> simp [hx, hxs] at h
    subst h; exact ⟨_, _, rfl, by decide⟩

theorem appendString_length (k : List Nat) : 2 ≤ (appendString k).length := by
  simp [appendString]

/-- One member: the key literal, the colon and a value that is read back. -/
theorem parseMember_step (f depth : Nat) (k a t : List Nat) (v : JSON)
    (hv : parseValue f depth (a ++ t) = some (v, t)) :
    parseMember (f + 1) depth (appendString k ++ 0x3A :: (a ++ t)) =
      some ((coerceUTF8 k, v), t) := by
  have hq := unquoteBody_appendStringBody k (0x3A :: (a ++ t))
  have e : appendString k ++ 0x3A :: (a ++ t) =
      0x22 :: (appendStringBody k 0 ++ 0x22 :: 0x3A :: (a ++ t)) := by
    simp [appendString]
  rw [e, parseMember, skipWS_cons _ _ (by decide)]
  simp only [if_true]
  rw [hq]
  simp only
  rw [skipWS_cons _ _ (by decide)]
  simp only [if_true]
  rw [hv]

mutual
/-- The decoder reads the text of a value back as the value (strings coerced to valid
UTF-8) and stops right after it. -/
theorem parseValue_render : ∀ (j : JSON) (bs : List Nat) (f depth : Nat) (rest : List Nat),
    j.render = some bs → bs.length ≤ f → numStop rest →
    depth + j.depth ≤ maxNestingDepth →
    parseValue f depth (bs ++ rest) = some (j.coerce, rest)
  | .null, bs, f, depth, rest, h, hf, _, _ => by
    simp only [JSON.render, Option.some.injEq] at h; subst h
    obtain ⟨f, rfl⟩ : ∃ g, f = g + 1 := ⟨f - 1, by simp at hf; omega⟩
    simp [parseValue, skipWS, isSpace, JSON.coerce]
  | .bool true, bs, f, depth, rest, h, hf, _, _ => by
    simp only [JSON.render, Option.some.injEq] at h; subst h
    obtain ⟨f, rfl⟩ : ∃ g, f = g + 1 := ⟨f - 1, by simp at hf; omega⟩
    simp [parseValue, skipWS, isSpace, JSON.coerce]
  | .bool false, bs, f, depth, rest, h, hf, _, _ => by
    simp only [JSON.render, Option.some.injEq] at h; subst h
    obtain ⟨f, rfl⟩ : ∃ g, f = g + 1 := ⟨f - 1, by simp at hf; omega⟩
    simp [parseValue, skipWS, isSpace, JSON.coerce]
  | .num lit, bs, f, depth, rest, h, hf, hrest, _ => by
    simp only [JSON.render] at h
    split_ifs at h with hv
    simp only [Option.some.injEq] at h; subst h
    obtain ⟨c, r, rfl, hc⟩ := isValidNumber_head _ hv
    obtain ⟨f, rfl⟩ : ∃ g, f = g + 1 := ⟨f - 1, by simp at hf; omega⟩
    have hsc := scanNumber_append _ rest hv hrest
    have hcb : c = 0x2D ∨ (0x30 ≤ c ∧ c ≤ 0x39) := by
      rcases hc with hc | hc
      · exact Or.inl hc
      · exact Or.inr (isDigit_iff.1 hc)
    have hsp : isSpace c = false := by simp [isSpace]; omega
    rw [List.cons_append] at hsc ⊢
    rw [parseValue, skipWS_cons _ _ hsp]
    simp only
    rw [if_neg (by omega), if_neg (by omega), if_neg (by omega), if_neg (by omega),
      if_neg (by omega), if_neg (by omega), hsc]
    rfl
  | .str s, bs, f, depth, rest, h, hf, _, _ => by
    simp only [JSON.render, Option.some.injEq] at h; subst h
    obtain ⟨f, rfl⟩ : ∃ g, f = g + 1 := ⟨f - 1, by simp [appendString] at hf; omega⟩
    have hq := unquoteBody_appendStringBody s rest
    have e : appendString s ++ rest = 0x22 :: (appendStringBody s 0 ++ 0x22 :: rest) := by
      simp [appendString]
    rw [e, parseValue, skipWS_cons _ _ (by decide)]
    simp only
    rw [if_neg (by decide), if_neg (by decide), if_true, hq]
    rfl
  | .arr [], bs, f, depth, rest, h, hf, _, hd => by
    simp only [JSON.render, Option.some.injEq] at h; subst h
    obtain ⟨f, rfl⟩ : ∃ g, f = g + 1 := ⟨f - 1, by simp at hf; omega⟩
    have hlt : ¬ maxNestingDepth < depth + 1 := by
      simp only [JSON.depth, JSON.depthElems] at hd; omega
    simp [parseValue, skipWS, isSpace, JSON.coerce, JSON.coerceElems, hlt]
  | .arr (x :: xs), bs, f, depth, rest, h, hf, _, hd => by
    simp only [JSON.depth, JSON.depthElems] at hd
    have hlt : ¬ maxNestingDepth < depth + 1 := by omega
    simp only [JSON.render] at h
    cases hx : x.render with
    | none => simp [hx] at h
    | some a =>
      cases hxs : JSON.renderElems xs with
      | none => simp [hx, hxs] at h
      | some b =>
        simp only [hx, hxs, Option.some.injEq] at h; subst h
        obtain ⟨f, rfl⟩ : ∃ g, f = g + 1 := ⟨f - 1, by simp at hf; omega⟩
        simp only [List.length_cons, List.length_append] at hf
        obtain ⟨c, r, rfl, hc1, hc2, _⟩ := JSON.render_head x a hx
        obtain ⟨d, r', rfl, hd'⟩ := JSON.renderElems_head xs b hxs
        have ih1 := parseValue_render x (c :: r) f (depth + 1) (d :: r' ++ rest) hx
          (by simp only [List.length_cons] at hf ⊢; omega) (numStop_cons d _ hd')
          (by have := le_max_left x.depth (JSON.depthElems xs); omega)
        have ih2 := parseElems_render xs (d :: r') f (depth + 1) rest hxs
          (by simp only [List.length_cons] at hf ⊢; omega)
          (by have := le_max_right x.depth (JSON.depthElems xs); omega)
        have e : (0x5B :: (c :: r ++ d :: r')) ++ rest = 0x5B :: c :: (r ++ (d :: r' ++ rest)) := by
          simp
        rw [e, parseValue, skipWS_cons _ _ (by decide)]
        simp only
        rw [if_neg (by decide), if_true, if_neg hlt, skipWS_cons _ _ hc1]
        simp only
        rw [if_neg hc2]
        simp only [List.cons_append] at ih1 ih2 ⊢
        rw [ih1]
        simp only
        rw [ih2]
        simp [JSON.coerce, JSON.coerceElems]
  | .obj [], bs, f, depth, rest, h, hf, _, hd => by
    simp only [JSON.render, Option.some.injEq] at h; subst h
    obtain ⟨f, rfl⟩ : ∃ g, f = g + 1 := ⟨f - 1, by simp at hf; omega⟩
    have hlt : ¬ maxNestingDepth < depth + 1 := by
      simp only [JSON.depth, JSON.depthMembers] at hd; omega
    simp [parseValue, skipWS, isSpace, JSON.coerce, JSON.coerceMembers, hlt]
  | .obj ((k, x) :: ms), bs, f, depth, rest, h, hf, _, hd => by
    simp only [JSON.depth, JSON.depthMembers] at hd
    have hlt : ¬ maxNestingDepth < depth + 1 := by omega
    simp only [JSON.render] at h
    cases hx : x.render with
    | none => simp [hx] at h
    | some a =>
      cases hxs : JSON.renderMembers ms with
      | none => simp [hx, hxs] at h
      | some b =>
        simp only [hx, hxs, Option.some.injEq] at h; subst h
        obtain ⟨f, rfl⟩ : ∃ g, f = g + 1 := ⟨f - 1, by simp at hf; omega⟩
        have hk := appendString_length k
        simp only [List.length_cons, List.length_append] at hf
        obtain ⟨f, rfl⟩ : ∃ g, f = g + 1 := ⟨f - 1, by omega⟩
        obtain ⟨d, r', rfl, hd'⟩ := JSON.renderMembers_head ms b hxs
        have ih1 := parseValue_render x a f (depth + 1) (d :: r' ++ rest) hx
          (by simp only [List.length_cons] at hf; omega) (numStop_cons d _ hd')
          (by have := le_max_left x.depth (JSON.depthMembers ms); omega)
        have ih2 := parseMembers_render ms (d :: r') (f + 1) (depth + 1) rest hxs
          (by simp only [List.length_cons] at hf ⊢; omega)
          (by have := le_max_right x.depth (JSON.depthMembers ms); omega)
        have hm := parseMember_step f (depth + 1) k a (d :: r' ++ rest) x.coerce ih1
        have e : (0x7B :: (appendString k ++ 0x3A :: (a ++ d :: r'))) ++ rest =
            0x7B :: 0x22 :: (appendStringBody k 0 ++ 0x22 :: 0x3A :: (a ++ (d :: r' ++ rest))) := by
          simp [appendString]
        have e2 : appendString k ++ 0x3A :: (a ++ (d :: r' ++ rest)) =
            0x22 :: (appendStringBody k 0 ++ 0x22 :: 0x3A :: (a ++ (d :: r' ++ rest))) := by
          simp [appendString]
        rw [e2] at hm
        rw [e, parseValue, skipWS_cons _ _ (by decide)]
        simp only
        rw [if_true, if_neg hlt, skipWS_cons _ _ (by decide)]
        simp only
        rw [if_neg (by decide), hm]
        simp only
        rw [ih2]
        simp [JSON.coerce, JSON.coerceMembers]
/-- The rest of an array is read back. -/
theorem parseElems_render :
    ∀ (xs : List JSON) (bs : List Nat) (f depth : Nat) (rest : List Nat),
    JSON.renderElems xs = some bs → bs.length ≤ f →
    depth + JSON.depthElems xs ≤ maxNestingDepth →
    parseElems f depth (bs ++ rest) = some (JSON.coerceElems xs, rest)
  | [], bs, f, depth, rest, h, hf, _ => by
    simp only [JSON.renderElems, Option.some.injEq] at h; subst h
    obtain ⟨f, rfl⟩ : ∃ g, f = g + 1 := ⟨f - 1, by simp at hf; omega⟩
    simp [parseElems, skipWS, isSpace, JSON.coerceElems]
  | x :: xs, bs, f, depth, rest, h, hf, hd => by
    simp only [JSON.depthElems] at hd
    simp only [JSON.renderElems] at h
    cases hx : x.render with
    | none => simp [hx] at h
    | some a =>
      cases hxs : JSON.renderElems xs with
      | none => simp [hx, hxs] at h
      | some b =>
        simp only [hx, hxs, Option.some.injEq] at h; subst h
        obtain ⟨f, rfl⟩ : ∃ g, f = g + 1 := ⟨f - 1, by simp at hf; omega⟩
        simp only [List.length_cons, List.length_append] at hf
        obtain ⟨d, r', rfl, hd'⟩ := JSON.renderElems_head xs b hxs
        have ih1 := parseValue_render x a f depth (d :: r' ++ rest) hx
          (by omega) (numStop_cons d _ hd')
          (by have := le_max_left x.depth (JSON.depthElems xs); omega)
        have ih2 := parseElems_render xs (d :: r') f depth rest hxs
          (by simp only [List.length_cons] at hf ⊢; omega)
          (by have := le_max_right x.depth (JSON.depthElems xs); omega)
        have e : (0x2C :: (a ++ d :: r')) ++ rest = 0x2C :: (a ++ (d :: r' ++ rest)) := by
          simp
        rw [e, parseElems, skipWS_cons _ _ (by decide)]
        simp only
        rw [if_neg (by decide), if_true, ih1]
        simp only
        rw [ih2]
        simp [JSON.coerceElems]
/-- The rest of an object is read back. -/
theorem parseMembers_render :
    ∀ (ms : List (List Nat × JSON)) (bs : List Nat) (f depth : Nat) (rest : List Nat),
    JSON.renderMembers ms = some bs → bs.length ≤ f →
    depth + JSON.depthMembers ms ≤ maxNestingDepth →
    parseMembers f depth (bs ++ rest) = some (JSON.coerceMembers ms, rest)
  | [], bs, f, depth, rest, h, hf, _ => by
    simp only [JSON.renderMembers, Option.some.injEq] at h; subst h
    obtain ⟨f, rfl⟩ : ∃ g, f = g + 1 := ⟨f - 1, by simp at hf; omega⟩
    simp [parseMembers, skipWS, isSpace, JSON.coerceMembers]
  | (k, x) :: ms, bs, f, depth, rest, h, hf, hd => by
    simp only [JSON.depthMembers] at hd
    simp only [JSON.renderMembers] at h
    cases hx : x.render with
    | none => simp [hx] at h
    | some a =>
      cases hxs : JSON.renderMembers ms with
      | none => simp [hx, hxs] at h
      | some b =>
        simp only [hx, hxs, Option.some.injEq] at h; subst h
        obtain ⟨f, rfl⟩ : ∃ g, f = g + 1 := ⟨f - 1, by simp at hf; omega⟩
        have hk := appendString_length k
        simp only [List.length_cons, List.length_append] at hf
        obtain ⟨f, rfl⟩ : ∃ g, f = g + 1 := ⟨f - 1, by omega⟩
        obtain ⟨d, r', rfl, hd'⟩ := JSON.renderMembers_head ms b hxs
        have ih1 := parseValue_render x a f depth (d :: r' ++ rest) hx
          (by simp only [List.length_cons] at hf; omega) (numStop_cons d _ hd')
          (by have := le_max_left x.depth (JSON.depthMembers ms); omega)
        have ih2 := parseMembers_render ms (d :: r') (f + 1) depth rest hxs
          (by simp only [List.length_cons] at hf ⊢; omega)
          (by have := le_max_right x.depth (JSON.depthMembers ms); omega)
        have hm := parseMember_step f depth k a (d :: r' ++ rest) x.coerce ih1
        have e : (0x2C :: (appendString k ++ 0x3A :: (a ++ d :: r'))) ++ rest =
            0x2C :: (appendString k ++ 0x3A :: (a ++ (d :: r' ++ rest))) := by
          simp
        rw [e, parseMembers, skipWS_cons _ _ (by decide)]
        simp only
        rw [if_neg (by decide), if_true, hm]
        simp only
        rw [ih2]
        simp [JSON.coerceMembers]
end

/-- The decoder reads the whole text of a value that nests no deeper than its limit
back as the value with its strings coerced to valid UTF-8. -/
theorem parseJSON_render (j : JSON) (bs : List Nat) (h : j.render = some bs)
    (hd : j.depth ≤ maxNestingDepth) :
    parseJSON bs = some j.coerce := by
  have := parseValue_render j bs (bs.length + 1) 0 [] h (by omega) numStop_nil (by omega)
  rw [List.append_nil] at this
  simp [parseJSON, this, skipWS]

/-! ## base64 -/

theorem b64Val_b64Char (n : Nat) (h : n < 64) : b64Val (b64Char n) = some n := by
  unfold b64Char b64Val
  by_cases h1 : n < 26
  · rw [if_pos h1, if_pos (by omega)]; congr 1; omega
  rw [if_neg h1]
  by_cases h2 : n < 52
  · rw [if_pos h2, if_neg (by omega), if_pos (by omega)]; congr 1; omega
  rw [if_neg h2]
  by_cases h3 : n < 62
  · rw [if_pos h3, if_neg (by omega), if_neg (by omega), if_pos (by omega)]; congr 1; omega
  rw [if_neg h3]
  by_cases h4 : n = 62
  · rw [if_pos h4]; subst h4; rfl
  · rw [if_neg h4]
    have : n = 63 := by omega
    subst this; rfl

theorem b64Char_range (n : Nat) :
    b64Char n < 0x80 ∧ b64Char n ≠ 0x3D ∧ b64Char n ≠ 0x0D ∧ b64Char n ≠ 0x0A := by
  unfold b64Char
  split_ifs <;> omega

theorem b64Encode_range (bs : List Nat) :
    ∀ c ∈ b64Encode bs, c < 0x80 ∧ c ≠ 0x0D ∧ c ≠ 0x0A := by
  induction bs using b64Encode.induct with
  | case1 a b c rest ih =>
    intro x hx
    simp only [b64Encode, List.mem_cons] at hx
    rcases hx with rfl | rfl | rfl | rfl | hx
    · have := b64Char_range (a / 4); omega
    · have := b64Char_range (a % 4 * 16 + b / 16); omega
    · have := b64Char_range (b % 16 * 4 + c / 64); omega
    · have := b64Char_range (c % 64); omega
    · exact ih x hx
  | case2 a b =>
    intro x hx
    simp only [b64Encode, List.mem_cons, List.mem_singleton, List.not_mem_nil, or_false] at hx
    rcases hx with rfl | rfl | rfl | rfl
    · have := b64Char_range (a / 4); omega
    · have := b64Char_range (a % 4 * 16 + b / 16); omega
    · have := b64Char_range (b % 16 * 4); omega
    · omega
  | case3 a =>
    intro x hx
    simp only [b64Encode, List.mem_cons, List.mem_singleton, List.not_mem_nil, or_false] at hx
    rcases hx with rfl | rfl | rfl | rfl
    · have := b64Char_range (a / 4); omega
    · have := b64Char_range (a % 4 * 16); omega
    · omega
    · omega
  | case4 => simp [b64Encode]

theorem b64DecodeQuanta_b64Encode (bs : List Nat) (h : ∀ b ∈ bs, b < 256) :
    b64DecodeQuanta (b64Encode bs) = some bs := by
  induction bs using b64Encode.induct with
  | case1 a b c rest ih =>
    have ha : a < 256 := h a (by simp)
    have hb : b < 256 := h b (by simp)
    have hc : c < 256 := h c (by simp)
    have ih' := ih (fun x hx => h x (by simp [hx]))
    have r3 := b64Char_range (b % 16 * 4 + c / 64)
    have r4 := b64Char_range (c % 64)
    simp only [b64Encode, b64DecodeQuanta]
    rw [b64Val_b64Char _ (by omega), b64Val_b64Char _ (by omega)]
    simp only
    rw [if_neg r3.2.1, b64Val_b64Char _ (by omega)]
    simp only
    rw [if_neg r4.2.1, b64Val_b64Char _ (by omega), ih']
    simp only [Option.some.injEq, List.cons.injEq, and_true]
    refine ⟨by omega, by omega, by omega⟩
  | case2 a b =>
    have ha : a < 256 := h a (by simp)
    have hb : b < 256 := h b (by simp)
    have r3 := b64Char_range (b % 16 * 4)
    simp only [b64Encode, b64DecodeQuanta]
    rw [b64Val_b64Char _ (by omega), b64Val_b64Char _ (by omega)]
    simp only
    rw [if_neg r3.2.1, b64Val_b64Char _ (by omega)]
    simp only [if_true]
    simp only [Option.some.injEq, List.cons.injEq, and_true]
    refine ⟨by omega, by omega⟩
  | case3 a =>
    have ha : a < 256 := h a (by simp)
    simp only [b64Encode, b64DecodeQuanta]
    rw [b64Val_b64Char _ (by omega), b64Val_b64Char _ (by omega)]
    simp only [if_true, and_self]
    simp only [Option.some.injEq, List.cons.injEq, and_true]
    omega
  | case4 => rfl

/-- Decoding the standard base64 text of a byte string gives the byte string. -/
theorem b64Decode_b64Encode (bs : List Nat) (h : ∀ b ∈ bs, b < 256) :
    b64Decode (b64Encode bs) = some bs := by
  unfold b64Decode
  have : (b64Encode bs).filter (fun c => decide (c ≠ 0x0D) && decide (c ≠ 0x0A)) = b64Encode bs := by
    rw [List.filter_eq_self]
    intro c hc
    have := b64Encode_range bs c hc
    simp [this.2.1, this.2.2]
  rw [this]
  exact b64DecodeQuanta_b64Encode bs h

theorem coerceUTF8_b64Encode (bs : List Nat) : coerceUTF8 (b64Encode bs) = b64Encode bs :=
  coerceUTF8_ascii _ (fun c hc => (b64Encode_range bs c hc).1)

/-! ## RFC 3339 text of a time -/

theorem digitsFixed_two (n : Nat) :
    digitsFixed 2 n = [0x30 + n / 10 % 10, 0x30 + n % 10] := rfl

theorem digitsFixed_four (n : Nat) :
    digitsFixed 4 n =
      [0x30 + n / 10 / 10 / 10 % 10, 0x30 + n / 10 / 10 % 10, 0x30 + n / 10 % 10, 0x30 + n % 10] :=
  rfl

theorem isDigit_add (a : Nat) (h : a < 10) : isDigit (0x30 + a) = true := by
  simp [isDigit]; omega

theorem parseUintRange_two (n lo hi : Nat) (h : n < 100) (hlo : lo ≤ n) (hhi : n ≤ hi) :
    parseUintRange [0x30 + n / 10 % 10, 0x30 + n % 10] lo hi = some n := by
  have e : (0 * 10 + (0x30 + n / 10 % 10 - 0x30)) * 10 + (0x30 + n % 10 - 0x30) = n := by omega
  simp only [parseUintRange, parseDigits, parseDigitsAux, isDigit_add _ (Nat.mod_lt _ (by decide)),
    if_true, e]
  rw [if_pos ⟨hlo, hhi⟩]

theorem parseUintRange_four (n lo hi : Nat) (h : n < 10000) (hlo : lo ≤ n) (hhi : n ≤ hi) :
    parseUintRange
      [0x30 + n / 10 / 10 / 10 % 10, 0x30 + n / 10 / 10 % 10, 0x30 + n / 10 % 10, 0x30 + n % 10]
      lo hi = some n := by
  have e : (((0 * 10 + (0x30 + n / 10 / 10 / 10 % 10 - 0x30)) * 10 +
      (0x30 + n / 10 / 10 % 10 - 0x30)) * 10 + (0x30 + n / 10 % 10 - 0x30)) * 10 +
      (0x30 + n % 10 - 0x30) = n := by omega
  simp only [parseUintRange, parseDigits, parseDigitsAux, isDigit_add _ (Nat.mod_lt _ (by decide)),
    if_true, e]
  rw [if_pos ⟨hlo, hhi⟩]

theorem digitsFixed_length (w n : Nat) : (digitsFixed w n).length = w := by
  induction w generalizing n with
  | zero => rfl
  | succ w ih => simp [digitsFixed, ih]

theorem digitsFixed_digits (w n : Nat) : ∀ x ∈ digitsFixed w n, isDigit x = true := by
  induction w generalizing n with
  | zero => simp [digitsFixed]
  | succ w ih =>
    intro x hx
    simp only [digitsFixed, List.mem_append, List.mem_singleton] at hx
    rcases hx with hx | rfl
    · exact ih _ x hx
    · exact isDigit_add _ (Nat.mod_lt _ (by decide))

theorem parseDigitsAux_digitsFixed (w n : Nat) :
    parseDigitsAux (digitsFixed w n) 0 = some (n % 10 ^ w) := by
  induction w generalizing n with
  | zero => simp [digitsFixed, parseDigitsAux, Nat.mod_one]
  | succ w ih =>
    rw [digitsFixed, parseDigitsAux_append _ _ _ (isDigit_add _ (Nat.mod_lt _ (by decide))), ih]
    simp only [Option.map_some', Option.some.injEq]
    have := @Nat.mod_mul 10 (10 ^ w) n
    rw [pow_succ, Nat.mul_comm (10 ^ w) 10, this]
    omega

theorem parseDigitsAux_zeros (xs : List Nat) (k acc : Nat) :
    parseDigitsAux (xs ++ List.replicate k 0x30) acc =
      (parseDigitsAux xs acc).map (fun v => v * 10 ^ k) := by
  induction k with
  | zero => simp
  | succ k ih =>
    rw [List.replicate_succ', ← List.append_assoc,
      parseDigitsAux_append _ _ _ (by decide), ih]
    cases parseDigitsAux xs acc with
    | none => rfl
    | some v =>
      simp only [Option.map_some', Option.some.injEq]
      rw [pow_succ, ← Nat.mul_assoc]
      omega

theorem trimZeros_spec (l : List Nat) : ∃ k, l = trimZeros l ++ List.replicate k 0x30 := by
  refine ⟨(l.reverse.takeWhile (fun c => decide (c = 0x30))).length, ?_⟩
  have h1 := List.takeWhile_append_dropWhile (fun c => decide (c = 0x30)) l.reverse
  have h2 : l.reverse.takeWhile (fun c => decide (c = 0x30)) =
      List.replicate (l.reverse.takeWhile (fun c => decide (c = 0x30))).length 0x30 := by
    rw [List.eq_replicate_iff]
    refine ⟨rfl, ?_⟩
    intro b hb
    have := List.mem_takeWhile_imp hb
    simpa using this
  have h2r : (l.reverse.takeWhile (fun c => decide (c = 0x30))).reverse =
      List.replicate (l.reverse.takeWhile (fun c => decide (c = 0x30))).length 0x30 := by
    have := congrArg List.reverse h2
    rwa [List.reverse_replicate] at this
  have h3 := congrArg List.reverse h1
  rw [List.reverse_append, List.reverse_reverse, h2r] at h3
  unfold trimZeros
  exact h3.symm

theorem trimZeros_mem (l : List Nat) : ∀ x ∈ trimZeros l, x ∈ l := by
  obtain ⟨k, hk⟩ := trimZeros_spec l
  intro x hx
  rw [hk]
  exact List.mem_append_left _ hx

/-- The fraction that `Time.format` writes for a non-zero nanosecond count is read back
as that count. -/
theorem parseNanos_trimZeros (n : Nat) (hn : n < 1000000000) (h0 : n ≠ 0) :
    trimZeros (digitsFixed 9 n) ≠ [] ∧ parseNanos (trimZeros (digitsFixed 9 n)) = n := by
  obtain ⟨k, hk⟩ := trimZeros_spec (digitsFixed 9 n)
  have hlen := congrArg List.length hk
  rw [digitsFixed_length, List.length_append, List.length_replicate] at hlen
  have hp := parseDigitsAux_digitsFixed 9 n
  rw [Nat.mod_eq_of_lt (by norm_num; exact hn)] at hp
  rw [hk, parseDigitsAux_zeros] at hp
  cases hv : parseDigitsAux (trimZeros (digitsFixed 9 n)) 0 with
  | none => rw [hv] at hp; simp at hp
  | some v =>
    rw [hv] at hp
    simp only [Option.map_some', Option.some.injEq] at hp
    have hne : trimZeros (digitsFixed 9 n) ≠ [] := by
      intro he
      rw [he] at hv
      simp only [parseDigitsAux, Option.some.injEq] at hv
      subst hv
      omega
    refine ⟨hne, ?_⟩
    unfold parseNanos
    have ht : (trimZeros (digitsFixed 9 n)).take 9 = trimZeros (digitsFixed 9 n) :=
      List.take_of_length_le (by omega)
    rw [ht]
    have hpd : parseDigits (trimZeros (digitsFixed 9 n)) = some v := by
      cases hl : trimZeros (digitsFixed 9 n) with
      | nil => exact absurd hl hne
      | cons x xs => rw [hl] at hv; exact hv
    rw [hpd]
    simp only
    have : 9 - (trimZeros (digitsFixed 9 n)).length = k := by omega
    rw [this]
    exact hp

theorem splitFrac_frac (n : Nat) (hn : n < 1000000000) (c : Nat) (z : List Nat)
    (hc : isDigit c = false) (hc2 : c ≠ 0x2E) :
    (splitFrac ((if n = 0 then [] else 0x2E :: trimZeros (digitsFixed 9 n)) ++ c :: z)).2 = c :: z ∧
    (if (splitFrac ((if n = 0 then [] else 0x2E :: trimZeros (digitsFixed 9 n)) ++ c :: z)).1 = []
      then 0
      else parseNanos (splitFrac ((if n = 0 then [] else 0x2E :: trimZeros (digitsFixed 9 n)) ++ c :: z)).1)
      = n := by
  by_cases h0 : n = 0
  · subst h0
    simp [splitFrac, hc2]
  · rw [if_neg h0]
    obtain ⟨hne, hp⟩ := parseNanos_trimZeros n hn h0
    have hd : ∀ x ∈ trimZeros (digitsFixed 9 n), isDigit x = true :=
      fun x hx => digitsFixed_digits 9 n x (trimZeros_mem _ x hx)
    have hs : spanDigits (trimZeros (digitsFixed 9 n) ++ c :: z) =
        (trimZeros (digitsFixed 9 n), c :: z) := by
      rw [spanDigits_append _ _ (by intro d hd'; simp at hd'; subst hd'; exact hc),
        spanDigits_all _ hd]
      rfl
    simp only [List.cons_append, splitFrac, hs, ne_eq, hne, not_false_eq_true, and_self, if_true,
      if_false, hp]

theorem parseZone_utc : parseZone [0x5A] = some 0 := by
  simp [parseZone]

theorem parseZone_offset (g zone : Nat) (hz : zone / 60 < 24) (hg : g = 0x2D ∨ g = 0x2B) :
    parseZone (g :: digitsFixed 2 (zone / 60) ++ 0x3A :: digitsFixed 2 (zone % 60)) =
      some (if g = 0x2D then -((zone * 60 : Nat) : Int) else ((zone * 60 : Nat) : Int)) := by
  rw [digitsFixed_two, digitsFixed_two]
  have hm : zone % 60 < 60 := Nat.mod_lt _ (by decide)
  have e : (zone / 60 * 60 + zone % 60) * 60 = zone * 60 := by omega
  simp only [List.cons_append, List.nil_append, parseZone]
  rw [if_neg (by simp), parseUintRange_two _ 0 23 (by omega) (by omega) (by omega),
    parseUintRange_two _ 0 59 (by omega) (by omega) (by omega)]
  simp only [hg, and_self, if_true, e]

theorem parseRFC3339_fixed (y mo d h mi s : Nat) (rest txt : List Nat)
    (htxt : txt = digitsFixed 4 y ++ 0x2D :: digitsFixed 2 mo ++ 0x2D :: digitsFixed 2 d ++
      0x54 :: (digitsFixed 2 h ++ 0x3A :: digitsFixed 2 mi ++ 0x3A :: digitsFixed 2 s) ++ rest)
    (hy : y ≤ 9999)
    (hmo1 : 1 ≤ mo) (hmo2 : mo ≤ 12) (hd1 : 1 ≤ d) (hd2 : d ≤ daysIn mo y) (hh : h ≤ 23)
    (hmi : mi ≤ 59) (hs : s ≤ 59) (off : Int) (hoff : parseZone (splitFrac rest).2 = some off) :
    parseRFC3339 txt =
      some { year := (y : Int), month := mo, day := d, hour := h, minute := mi, second := s,
             nano := if (splitFrac rest).1 = [] then 0 else parseNanos (splitFrac rest).1,
             offset := off } := by
  subst htxt
  have hdd : d ≤ 31 := by
    unfold daysIn at hd2
    split_ifs at hd2 <;> omega
  rw [digitsFixed_four, digitsFixed_two, digitsFixed_two, digitsFixed_two, digitsFixed_two,
    digitsFixed_two]
  simp only [List.cons_append, List.nil_append, List.append_assoc, parseRFC3339]
  rw [parseUintRange_four y 0 9999 (by omega) (by omega) hy,
    parseUintRange_two mo 1 12 (by omega) hmo1 hmo2]
  simp only
  rw [parseUintRange_two d 1 (daysIn mo y) (by omega) hd1 hd2,
    parseUintRange_two h 0 23 (by omega) (by omega) hh,
    parseUintRange_two mi 0 59 (by omega) (by omega) hmi,
    parseUintRange_two s 0 59 (by omega) (by omega) hs]
  simp only [and_self, if_true, hoff]

/-- The text `Time.format` writes for a time is read back as the time with its zone
offset cut to whole minutes. -/
theorem parseRFC3339_format (t : Time) (txt : List Nat) (hf : t.format = some txt) (hw : t.wf) :
    parseRFC3339 txt = some t.normal := by
  obtain ⟨h1, h2, h3, h4, h5, h6, h7, h8⟩ := hw
  unfold Time.format at hf
  by_cases hy : t.year < 0 ∨ 9999 < t.year
  · simp [hy] at hf
  rw [if_neg hy] at hf
  simp only at hf
  have hyn : (t.year.toNat : Int) = t.year := Int.toNat_of_nonneg (by omega)
  by_cases ho : t.offset = 0
  · rw [if_pos ho] at hf
    simp only [Option.some.injEq] at hf
    subst hf
    have sf := splitFrac_frac t.nano h8 0x5A [] (by decide) (by decide)
    rw [parseRFC3339_fixed t.year.toNat t.month t.day t.hour t.minute t.second
      ((if t.nano = 0 then [] else 0x2E :: trimZeros (digitsFixed 9 t.nano)) ++ [0x5A]) _
      (by simp) (by omega)
      h1 h2 h3 h4 h5 h6 h7 0 (by rw [sf.1]; exact parseZone_utc), sf.2, hyn]
    simp [Time.normal, ho]
  · rw [if_neg ho] at hf
    by_cases hz : 24 ≤ t.offset.natAbs / 60 / 60
    · simp [hz] at hf
    rw [if_neg hz] at hf
    simp only [Option.some.injEq] at hf
    subst hf
    have hg : (if t.offset ≤ -60 then 0x2D else 0x2B) = 0x2D ∨
        (if t.offset ≤ -60 then 0x2D else 0x2B) = 0x2B := by
      split_ifs <;> simp
    have hgd : isDigit (if t.offset ≤ -60 then 0x2D else 0x2B) = false := by
      split_ifs <;> decide
    have hg2 : (if t.offset ≤ -60 then 0x2D else 0x2B) ≠ 0x2E := by
      split_ifs <;> decide
    have sf := splitFrac_frac t.nano h8 (if t.offset ≤ -60 then 0x2D else 0x2B)
      (digitsFixed 2 (t.offset.natAbs / 60 / 60) ++ 0x3A :: digitsFixed 2 (t.offset.natAbs / 60 % 60))
      hgd hg2
    have pz := parseZone_offset (if t.offset ≤ -60 then 0x2D else 0x2B) (t.offset.natAbs / 60)
      (by omega) hg
    rw [parseRFC3339_fixed t.year.toNat t.month t.day t.hour t.minute t.second
      ((if t.nano = 0 then [] else 0x2E :: trimZeros (digitsFixed 9 t.nano)) ++
        (if t.offset ≤ -60 then 0x2D else 0x2B) ::
        (digitsFixed 2 (t.offset.natAbs / 60 / 60) ++
          0x3A :: digitsFixed 2 (t.offset.natAbs / 60 % 60))) _
      (by simp) (by omega)
      h1 h2 h3 h4 h5 h6 h7 _ (by rw [sf.1]; exact pz), sf.2, hyn]
    simp only [Time.normal]
    congr 1
    by_cases h60 : t.offset ≤ -60
    · have hneg : t.offset < 0 := by omega
      simp [hneg, h60]
    · by_cases hneg : t.offset < 0
      · have hz0 : t.offset.natAbs / 60 = 0 := by omega
        simp [hneg, h60, hz0]
      · simp [hneg, h60]

theorem Time.normal_eq (t : Time) (h : t.offset % 60 = 0) : t.normal = t := by
  unfold Time.normal
  have : (if t.offset < 0 then -(((t.offset.natAbs / 60 * 60 : Nat)) : Int)
      else ((t.offset.natAbs / 60 * 60 : Nat) : Int)) = t.offset := by
    split_ifs <;> omega
  rw [this]

/-- The text `Time.format` writes is ASCII. -/
theorem Time.format_ascii (t : Time) (txt : List Nat) (hf : t.format = some txt) :
    ∀ c ∈ txt, c < 0x80 := by
  have hdg : ∀ w n, ∀ x ∈ digitsFixed w n, x < 0x80 := by
    intro w n x hx
    have := isDigit_iff.1 (digitsFixed_digits w n x hx)
    omega
  have hfr : ∀ x ∈ (if t.nano = 0 then [] else 0x2E :: trimZeros (digitsFixed 9 t.nano)),
      x < 0x80 := by
    intro x hx
    by_cases h0 : t.nano = 0
    · simp [h0] at hx
    · rw [if_neg h0] at hx
      simp only [List.mem_cons] at hx
      rcases hx with rfl | hx
      · omega
      · exact hdg 9 _ x (trimZeros_mem _ x hx)
  have hsg : (if t.offset ≤ -60 then 0x2D else 0x2B) < 0x80 := by
    by_cases h : t.offset ≤ -60 <;> simp [h]
  unfold Time.format at hf
  by_cases hy : t.year < 0 ∨ 9999 < t.year
  · simp [hy] at hf
  rw [if_neg hy] at hf
  simp only at hf
  by_cases ho : t.offset = 0
  · rw [if_pos ho] at hf
    simp only [Option.some.injEq] at hf
    subst hf
    intro c hc
    simp only [List.mem_append, List.mem_cons, List.mem_singleton] at hc
    casesm* _ ∨ _
    all_goals first | exact hdg _ _ _ ‹_› | exact hfr _ ‹_› | omega | exact absurd ‹_› (List.not_mem_nil _)
  · rw [if_neg ho] at hf
    by_cases hz : 24 ≤ t.offset.natAbs / 60 / 60
    · simp [hz] at hf
    rw [if_neg hz] at hf
    simp only [Option.some.injEq] at hf
    subst hf
    intro c hc
    simp only [List.mem_append, List.mem_cons, List.mem_singleton] at hc
    casesm* _ ∨ _
    all_goals first | exact hdg _ _ _ ‹_› | exact hfr _ ‹_› | (subst c; exact hsg) | omega

/-! ## Unmarshal after Marshal -/

theorem setField_len (s : Message) (n : Int) (hlo : -(2 ^ 63 : Int) ≤ n) (hhi : n < (2 ^ 63 : Int)) :
    setField s keyLen (.num (formatInt n)) = some { s with ContentLength := n } := by
  unfold setField
  rw [if_pos (by decide)]
  simp only [parseInt64_formatInt n hlo hhi, Option.map_some']

theorem setField_psk (s : Message) (p : List Nat) (hp : ∀ b ∈ p, b < 256) :
    setField s keyPsk (.str (b64Encode p)) = some { s with PresharedKey := p } := by
  unfold setField
  rw [if_neg (by decide), if_pos (by decide)]
  simp only [b64Decode_b64Encode p hp, Option.map_some']

theorem setField_status (s : Message) (x : List Nat) :
    setField s keyStatus (.str x) = some { s with Status := x } := by
  unfold setField
  rw [if_neg (by decide), if_neg (by decide), if_pos (by decide)]

theorem setField_md (s : Message) (ms l : List (List Nat × JSON))
    (h : JSON.toAnyMembers ms = some l) :
    setField s keyMd (.obj ms) =
      some { s with Metadata := l.foldl (fun acc kv => insertKV kv.1 kv.2 acc) s.Metadata } := by
  unfold setField
  rw [if_neg (by decide), if_neg (by decide), if_neg (by decide), if_pos (by decide)]
  simp only [h, Option.map_some']

theorem setField_syncreq (s : Message) (b : Bool) :
    setField s keySyncreq (.bool b) = some { s with SyncRequest := b } := by
  unfold setField
  rw [if_neg (by decide), if_neg (by decide), if_neg (by decide), if_neg (by decide),
    if_pos (by decide)]

theorem setField_syncresp (s : Message) (b : Bool) :
    setField s keySyncresp (.bool b) = some { s with SyncResponse := b } := by
  unfold setField
  rw [if_neg (by decide), if_neg (by decide), if_neg (by decide), if_neg (by decide),
    if_neg (by decide), if_pos (by decide)]

theorem setField_ts (s : Message) (txt : List Nat) (t : Time) (h : parseRFC3339 txt = some t) :
    setField s keyTs (.str txt) = some { s with TimestampUtc := t } := by
  unfold setField
  rw [if_neg (by decide), if_neg (by decide), if_neg (by decide), if_neg (by decide),
    if_neg (by decide), if_neg (by decide), if_pos (by decide)]
  simp only [h, Option.map_some']

theorem setField_exp (s : Message) (txt : List Nat) (t : Time) (h : parseRFC3339 txt = some t) :
    setField s keyExp (.str txt) = some { s with ExpirationUtc := some t } := by
  unfold setField
  rw [if_neg (by decide), if_neg (by decide), if_neg (by decide), if_neg (by decide),
    if_neg (by decide), if_neg (by decide), if_neg (by decide), if_pos (by decide)]
  simp only [h, Option.map_some']

theorem setField_convguid (s : Message) (x : List Nat) :
    setField s keyConvguid (.str x) = some { s with ConversationGUID := x } := by
  unfold setField
  rw [if_neg (by decide), if_neg (by decide), if_neg (by decide), if_neg (by decide),
    if_neg (by decide), if_neg (by decide), if_neg (by decide), if_neg (by decide),
    if_pos (by decide)]

theorem coerceUTF8_keys :
    coerceUTF8 keyLen = keyLen ∧ coerceUTF8 keyPsk = keyPsk ∧ coerceUTF8 keyStatus = keyStatus ∧
    coerceUTF8 keyMd = keyMd ∧ coerceUTF8 keySyncreq = keySyncreq ∧
    coerceUTF8 keySyncresp = keySyncresp ∧ coerceUTF8 keyTs = keyTs ∧ coerceUTF8 keyExp = keyExp ∧
    coerceUTF8 keyConvguid = keyConvguid := by
  refine ⟨?_, ?_, ?_, ?_, ?_, ?_, ?_, ?_, ?_⟩ <;> exact coerceUTF8_ascii _ (by decide)

theorem JSON.coerceMembers_append (a b : List (List Nat × JSON)) :
    JSON.coerceMembers (a ++ b) = JSON.coerceMembers a ++ JSON.coerceMembers b := by
  induction a with
  | nil => rfl
  | cons kx a ih =>
    obtain ⟨k, x⟩ := kx
    simp [JSON.coerceMembers, ih]

theorem JSON.depthMembers_append (a b : List (List Nat × JSON)) :
    JSON.depthMembers (a ++ b) = max (JSON.depthMembers a) (JSON.depthMembers b) := by
  induction a with
  | nil => simp [JSON.depthMembers]
  | cons kx a ih =>
    obtain ⟨k, x⟩ := kx
    simp [JSON.depthMembers, ih, max_assoc]

theorem expMember_depth (o : Option Time) (exp : List (List Nat × JSON))
    (h : expMember o = some exp) : JSON.depthMembers exp = 0 := by
  cases o with
  | none =>
    simp only [expMember, Option.some.injEq] at h
    subst h
    rfl
  | some t =>
    simp only [expMember] at h
    cases hf : t.format with
    | none => simp [hf] at h
    | some tx =>
      simp only [hf, Option.map_some', Option.some.injEq] at h
      subst h
      simp [JSON.depthMembers, JSON.depth]

/-- The object written for a message nests two levels deeper than its metadata at
most. -/
theorem Message.toJSON_depth (m : Message) (j : JSON) (h : m.toJSON = some j) :
    j.depth ≤ JSON.depthMembers m.Metadata + 2 := by
  unfold Message.toJSON at h
  cases hfmt : m.TimestampUtc.format with
  | none => simp [hfmt] at h
  | some ts =>
    rw [hfmt] at h
    simp only at h
    cases hex : expMember m.ExpirationUtc with
    | none => rw [hex] at h; simp at h
    | some exp =>
      rw [hex] at h
      simp only [Option.some.injEq] at h
      subst h
      have he := expMember_depth _ _ hex
      have e : ∀ (x : List Nat × JSON) (l : List (List Nat × JSON)), x :: l = [x] ++ l :=
        fun _ _ => rfl
      rw [e (keyLen, _), e (keyStatus, _), e (keySyncreq, _), e (keySyncresp, _), e (keyTs, _)]
      simp only [JSON.depth, JSON.depthMembers_append, he]
      have h1 : JSON.depthMembers
          (if m.PresharedKey = [] then [] else [(keyPsk, .str (b64Encode m.PresharedKey))]) = 0 := by
        split_ifs <;> simp [JSON.depthMembers, JSON.depth]
      have h2 : JSON.depthMembers
          (if m.Metadata = [] then [] else [(keyMd, .obj m.Metadata)]) ≤
          JSON.depthMembers m.Metadata + 1 := by
        split_ifs <;> simp [JSON.depthMembers, JSON.depth]
      rw [h1]
      simp only [JSON.depthMembers, JSON.depth, Nat.max_zero, Nat.zero_max, max_self]
      omega

theorem setFields_append (s : Message) (a b : List (List Nat × JSON)) :
    setFields s (a ++ b) = (setFields s a).bind (fun s1 => setFields s1 b) := by
  induction a generalizing s with
  | nil => rfl
  | cons kx a ih =>
    obtain ⟨k, x⟩ := kx
    simp only [List.cons_append, setFields]
    cases setField s k x with
    | none => rfl
    | some s1 => exact ih s1

/-- `json.Unmarshal` of the text `json.Marshal` returns for a message gives the message
as `Message.decoded` describes it. -/
theorem Unmarshal_Marshal (m : Message) (bs : List Nat) (hm : Marshal m = some bs)
    (hw : m.wf) (hmd : m.mdReadable) : Unmarshal bs = .ok m.decoded := by
  obtain ⟨hlo, hhi, hpsk, hts, hexp⟩ := hw
  obtain ⟨hdep, hany⟩ := hmd
  obtain ⟨md, hmdv⟩ := Option.isSome_iff_exists.mp hany
  obtain ⟨k1, k2, k3, k4, k5, k6, k7, k8, k9⟩ := coerceUTF8_keys
  unfold Marshal at hm
  cases hj : m.toJSON with
  | none => simp [hj] at hm
  | some j =>
    rw [hj] at hm
    simp only at hm
    have hp := parseJSON_render j bs hm (le_trans (Message.toJSON_depth m j hj) hdep)
    unfold Message.toJSON at hj
    cases hfmt : m.TimestampUtc.format with
    | none => simp [hfmt] at hj
    | some ts =>
      rw [hfmt] at hj
      simp only at hj
      have hts1 := parseRFC3339_format _ _ hfmt hts
      have hts2 := coerceUTF8_ascii ts (Time.format_ascii _ _ hfmt)
      have hb64 := coerceUTF8_b64Encode m.PresharedKey
      -- the members written for the optional fields, and what the decoder stores for them
      have hpskSeg : ∀ s : Message, s.PresharedKey = [] →
          setFields s (JSON.coerceMembers
            (if m.PresharedKey = [] then [] else [(keyPsk, .str (b64Encode m.PresharedKey))])) =
            some { s with PresharedKey := m.PresharedKey } := by
        intro s hs
        by_cases h : m.PresharedKey = []
        · rw [if_pos h, h]
          cases s
          simp only at hs
          subst hs
          rfl
        · rw [if_neg h]
          simp only [JSON.coerceMembers, JSON.coerce, setFields, k2, hb64,
            setField_psk _ _ hpsk]
      have hmdSeg : ∀ s : Message, s.Metadata = [] →
          setFields s (JSON.coerceMembers
            (if m.Metadata = [] then [] else [(keyMd, .obj m.Metadata)])) =
            some { s with
              Metadata := List.foldl (fun acc kv => insertKV kv.1 kv.2 acc) [] md } := by
        intro s hs
        by_cases h : m.Metadata = []
        · rw [if_pos h]
          rw [h] at hmdv
          simp only [JSON.coerceMembers, JSON.toAnyMembers, Option.some.injEq] at hmdv
          subst hmdv
          cases s
          simp only at hs
          subst hs
          rfl
        · rw [if_neg h]
          simp only [JSON.coerceMembers, JSON.coerce, setFields, k4, setField_md _ _ _ hmdv, hs]
      have hexpSeg : ∀ (s : Message) (exp : List (List Nat × JSON)), s.ExpirationUtc = none →
          expMember m.ExpirationUtc = some exp →
          setFields s (JSON.coerceMembers exp) =
            some { s with ExpirationUtc := m.ExpirationUtc.map Time.normal } := by
        intro s exp hs he
        cases hE : m.ExpirationUtc with
        | none =>
          rw [hE] at he
          simp only [expMember, Option.some.injEq] at he
          subst he
          cases s
          simp only at hs
          subst hs
          rfl
        | some t =>
          rw [hE] at he
          simp only [expMember] at he
          cases hft : t.format with
          | none => simp [hft] at he
          | some tx =>
            rw [hft] at he
            simp only [Option.map_some', Option.some.injEq] at he
            subst he
            have h1 := parseRFC3339_format _ _ hft (by rw [hE] at hexp; exact hexp)
            have h2 := coerceUTF8_ascii tx (Time.format_ascii _ _ hft)
            simp only [JSON.coerceMembers, JSON.coerce, setFields, k8, h2,
              setField_exp _ _ _ h1, Option.map_some']
      cases hex : expMember m.ExpirationUtc with
      | none => rw [hex] at hj; simp at hj
      | some exp =>
        rw [hex] at hj
        simp only [Option.some.injEq] at hj
        subst hj
        unfold Unmarshal
        rw [hp]
        simp only [JSON.coerce]
        have e : ∀ (x : List Nat × JSON) (l : List (List Nat × JSON)), x :: l = [x] ++ l :=
          fun _ _ => rfl
        rw [e (keyLen, _), e (keyStatus, _), e (keySyncreq, _), e (keySyncresp, _), e (keyTs, _)]
        simp only [JSON.coerceMembers_append, setFields_append]
        simp only [JSON.coerceMembers, JSON.coerce, setFields, k1, k3, k5, k6, k7, k9, hts2,
          setField_len _ _ hlo hhi, setField_status, setField_syncreq, setField_syncresp,
          setField_ts _ _ _ hts1, setField_convguid, Option.some_bind, Option.bind_some]
        rw [hpskSeg _ rfl]
        simp only [Option.some_bind, setFields, setField_status]
        rw [hmdSeg _ rfl]
        simp only [Option.some_bind, setFields, setField_syncreq, setField_syncresp,
          setField_ts _ _ _ hts1]
        rw [hexpSeg _ exp rfl hex]
        simp only [Option.some_bind, setFields, setField_convguid]
        simp only [Message.decoded, hmdv, Option.getD_some]

/-! ## The header codec -/

theorem BuildHeader_ok (m : Message) (h : List Nat) (hb : BuildHeader (some m) = .ok h) :
    ∃ bs, Marshal m = some bs ∧ h = bs ++ terminator := by
  unfold BuildHeader at hb
  cases hm : Marshal m with
  | none => simp [hm] at hb
  | some bs =>
    simp only [hm, Except.ok.injEq] at hb
    exact ⟨bs, rfl, hb.symm⟩

/-- `ParseHeader` on a header from `BuildHeader` followed by any bytes reads exactly
the header and unmarshals the text before the terminator. -/
theorem ParseHeader_BuildHeader_raw (m : Message) (bs rest : List Nat)
    (hm : Marshal m = some bs) :
    ParseHeader (some (bs ++ terminator ++ rest)) = (Unmarshal bs, rest) := by
  unfold ParseHeader
  simp only
  rw [readHeader_frame bs (Marshal_ge m bs hm) rest]
  simp [terminator]

theorem ParseHeader_BuildHeader (m : Message) (h rest : List Nat)
    (hb : BuildHeader (some m) = .ok h) (hw : m.wf) (hmd : m.mdReadable) :
    ParseHeader (some (h ++ rest)) = (.ok m.decoded, rest) := by
  obtain ⟨bs, hm, rfl⟩ := BuildHeader_ok m h hb
  rw [ParseHeader_BuildHeader_raw m bs rest hm, Unmarshal_Marshal m bs hm hw hmd]

/-- Empty metadata can be read back. -/
theorem Message.mdReadable_nil (m : Message) (h : m.Metadata = []) : m.mdReadable := by
  unfold Message.mdReadable
  rw [h]
  exact ⟨by decide, rfl⟩

/-- A length within `maxAlloc` is one `make` accepts. -/
theorem makePanics_false (n : Int) (h0 : 0 ≤ n) (h1 : n ≤ maxAlloc) : makePanics n = false := by
  simp only [makePanics, Bool.or_eq_false_iff, decide_eq_false_iff_not]
  omega

theorem maxAlloc_lt : maxAlloc < (2 ^ 63 : Int) := by
  unfold maxAlloc
  norm_num

set_option maxRecDepth 100000 in
/-- C1, where the claim fails.  A message whose metadata holds the number `1e999` is
written by `Send` without an error, header and payload; the peer's `ParseHeader` fails
on that header, because the number is outside the range of `float64`, so the payload is
never delivered. -/
theorem C1_counterexample :
    (Client.Send { conn := some {} }
      (some { Metadata := [([0x78], .num [0x31, 0x65, 0x39, 0x39, 0x39])] })
      [0x68, 0x69] {}).2.2 = .ok ∧
    (Client.Send { conn := some {} }
      (some { Metadata := [([0x78], .num [0x31, 0x65, 0x39, 0x39, 0x39])] })
      [0x68, 0x69] {}).1.conn.map (fun k => k.written) =
      some (headerOf
        { ContentLength := 2
          Metadata := [([0x78], .num [0x31, 0x65, 0x39, 0x39, 0x39])] } ++ [0x68, 0x69]) ∧
    readFrame (headerOf
        { ContentLength := 2
          Metadata := [([0x78], .num [0x31, 0x65, 0x39, 0x39, 0x39])] } ++ [0x68, 0x69]) =
      .failed .jsonType := by
  refine ⟨?_, ?_, ?_⟩ <;> decide

theorem ReadFull_append (data rest : List Nat) :
    ReadFull (data ++ rest) data.length = (.ok data, rest) := by
  unfold ReadFull
  rw [if_pos (by simp)]
  simp

/-- C1, amended.  For every message whose metadata the decoder can read back (every
number in it within the range of `float64`, arrays and objects nested within the
decoder's limit) and every byte string `data` (a byte slice, so of a length within
`maxAlloc`), when `Client.Send` succeeds it has written the encoded header followed by
`data`, and the buffered read path (`ParseHeader`, then reading `ContentLength` bytes)
applied to these bytes followed by any further bytes returns a message whose
`ContentLength` is `len(data)`, a payload equal to `data`, and leaves exactly the
further bytes unread, whatever `ContentLength` the message had before the call. -/
theorem C1_send_then_read_frame (c c1 : Client) (msg msg1 : Option Message) (data : List Nat)
    (now : Time) (hmsg : ∀ m, msg = some m → m.wf ∧ m.mdReadable) (hnow : now.wf)
    (hlen : (data.length : Int) ≤ maxAlloc)
    (hsend : c.Send msg data now = (c1, msg1, .ok)) :
    ∃ conn conn1 header received,
      c.conn = some conn ∧ c1.conn = some conn1 ∧
      conn1.written = conn.written ++ header ++ data ∧
      received.ContentLength = (data.length : Int) ∧
      ∀ rest, readFrame (header ++ data ++ rest) = .frame received data rest := by
  unfold Client.Send at hsend
  cases hc : c.conn with
  | none => simp [hc] at hsend
  | some conn =>
    cases msg with
    | none => simp [hc] at hsend
    | some m =>
      simp only [hc] at hsend
      obtain ⟨hm, hmd⟩ := hmsg m rfl
      have hlt := maxAlloc_lt
      have hw : ({ m with ContentLength := (data.length : Int), TimestampUtc := now } : Message).wf := by
        obtain ⟨_, _, h3, _, h5⟩ := hm
        exact ⟨by simp only; omega, by simp only; omega, h3, hnow, h5⟩
      have hmd1 : ({ m with ContentLength := (data.length : Int)
                            TimestampUtc := now } : Message).mdReadable := hmd
      cases hb : BuildHeader
          (some { m with ContentLength := (data.length : Int), TimestampUtc := now }) with
      | error e => simp [hb] at hsend
      | ok header =>
        simp only [hb] at hsend
        cases hwr : conn.Write header with
        | error e => simp [hwr] at hsend
        | ok conn1 =>
          simp only [hwr] at hsend
          have hcl : conn.closed = false := by
            unfold Conn.Write at hwr
            by_cases hcc : conn.closed = true
            · simp [hcc] at hwr
            · simpa using hcc
          have h1 : conn1.written = conn.written ++ header ∧ conn1.closed = false := by
            unfold Conn.Write at hwr
            simp [hcl] at hwr
            rw [← hwr]
            exact ⟨rfl, rfl⟩
          cases hwr2 : (if 0 < data.length then conn1.Write data else .ok conn1) with
          | error e => simp [hwr2] at hsend
          | ok conn2 =>
            simp only [hwr2, Prod.mk.injEq] at hsend
            obtain ⟨hc1, _, _⟩ := hsend
            have h2 : conn2.written = conn.written ++ header ++ data := by
              by_cases hd : 0 < data.length
              · rw [if_pos hd] at hwr2
                unfold Conn.Write at hwr2
                simp [h1.2] at hwr2
                rw [← hwr2, h1.1]
              · rw [if_neg hd] at hwr2
                simp only [Except.ok.injEq] at hwr2
                have : data = [] := List.length_eq_zero.1 (by omega)
                rw [← hwr2, h1.1, this]
                simp
            refine ⟨conn, conn2, header,
              ({ m with ContentLength := (data.length : Int), TimestampUtc := now } : Message).decoded,
              rfl, by rw [← hc1], h2, rfl, ?_⟩
            intro rest
            unfold readFrame
            rw [List.append_assoc, ParseHeader_BuildHeader _ header (data ++ rest) hb hw hmd1]
            simp only [Message.decoded]
            rw [makePanics_false _ (by omega) hlen]
            simp only [Bool.false_eq_true, if_false]
            rw [Int.toNat_ofNat, ReadFull_append]

set_option maxRecDepth 100000 in
/-- Witness of C1 (amended): a connected client sends the payload `hi` with a message
whose `ContentLength` was 7 before the call and whose metadata holds the number `0.5`. -/
theorem C1_send_then_read_frame_witness :
    ∃ conn conn1 header received,
      ({ conn := some {} } : Client).conn = some conn ∧
      (({ conn := some {} } : Client).Send
        (some { ContentLength := 7, Metadata := [([0x78], .num [0x30, 0x2E, 0x35])] })
        [0x68, 0x69] { year := 2024, month := 5, day := 17 }).1.conn = some conn1 ∧
      conn1.written = conn.written ++ header ++ [0x68, 0x69] ∧
      received.ContentLength = (([0x68, 0x69] : List Nat).length : Int) ∧
      ∀ rest, readFrame (header ++ [0x68, 0x69] ++ rest) = .frame received [0x68, 0x69] rest :=
  C1_send_then_read_frame { conn := some {} } _
    (some { ContentLength := 7, Metadata := [([0x78], .num [0x30, 0x2E, 0x35])] }) _
    [0x68, 0x69] { year := 2024, month := 5, day := 17 }
    (by intro m hm; cases hm; decide) (by decide) (by decide)
    (Prod.ext rfl (Prod.ext rfl (by decide)))

set_option maxRecDepth 100000 in
/-- C2, where the claim fails.  `SenderGUID` is never written, so it comes back empty;
a `Status` that is not valid UTF-8 comes back with U+FFFD in place of the bad byte; a
zone offset of 30 seconds comes back as none; and a year of 10000 makes `BuildHeader`
fail. -/
theorem C2_counterexample :
    roundTrip { SenderGUID := [0x78] } = .ok {} ∧
    roundTrip { Status := [0xFF] } = .ok { Status := [0xEF, 0xBF, 0xBD] } ∧
    roundTrip { TimestampUtc := { offset := 30 } } = .ok {} ∧
    roundTrip { TimestampUtc := { year := 10000 } } = .error .jsonMarshal := by
  refine ⟨?_, ?_, ?_, ?_⟩ <;> decide

/-- C2, amended.  For every message with empty metadata that `BuildHeader` can write,
whose `Status` and `ConversationGUID` are valid UTF-8 and whose timestamps have a zone
offset of whole minutes, `ParseHeader` applied to the bytes of `BuildHeader` succeeds,
reads all of them, and returns the message with every field equal except `SenderGUID`,
which is empty. -/
theorem C2_roundtrip_except_SenderGUID (m : Message) (hw : m.wf) (hmd : m.Metadata = [])
    (hs : validUTF8 m.Status = true) (hg : validUTF8 m.ConversationGUID = true)
    (ho : m.TimestampUtc.offset % 60 = 0)
    (he : ∀ t, m.ExpirationUtc = some t → t.offset % 60 = 0)
    (h : List Nat) (hb : BuildHeader (some m) = .ok h) :
    ParseHeader (some h) = (.ok { m with SenderGUID := [] }, []) := by
  have := ParseHeader_BuildHeader m h [] hb hw (Message.mdReadable_nil m hmd)
  rw [List.append_nil] at this
  rw [this]
  have e : m.ExpirationUtc.map Time.normal = m.ExpirationUtc := by
    cases hE : m.ExpirationUtc with
    | none => rfl
    | some t => simp [Time.normal_eq t (he t hE)]
  simp only [Message.decoded, coerceUTF8_valid _ hs, coerceUTF8_valid _ hg,
    Time.normal_eq _ ho, e, hmd, JSON.coerceMembers, JSON.toAnyMembers, Option.getD_some,
    List.foldl_nil]

set_option maxRecDepth 100000 in
/-- Witness of C2 (amended): a message with a preshared key, a status, a correlation id
and a sender id. -/
theorem C2_roundtrip_except_SenderGUID_witness :
    ParseHeader (some (headerOf
      { ContentLength := 5
        PresharedKey := [1, 255]
        Status := StatusNormal
        SyncRequest := true
        ConversationGUID := [0x61, 0xC3, 0xA9]
        SenderGUID := [0x78] })) =
      (.ok
        { ContentLength := 5
          PresharedKey := [1, 255]
          Status := StatusNormal
          SyncRequest := true
          ConversationGUID := [0x61, 0xC3, 0xA9]
          SenderGUID := [] }, []) :=
  C2_roundtrip_except_SenderGUID
    { ContentLength := 5
      PresharedKey := [1, 255]
      Status := StatusNormal
      SyncRequest := true
      ConversationGUID := [0x61, 0xC3, 0xA9]
      SenderGUID := [0x78] }
    (by decide) rfl (by decide) (by decide) (by decide) (by intro t ht; cases ht) _ (by decide)

set_option maxRecDepth 100000 in
/-- C3, where the claim fails.  A message whose timestamp has the year 10000, and one
whose metadata holds a number that is not a JSON number, make `json.Marshal` and so
`BuildHeader` fail; a `Status` that is not valid UTF-8 is returned changed; and for a
message whose metadata holds the number `1e999` `BuildHeader` succeeds and `ParseHeader`
fails on its output, because the number is outside the range of `float64`. -/
theorem C3_counterexample :
    BuildHeader (some
      { Status := StatusNormal
        ContentLength := 5
        TimestampUtc := { year := 10000 } }) = .error .jsonMarshal ∧
    BuildHeader (some
      { Status := StatusNormal
        ContentLength := 5
        Metadata := [([0x78], .num [0x4E, 0x61, 0x4E])] }) = .error .jsonMarshal ∧
    (roundTrip { Status := [0xFF], ContentLength := 5 }).map (fun p => p.Status) =
      .ok [0xEF, 0xBF, 0xBD] ∧
    (BuildHeader (some
      { Status := StatusNormal
        ContentLength := 5
        Metadata := [([0x78], .num [0x31, 0x65, 0x39, 0x39, 0x39])] })).toOption.isSome = true ∧
    roundTrip
      { Status := StatusNormal
        ContentLength := 5
        Metadata := [([0x78], .num [0x31, 0x65, 0x39, 0x39, 0x39])] } = .error .jsonType := by
  refine ⟨?_, ?_, ?_, ?_, ?_⟩ <;> decide

/-- C3, amended.  For every non-nil message for which `BuildHeader` succeeds and whose
metadata the decoder can read back (every number in it within the range of `float64`,
arrays and objects nested within the decoder's limit), `ParseHeader` applied to the
output of `BuildHeader` succeeds and returns a message whose `ContentLength` equals
that of the message and whose `Status` is that of the message coerced to valid UTF-8,
hence equal to it when it is valid UTF-8. -/
theorem C3_status_and_length_roundtrip (m : Message) (hw : m.wf) (hmd : m.mdReadable)
    (h : List Nat) (hb : BuildHeader (some m) = .ok h) :
    ∃ p, (ParseHeader (some h)).1 = .ok p ∧ p.ContentLength = m.ContentLength ∧
      p.Status = coerceUTF8 m.Status ∧ (validUTF8 m.Status = true → p.Status = m.Status) := by
  have := ParseHeader_BuildHeader m h [] hb hw hmd
  rw [List.append_nil] at this
  refine ⟨m.decoded, by rw [this], rfl, rfl, ?_⟩
  intro hv
  simp only [Message.decoded, coerceUTF8_valid _ hv]

set_option maxRecDepth 100000 in
/-- Witness of C3 (amended): the message of `TestBuildParseHeader`. -/
theorem C3_status_and_length_roundtrip_witness :
    ∃ p, (ParseHeader (some (headerOf { Status := StatusNormal, ContentLength := 5 }))).1 = .ok p ∧
      p.ContentLength = 5 ∧ p.Status = coerceUTF8 StatusNormal ∧
      (validUTF8 StatusNormal = true → p.Status = StatusNormal) :=
  C3_status_and_length_roundtrip { Status := StatusNormal, ContentLength := 5 }
    (by decide) (by decide) _ (by decide)

/-- C4. For every non-nil message, the bytes `BuildHeader` returns end with CR LF CR LF
and that sequence of four bytes occurs at no other place in them: whenever the bytes
split as a prefix, the terminator and a suffix, the suffix is empty. -/
theorem C4_terminator_only_at_end (m : Message) (h : List Nat)
    (hb : BuildHeader (some m) = .ok h) :
    (∃ js, h = js ++ [0x0D, 0x0A, 0x0D, 0x0A]) ∧
    ∀ pre suf, h = pre ++ [0x0D, 0x0A, 0x0D, 0x0A] ++ suf → suf = [] := by
  obtain ⟨bs, hm, rfl⟩ := BuildHeader_ok m h hb
  have hge := Marshal_ge m bs hm
  refine ⟨⟨bs, rfl⟩, ?_⟩
  intro pre suf hsplit
  rw [List.append_assoc] at hsplit
  rcases List.append_eq_append_iff.1 hsplit with ⟨a, ha, hb2⟩ | ⟨c, hc, hd⟩
  · have hl := congrArg List.length hb2
    simp only [List.length_append, List.length_cons, List.length_nil, terminator] at hl
    exact List.length_eq_zero.1 (by omega)
  · cases c with
    | nil =>
      have hl := congrArg List.length hd
      simp only [List.length_append, List.length_cons, List.length_nil, terminator,
        List.nil_append] at hl
      exact List.length_eq_zero.1 (by omega)
    | cons x c =>
      simp only [List.cons_append, List.cons.injEq] at hd
      have hx : x ∈ bs := by rw [hc]; simp
      have := hge x hx
      omega

set_option maxRecDepth 100000 in
/-- Witness of C4: a message whose `Status`, `ConversationGUID` and metadata hold CR
and LF. -/
theorem C4_terminator_only_at_end_witness :
    (∃ js, headerOf
      { Status := [0x0D, 0x0A, 0x0D, 0x0A]
        ConversationGUID := [0x0D, 0x0A, 0x0D, 0x0A]
        Metadata := [([0x0D, 0x0A], .str [0x0D, 0x0A, 0x0D, 0x0A])] } =
        js ++ [0x0D, 0x0A, 0x0D, 0x0A]) ∧
    ∀ pre suf, headerOf
      { Status := [0x0D, 0x0A, 0x0D, 0x0A]
        ConversationGUID := [0x0D, 0x0A, 0x0D, 0x0A]
        Metadata := [([0x0D, 0x0A], .str [0x0D, 0x0A, 0x0D, 0x0A])] } =
        pre ++ [0x0D, 0x0A, 0x0D, 0x0A] ++ suf → suf = [] :=
  C4_terminator_only_at_end
    { Status := [0x0D, 0x0A, 0x0D, 0x0A]
      ConversationGUID := [0x0D, 0x0A, 0x0D, 0x0A]
      Metadata := [([0x0D, 0x0A], .str [0x0D, 0x0A, 0x0D, 0x0A])] } _ (by decide)

/-- C5. For every non-nil message and every byte sequence `rest`, `ParseHeader` reading
the bytes of `BuildHeader` followed by `rest` leaves exactly `rest` in the reader (so
after a frame without payload the reader stands at the first byte of the next frame),
whether or not the header can be decoded; and for a message that satisfies the
invariants of its Go types and whose metadata the decoder can read back it succeeds. -/
theorem C5_reads_exactly_the_header (m : Message) (h rest : List Nat)
    (hb : BuildHeader (some m) = .ok h) :
    (ParseHeader (some (h ++ rest))).2 = rest ∧
    (m.wf → m.mdReadable → (ParseHeader (some (h ++ rest))).1 = .ok m.decoded) := by
  obtain ⟨bs, hm, rfl⟩ := BuildHeader_ok m h hb
  rw [ParseHeader_BuildHeader_raw m bs rest hm]
  refine ⟨rfl, ?_⟩
  intro hw hmd
  simp only [Unmarshal_Marshal m bs hm hw hmd]

set_option maxRecDepth 100000 in
/-- Witness of C5: a frame without payload followed by the first bytes of a next
frame. -/
theorem C5_reads_exactly_the_header_witness :
    (ParseHeader (some (headerOf { Status := StatusNormal } ++ [0x7B, 0x22]))).2 = [0x7B, 0x22] ∧
    ((({ Status := StatusNormal } : Message).wf) →
      (({ Status := StatusNormal } : Message).mdReadable) →
      (ParseHeader (some (headerOf { Status := StatusNormal } ++ [0x7B, 0x22]))).1 =
        .ok ({ Status := StatusNormal } : Message).decoded) :=
  C5_reads_exactly_the_header { Status := StatusNormal } _ [0x7B, 0x22] (by decide)

/-- C6. For every input whose first four bytes are zero, `ParseHeader` fails with the
null-header (peer disconnected) error and returns no message, whatever bytes follow;
it has read the four bytes only. -/
theorem C6_four_zero_bytes (rest : List Nat) :
    ParseHeader (some (0 :: 0 :: 0 :: 0 :: rest)) = (.error .nullHeader, rest) := by
  simp [ParseHeader, readHeader]

/-- C7, where the claim fails.  On the empty input and on an input that ends inside the
header `ParseHeader` returns the same error, `io.EOF`. -/
theorem C7_counterexample :
    (ParseHeader (some [])).1 = .error .EOF ∧
    (ParseHeader (some [0x7B, 0x22, 0x6C])).1 = .error .EOF := by
  decide

/-- C7, amended.  On every input that holds neither the terminator nor four zero bytes
in a row (the empty input, and every input that ends inside the header) `ParseHeader`
fails with `io.EOF` after reading all of it; `io.EOF` is not the null-header error. -/
theorem C7_end_of_stream_is_EOF (input : List Nat)
    (hz : ∀ pre suf, input ≠ pre ++ [0, 0, 0, 0] ++ suf)
    (ht : ∀ pre suf, input ≠ pre ++ [0x0D, 0x0A, 0x0D, 0x0A] ++ suf) :
    ParseHeader (some input) = (.error .EOF, []) ∧ Error.EOF ≠ Error.nullHeader := by
  refine ⟨?_, by decide⟩
  unfold ParseHeader
  simp only
  rw [readHeader_eof input [] (by simpa using hz) (by simpa [terminator] using ht)]

/-- Witness of C7 (amended): an input that ends after three bytes of a header. -/
theorem C7_end_of_stream_is_EOF_witness :
    ParseHeader (some [0x7B, 0x22, 0x6C]) = (.error .EOF, []) ∧ Error.EOF ≠ Error.nullHeader :=
  C7_end_of_stream_is_EOF [0x7B, 0x22, 0x6C]
    (by
      intro pre suf h
      have := congrArg List.length h
      simp at this
      omega)
    (by
      intro pre suf h
      have := congrArg List.length h
      simp at this
      omega)

/-! ## Admission by address -/

theorem parseIPv4Fields_chars (s : List Nat) (val digLen : Nat) (fields r : List Nat)
    (h : parseIPv4Fields s val digLen fields = some r) : 0x2F ∉ s := by
  induction s generalizing val digLen fields with
  | nil => simp
  | cons c t ih =>
    unfold parseIPv4Fields at h
    by_cases hd : isDigit c = true
    · rw [if_pos hd] at h
      have hc := isDigit_iff.1 hd
      split_ifs at h
      have := ih _ _ _ h
      simp only [List.mem_cons, not_or]
      exact ⟨by omega, this⟩
    · rw [if_neg hd] at h
      by_cases hdot : c = 0x2E
      · rw [if_pos hdot] at h
        split_ifs at h
        have := ih _ _ _ h
        simp only [List.mem_cons, not_or]
        exact ⟨by omega, this⟩
      · rw [if_neg hdot] at h
        simp at h

theorem hexVal_ne_slash (c v : Nat) (h : hexVal c = some v) : c ≠ 0x2F := by
  unfold hexVal at h
  split_ifs at h <;> omega

theorem spanHex_spec (s : List Nat) :
    ∃ pre, s = pre ++ (spanHex s).2 ∧ 0x2F ∉ pre := by
  induction s with
  | nil => exact ⟨[], rfl, by simp⟩
  | cons c t ih =>
    obtain ⟨pre, h1, h2⟩ := ih
    unfold spanHex
    cases hv : hexVal c with
    | none => exact ⟨[], rfl, by simp⟩
    | some v =>
      refine ⟨c :: pre, by simp only [List.cons_append]; rw [← h1], ?_⟩
      simp only [List.mem_cons, not_or]
      exact ⟨(hexVal_ne_slash c v hv).symm, h2⟩

theorem parseIPv6Groups_chars (fuel : Nat) (ip : List Nat) (ell : Option Nat) (s : List Nat)
    (ip1 : List Nat) (ell1 : Option Nat)
    (h : parseIPv6Groups fuel ip ell s = some (ip1, ell1, [])) : 0x2F ∉ s := by
  induction fuel generalizing ip ell s with
  | zero =>
    simp only [parseIPv6Groups, Option.some.injEq, Prod.mk.injEq] at h
    rw [h.2.2]; simp
  | succ fuel ih =>
    unfold parseIPv6Groups at h
    by_cases h16 : 16 ≤ ip.length
    · rw [if_pos h16] at h
      simp only [Option.some.injEq, Prod.mk.injEq] at h
      rw [h.2.2]; simp
    rw [if_neg h16] at h
    by_cases hsp : (spanHex s).1 = [] ∨ 4 < (spanHex s).1.length
    · rw [if_pos hsp] at h; simp at h
    rw [if_neg hsp] at h
    obtain ⟨pre, hpre, hnp⟩ := spanHex_spec s
    cases hrest : (spanHex s).2 with
    | nil =>
      rw [hrest] at hpre
      rw [hpre]; simpa using hnp
    | cons c r =>
      rw [hrest] at h hpre
      simp only at h
      by_cases hdot : c = 0x2E
      · rw [if_pos hdot] at h
        split_ifs at h
        cases h4 : parseIPv4 s with
        | none => simp [h4] at h
        | some v4 => exact parseIPv4Fields_chars s 0 0 [] v4 h4
      rw [if_neg hdot] at h
      by_cases hcol : c ≠ 0x3A
      · rw [if_pos hcol] at h; simp at h
      rw [if_neg hcol] at h
      have hc : c = 0x3A := by simpa using hcol
      cases r with
      | nil => simp at h
      | cons d r1 =>
        simp only at h
        by_cases hd : d = 0x3A
        · rw [if_pos hd] at h
          by_cases he : ell ≠ none
          · rw [if_pos he] at h; simp at h
          rw [if_neg he] at h
          by_cases hr1 : r1 = []
          · rw [hpre, hc, hd, hr1]
            simp only [List.mem_append, List.mem_cons, not_or]
            exact ⟨hnp, by decide, by decide, by simp⟩
          · rw [if_neg hr1] at h
            have := ih _ _ _ h
            rw [hpre, hc, hd]
            simp only [List.mem_append, List.mem_cons, not_or]
            exact ⟨hnp, by decide, by decide, this⟩
        · rw [if_neg hd] at h
          have := ih _ _ _ h
          rw [hpre, hc]
          simp only [List.mem_append, List.mem_cons, not_or]
          exact ⟨hnp, by decide, by simpa using this⟩

theorem finishIPv6_left (res : List Nat × Option Nat × List Nat) (r : List Nat)
    (h : finishIPv6 res = some r) : res.2.2 = [] := by
  unfold finishIPv6 at h
  by_cases hl : res.2.2 ≠ []
  · rw [if_pos hl] at h; simp at h
  · simpa using hl

theorem parseIPv6_chars (s r : List Nat) (h : parseIPv6 s = some r) : 0x2F ∉ s := by
  have key : ∀ (ell : Option Nat) (t : List Nat),
      (match parseIPv6Groups 9 [] ell t with
       | some res => finishIPv6 res
       | none => none) = some r → 0x2F ∉ t := by
    intro ell t ht
    cases hg : parseIPv6Groups 9 [] ell t with
    | none => simp [hg] at ht
    | some res =>
      rw [hg] at ht
      simp only at ht
      obtain ⟨a, b, c⟩ := res
      have := finishIPv6_left _ r ht
      simp only at this
      subst this
      exact parseIPv6Groups_chars 9 [] ell t a b hg
  unfold parseIPv6 at h
  match s, h with
  | [], h => simp at h
  | [x], h => exact key none [x] h
  | c :: d :: t, h =>
    simp only at h
    by_cases hcd : c = 0x3A ∧ d = 0x3A
    · rw [if_pos hcd] at h
      by_cases ht : t = []
      · rw [hcd.1, hcd.2, ht]; decide
      · rw [if_neg ht] at h
        have := key (some 0) t h
        rw [hcd.1, hcd.2]
        simp only [List.mem_cons, not_or]
        exact ⟨by decide, by decide, this⟩
    · rw [if_neg hcd] at h
      exact key none (c :: d :: t) h

theorem parseAddr_chars (s : List Nat) (a : Nat × List Nat) (h : parseAddr s = some a) :
    0x2F ∉ s := by
  unfold parseAddr at h
  split_ifs at h
  · cases h4 : parseIPv4 s with
    | none => simp [h4] at h
    | some v4 => exact parseIPv4Fields_chars s 0 0 [] v4 h4
  · cases h6 : parseIPv6 s with
    | none => simp [h6] at h
    | some v6 => exact parseIPv6_chars s v6 h6

theorem splitSlash_mem (s : List Nat) (p : List Nat × List Nat) (h : splitSlash s = some p) :
    0x2F ∈ s := by
  induction s generalizing p with
  | nil => simp [splitSlash] at h
  | cons c t ih =>
    unfold splitSlash at h
    by_cases hc : c = 0x2F
    · simp [hc]
    · rw [if_neg hc] at h
      cases ht : splitSlash t with
      | none => simp [ht] at h
      | some q => exact List.mem_cons_of_mem _ (ih q ht)

/-- A text that `net.ParseIP` accepts is not one that `net.ParseCIDR` accepts. -/
theorem ParseCIDR_of_ParseIP (p ip : List Nat) (h : ParseIP p = some ip) : ParseCIDR p = none := by
  unfold ParseIP at h
  cases ha : parseAddr p with
  | none => simp [ha] at h
  | some a =>
    have hns := parseAddr_chars p a ha
    unfold ParseCIDR
    cases hs : splitSlash p with
    | none => rfl
    | some q => exact absurd (splitSlash_mem p q hs) hns

/-- `ipMatch` decides the match of the specification. -/
theorem ipMatch_iff (ip pattern : List Nat) :
    ipMatch ip pattern = true ↔ patternMatches ip pattern := by
  unfold ipMatch patternMatches
  cases hp : ParseIP pattern with
  | some ip2 =>
    simp only [Option.some.injEq, exists_eq_left', ParseCIDR_of_ParseIP pattern ip2 hp,
      reduceCtorEq, false_and, exists_false, or_false]
  | none =>
    simp only [reduceCtorEq, false_and, exists_false, false_or]
    cases hc : ParseCIDR pattern with
    | none => simp
    | some netw => simp

/-- C8. For every host text and every pair of lists of blocked and permitted patterns,
`ipAllowed` returns true exactly when the host parses as an IP address, no blocked
pattern matches it, and the permitted list is empty or one of its patterns matches it,
where a pattern matches when it parses as an IP address equal to the host's or as a
CIDR network that contains it. -/
theorem C8_ipAllowed_iff (blocked permitted : List (List Nat)) (addr : List Nat) :
    ipAllowed blocked permitted addr = true ↔
      ∃ ip, ParseIP addr = some ip ∧ (∀ b ∈ blocked, ¬ patternMatches ip b) ∧
        (permitted = [] ∨ ∃ p ∈ permitted, patternMatches ip p) := by
  unfold ipAllowed
  cases hp : ParseIP addr with
  | none => simp
  | some ip =>
    simp only [Option.some.injEq, exists_eq_left']
    by_cases hb : blocked.any (fun b => ipMatch ip b) = true
    · rw [if_pos hb]
      simp only [List.any_eq_true] at hb
      obtain ⟨b, hb1, hb2⟩ := hb
      constructor
      · intro h; cases h
      · rintro ⟨h1, _⟩
        exact absurd ((ipMatch_iff ip b).1 hb2) (h1 b hb1)
    · rw [if_neg hb]
      have hb' : ∀ b ∈ blocked, ¬ patternMatches ip b := by
        intro b hb1 hm
        apply hb
        simp only [List.any_eq_true]
        exact ⟨b, hb1, (ipMatch_iff ip b).2 hm⟩
      by_cases hl : 0 < permitted.length
      · rw [if_pos hl]
        have hne : permitted ≠ [] := by
          intro he; rw [he] at hl; simp at hl
        simp only [List.any_eq_true, ipMatch_iff, hne, false_or]
        constructor
        · intro h; exact ⟨hb', h⟩
        · intro h; exact h.2
      · rw [if_neg hl]
        have he : permitted = [] := List.length_eq_zero.1 (by omega)
        simp only [he, true_or, and_true, true_iff]
        exact hb'

/-! ## The connection limit -/

theorem connsDelete_length (m : List (List Nat × ClientConn)) (id : List Nat) :
    (connsDelete m id).length ≤ m.length :=
  List.length_filter_le _ _

theorem Reachable.invariant (n : Int) (hn : 0 < n) (blocked permitted : List (List Nat))
    (s : Server) (hr : Reachable n blocked permitted s) :
    s.maxConnections = n ∧ (s.conns.length : Int) ≤ n := by
  induction hr with
  | init => exact ⟨rfl, by simp; omega⟩
  | accept s a now _ ih =>
    obtain ⟨h1, h2⟩ := ih
    unfold Server.acceptStep
    split_ifs with c1 c2
    · exact ⟨h1, h2⟩
    · exact ⟨h1, h2⟩
    · refine ⟨h1, ?_⟩
      have hlt : (s.conns.length : Int) < n := by
        by_contra hh
        exact c2 ⟨by omega, by omega⟩
      have := connsDelete_length s.conns a.remoteAddr
      simp only [connsStore, List.length_cons]
      push_cast
      omega
  | remove s id _ ih =>
    obtain ⟨h1, h2⟩ := ih
    refine ⟨h1, ?_⟩
    have := connsDelete_length s.conns id
    simp only [Server.removeConn]
    omega
  | stop s _ ih =>
    unfold Server.Stop
    split_ifs
    · exact ih
    · exact ⟨ih.1, by simp; omega⟩

/-- C9. With `MaxConnections = n > 0`, in every state the server reaches from the empty
map by rounds of the accept loop, removals of a record and `Stop`, the map holds at
most `n` records, and a round of the accept loop that finds `n` records leaves the
server as it is (it inserts no record), closes the new connection and starts no
handler for it. -/
theorem C9_connection_limit (n : Int) (hn : 0 < n) (blocked permitted : List (List Nat))
    (s : Server) (hr : Reachable n blocked permitted s) :
    (s.conns.length : Int) ≤ n ∧
    ∀ (a : Accepted) (now : Time), (s.conns.length : Int) = n →
      (s.acceptStep a now).1 = s ∧ (s.acceptStep a now).2.closed = true ∧
        (s.acceptStep a now).2.handled = false := by
  obtain ⟨h1, h2⟩ := Reachable.invariant n hn blocked permitted s hr
  refine ⟨h2, ?_⟩
  intro a now hfull
  unfold Server.acceptStep
  split_ifs with c1 c2
  · exact ⟨rfl, rfl, rfl⟩
  · exact ⟨rfl, rfl, rfl⟩
  · exact absurd ⟨by omega, by omega⟩ c2

/-- Witness of C9: the limit 1 and the state after one admitted connection. -/
theorem C9_connection_limit_witness :
    ((((({ maxConnections := 1 } : Server).acceptStep
        { conn := 0, remoteAddr := [0x61], remoteHost := [0x31, 0x2E, 0x32, 0x2E, 0x33, 0x2E, 0x34] }
        {}).1).conns.length : Nat) : Int) ≤ 1 ∧
    ∀ (a : Accepted) (now : Time),
      ((((({ maxConnections := 1 } : Server).acceptStep
        { conn := 0, remoteAddr := [0x61], remoteHost := [0x31, 0x2E, 0x32, 0x2E, 0x33, 0x2E, 0x34] }
        {}).1).conns.length : Nat) : Int) = 1 →
      (((({ maxConnections := 1 } : Server).acceptStep
        { conn := 0, remoteAddr := [0x61], remoteHost := [0x31, 0x2E, 0x32, 0x2E, 0x33, 0x2E, 0x34] }
        {}).1).acceptStep a now).1 =
        (({ maxConnections := 1 } : Server).acceptStep
        { conn := 0, remoteAddr := [0x61], remoteHost := [0x31, 0x2E, 0x32, 0x2E, 0x33, 0x2E, 0x34] }
        {}).1 ∧
      (((({ maxConnections := 1 } : Server).acceptStep
        { conn := 0, remoteAddr := [0x61], remoteHost := [0x31, 0x2E, 0x32, 0x2E, 0x33, 0x2E, 0x34] }
        {}).1).acceptStep a now).2.closed = true ∧
      (((({ maxConnections := 1 } : Server).acceptStep
        { conn := 0, remoteAddr := [0x61], remoteHost := [0x31, 0x2E, 0x32, 0x2E, 0x33, 0x2E, 0x34] }
        {}).1).acceptStep a now).2.handled = false :=
  C9_connection_limit 1 (by decide) [] [] _
    (Reachable.accept _
      { conn := 0, remoteAddr := [0x61], remoteHost := [0x31, 0x2E, 0x32, 0x2E, 0x33, 0x2E, 0x34] }
      {} Reachable.init)

/-! ## The correlation table in the read loop -/

theorem mapDelete_cons_eq (e : List Nat × Nat) (m : List (List Nat × Nat)) (k : List Nat)
    (he : e.1 = k) : mapDelete (e :: m) k = mapDelete m k := by
  simp [mapDelete, List.filter_cons, he]

theorem mapDelete_cons_ne (e : List Nat × Nat) (m : List (List Nat × Nat)) (k : List Nat)
    (he : ¬ e.1 = k) : mapDelete (e :: m) k = e :: mapDelete m k := by
  simp [mapDelete, List.filter_cons, he]

theorem mapLoad_cons_eq (e : List Nat × Nat) (m : List (List Nat × Nat)) (g : List Nat)
    (he : e.1 = g) : mapLoad (e :: m) g = some e.2 := by
  have : decide (e.1 = g) = true := by simp [he]
  simp only [mapLoad, List.find?_cons, this, Option.map_some']

theorem mapLoad_cons_ne (e : List Nat × Nat) (m : List (List Nat × Nat)) (g : List Nat)
    (he : ¬ e.1 = g) : mapLoad (e :: m) g = mapLoad m g := by
  have : decide (e.1 = g) = false := by simp [he]
  simp only [mapLoad, List.find?_cons, this]

theorem mapLoad_mapDelete_self (m : List (List Nat × Nat)) (k : List Nat) :
    mapLoad (mapDelete m k) k = none := by
  induction m with
  | nil => rfl
  | cons e m ih =>
    by_cases he : e.1 = k
    · rw [mapDelete_cons_eq e m k he, ih]
    · rw [mapDelete_cons_ne e m k he, mapLoad_cons_ne e _ k he, ih]

theorem mapLoad_mapDelete_other (m : List (List Nat × Nat)) (k g : List Nat) (hg : g ≠ k) :
    mapLoad (mapDelete m k) g = mapLoad m g := by
  induction m with
  | nil => rfl
  | cons e m ih =>
    by_cases he : e.1 = k
    · have heg : ¬ e.1 = g := by rw [he]; exact fun h => hg h.symm
      rw [mapDelete_cons_eq e m k he, mapLoad_cons_ne e m g heg, ih]
    · rw [mapDelete_cons_ne e m k he]
      by_cases heg : e.1 = g
      · rw [mapLoad_cons_eq e _ g heg, mapLoad_cons_eq e _ g heg]
      · rw [mapLoad_cons_ne e _ g heg, mapLoad_cons_ne e _ g heg, ih]

/-- What `readFrame` returning a frame says about its two steps. -/
theorem readFrame_frame (input : List Nat) (msg : Message) (payload rest : List Nat)
    (h : readFrame input = .frame msg payload rest) :
    ∃ r0, ParseHeader (some input) = (.ok msg, r0) ∧ makePanics msg.ContentLength = false ∧
      ReadFull r0 msg.ContentLength.toNat = (.ok payload, rest) := by
  unfold readFrame at h
  cases hp : ParseHeader (some input) with
  | mk res r0 =>
    rw [hp] at h
    cases res with
    | error e => simp at h
    | ok m =>
      simp only at h
      by_cases hneg : makePanics m.ContentLength = true
      · rw [if_pos hneg] at h; simp at h
      · rw [if_neg hneg] at h
        cases hr : ReadFull r0 m.ContentLength.toNat with
        | mk res2 r1 =>
          rw [hr] at h
          cases res2 with
          | error e => simp at h
          | ok p =>
            simp only [FrameResult.frame.injEq] at h
            obtain ⟨rfl, rfl, rfl⟩ := h
            exact ⟨r0, rfl, by simpa using hneg, hr⟩

/-- C10. In a round of the client read loop that receives a frame (header and payload)
with `SyncResponse = true` and a non-empty `ConversationGUID` that the correlation
table holds, the message and its payload are sent on the channel registered under that
id and the channel is closed, `OnMessage` is not invoked, the id is absent from the
table afterwards, every other entry of the table is as before, and the loop goes on. -/
theorem C10_sync_response_goes_to_waiter (c : Client) (conn : Conn) (now : Time)
    (msg : Message) (payload rest : List Nat) (ch : Nat)
    (hdone : c.done = false) (hconn : c.conn = some conn)
    (hframe : readFrame conn.incoming = .frame msg payload rest)
    (hsync : msg.SyncResponse = true) (hguid : msg.ConversationGUID ≠ [])
    (hwait : mapLoad c.respMap msg.ConversationGUID = some ch) :
    (c.readLoopStep now).2.1 = [.chanSend ch msg payload, .chanClose ch] ∧
    (∀ m d, Event.onMessage m d ∉ (c.readLoopStep now).2.1) ∧
    mapLoad (c.readLoopStep now).1.respMap msg.ConversationGUID = none ∧
    (∀ g, g ≠ msg.ConversationGUID →
      mapLoad (c.readLoopStep now).1.respMap g = mapLoad c.respMap g) ∧
    (c.readLoopStep now).2.2 = .next := by
  obtain ⟨r0, hp, hneg, hr⟩ := readFrame_frame _ _ _ _ hframe
  have hstep : c.readLoopStep now =
      ({ c with
          conn := some { conn with incoming := rest }
          stats := (c.stats.IncrementReceivedMessages).AddReceivedBytes (payload.length : Int)
          respMap := mapDelete c.respMap msg.ConversationGUID },
        [.chanSend ch msg payload, .chanClose ch], .next) := by
    unfold Client.readLoopStep
    simp only [hdone, hconn, hp, hsync, hneg, hr, hguid, hwait, Bool.false_eq_true, if_false,
      and_false, ne_eq, not_false_eq_true, and_self, if_true, reduceCtorEq]
  rw [hstep]
  refine ⟨rfl, ?_, mapLoad_mapDelete_self _ _, ?_, rfl⟩
  · intro m d hmem
    simp at hmem
  · intro g hg
    exact mapLoad_mapDelete_other _ _ _ hg

set_option maxRecDepth 100000 in
/-- Witness of C10: a client with a waiter on channel 7 under the id `g` receives the
reply `pong` to it. -/
theorem C10_sync_response_goes_to_waiter_witness :
    (Client.readLoopStep
      { conn := some { incoming := headerOf { SyncResponse := true, ConversationGUID := [0x67], ContentLength := 4 } ++ [0x70, 0x6F, 0x6E, 0x67] }
        callbacks := { OnMessage := true }
        respMap := [([0x66], 3), ([0x67], 7)] } {}).2.1 =
      [.chanSend 7 { SyncResponse := true, ConversationGUID := [0x67], ContentLength := 4 }
        [0x70, 0x6F, 0x6E, 0x67], .chanClose 7] :=
  (C10_sync_response_goes_to_waiter
    { conn := some { incoming := headerOf { SyncResponse := true, ConversationGUID := [0x67], ContentLength := 4 } ++ [0x70, 0x6F, 0x6E, 0x67] }
      callbacks := { OnMessage := true }
      respMap := [([0x66], 3), ([0x67], 7)] }
    { incoming := headerOf { SyncResponse := true, ConversationGUID := [0x67], ContentLength := 4 } ++ [0x70, 0x6F, 0x6E, 0x67] }
    {} { SyncResponse := true, ConversationGUID := [0x67], ContentLength := 4 }
    [0x70, 0x6F, 0x6E, 0x67] [] 7 rfl rfl (by decide) rfl (by decide) (by decide)).1

/-! ## Statistics -/

/-- An `int64` value is its own wrapped value. -/
theorem wrap64_of_range (x : Int) (h1 : -(2 ^ 63 : Int) ≤ x) (h2 : x < (2 ^ 63 : Int)) :
    wrap64 x = x := by
  unfold wrap64
  omega

/-- The truncated quotient of two `int64` values is an `int64`, except for
`-2^63 / -1`. -/
theorem tdiv_range (a b : Int) (ha1 : -(2 ^ 63 : Int) ≤ a) (ha2 : a < (2 ^ 63 : Int))
    (hb : b ≠ 0) (hc : ¬ (a = -(2 ^ 63 : Int) ∧ b = -1)) :
    -(2 ^ 63 : Int) ≤ Int.tdiv a b ∧ Int.tdiv a b < (2 ^ 63 : Int) := by
  have hq : (Int.tdiv a b).natAbs = a.natAbs / b.natAbs := Int.natAbs_tdiv a b
  have hb0 : 0 < b.natAbs := Int.natAbs_pos.mpr hb
  by_cases h1 : b.natAbs = 1
  · have hb1 : b = 1 ∨ b = -1 := by omega
    rcases hb1 with rfl | rfl
    · rw [Int.tdiv_one]; exact ⟨ha1, ha2⟩
    · have : Int.tdiv a (-1) = -a := by rw [Int.tdiv_neg, Int.tdiv_one]
      rw [this]
      have : a ≠ -(2 ^ 63 : Int) := fun h => hc ⟨h, rfl⟩
      omega
  · have h2 : 2 ≤ b.natAbs := by omega
    have h3 : a.natAbs / b.natAbs ≤ a.natAbs / 2 := Nat.div_le_div_left h2 (by decide)
    have h4 : a.natAbs ≤ 2 ^ 63 := by omega
    have h5 : (Int.tdiv a b).natAbs ≤ 2 ^ 62 := by omega
    omega

/-- C13. For every statistics state (four `int64` counters),
`ReceivedMessageSizeAverage` returns 0 when the received message count is 0 and
otherwise the received byte total divided by the received message count, truncated
toward zero; `SentMessageSizeAverage` does the same with the sent totals.  (The one pair
whose quotient is no `int64`, `-2^63 / -1`, is left out.) -/
theorem C13_message_size_averages (s : Statistics)
    (hrb : -(2 ^ 63 : Int) ≤ s.receivedBytes ∧ s.receivedBytes < (2 ^ 63 : Int))
    (hsb : -(2 ^ 63 : Int) ≤ s.sentBytes ∧ s.sentBytes < (2 ^ 63 : Int)) :
    (s.receivedMsgs = 0 → s.ReceivedMessageSizeAverage = 0) ∧
    (s.receivedMsgs ≠ 0 → ¬ (s.receivedBytes = -(2 ^ 63 : Int) ∧ s.receivedMsgs = -1) →
      s.ReceivedMessageSizeAverage = Int.tdiv s.receivedBytes s.receivedMsgs) ∧
    (s.sentMsgs = 0 → s.SentMessageSizeAverage = 0) ∧
    (s.sentMsgs ≠ 0 → ¬ (s.sentBytes = -(2 ^ 63 : Int) ∧ s.sentMsgs = -1) →
      s.SentMessageSizeAverage = Int.tdiv s.sentBytes s.sentMsgs) := by
  refine ⟨?_, ?_, ?_, ?_⟩
  · intro h
    simp [Statistics.ReceivedMessageSizeAverage, h]
  · intro h hc
    have hr := tdiv_range s.receivedBytes s.receivedMsgs hrb.1 hrb.2 h hc
    simp only [Statistics.ReceivedMessageSizeAverage, if_neg h, div64]
    exact wrap64_of_range _ hr.1 hr.2
  · intro h
    simp [Statistics.SentMessageSizeAverage, h]
  · intro h hc
    have hr := tdiv_range s.sentBytes s.sentMsgs hsb.1 hsb.2 h hc
    simp only [Statistics.SentMessageSizeAverage, if_neg h, div64]
    exact wrap64_of_range _ hr.1 hr.2

/-- Witness of C13: 150 bytes over 2 messages received give 75, 100 bytes over 2
messages sent give 50. -/
theorem C13_message_size_averages_witness :
    (({ receivedBytes := 150, receivedMsgs := 2, sentBytes := 100, sentMsgs := 2 } :
        Statistics).ReceivedMessageSizeAverage = Int.tdiv 150 2 ∧ Int.tdiv 150 2 = 75) ∧
    (({ receivedBytes := 150, receivedMsgs := 2, sentBytes := 100, sentMsgs := 2 } :
        Statistics).SentMessageSizeAverage = Int.tdiv 100 2 ∧ Int.tdiv 100 2 = 50) :=
  ⟨⟨(C13_message_size_averages
      { receivedBytes := 150, receivedMsgs := 2, sentBytes := 100, sentMsgs := 2 }
      (by decide) (by decide)).2.1 (by decide) (by decide), by decide⟩,
    ⟨(C13_message_size_averages
      { receivedBytes := 150, receivedMsgs := 2, sentBytes := 100, sentMsgs := 2 }
      (by decide) (by decide)).2.2.2 (by decide) (by decide), by decide⟩⟩

/-- C14. For every statistics state, `Reset` sets the four counters to zero and leaves
the start time unchanged. -/
theorem C14_Reset_clears_counters (s : Statistics) :
    s.Reset.receivedBytes = 0 ∧ s.Reset.receivedMsgs = 0 ∧ s.Reset.sentBytes = 0 ∧
      s.Reset.sentMsgs = 0 ∧ s.Reset.startTime = s.startTime :=
  ⟨rfl, rfl, rfl, rfl, rfl⟩

set_option maxRecDepth 100000 in
/-- C15, where the claim fails.  A round of the client read loop that streams a frame
whose header declares the length -5 lowers the received byte total from 0 to -5; the
server's `SendStream` called with the length -1000 lowers the sent byte total from 0 to
-896; and `AddSentBytes(1)` at the largest `int64` wraps around. -/
theorem C15_counterexample :
    (Client.readLoopStep
      { conn := some { incoming := headerOf { ContentLength := -5 } }
        callbacks := { OnStream := some (fun _ => .ret) } } {}).1.stats.receivedBytes = -5 ∧
    (Server.SendStream { conns := [([0x61], { conn := 0, lastActive := {} })] } [0x61]
      (some {}) (some []) (-1000) {}).1.stats.sentBytes = -896 ∧
    (Server.SendStream { conns := [([0x61], { conn := 0, lastActive := {} })] } [0x61]
      (some {}) (some []) (-1000) {}).2.2 = .ok ∧
    (({ sentBytes := 2 ^ 63 - 1 } : Statistics).AddSentBytes 1).sentBytes = -(2 ^ 63) := by
  refine ⟨by decide, by decide, by decide, by decide⟩

/-- C15, amended.  A counter update with a non-negative argument leaves each of the
four totals greater than or equal to its previous value, as long as the updated total
stays below `2^63`; the message counters are raised by one. -/
theorem C15_counters_monotone (s : Statistics) (n : Int) (hn : 0 ≤ n)
    (hrb : -(2 ^ 63 : Int) ≤ s.receivedBytes) (hrm : -(2 ^ 63 : Int) ≤ s.receivedMsgs)
    (hsb : -(2 ^ 63 : Int) ≤ s.sentBytes) (hsm : -(2 ^ 63 : Int) ≤ s.sentMsgs) :
    (s.receivedBytes + n < 2 ^ 63 →
      s.receivedBytes ≤ (s.AddReceivedBytes n).receivedBytes ∧
      (s.AddReceivedBytes n).receivedMsgs = s.receivedMsgs ∧
      (s.AddReceivedBytes n).sentBytes = s.sentBytes ∧
      (s.AddReceivedBytes n).sentMsgs = s.sentMsgs) ∧
    (s.receivedMsgs + 1 < 2 ^ 63 →
      s.receivedMsgs ≤ s.IncrementReceivedMessages.receivedMsgs ∧
      s.IncrementReceivedMessages.receivedBytes = s.receivedBytes ∧
      s.IncrementReceivedMessages.sentBytes = s.sentBytes ∧
      s.IncrementReceivedMessages.sentMsgs = s.sentMsgs) ∧
    (s.sentBytes + n < 2 ^ 63 →
      s.sentBytes ≤ (s.AddSentBytes n).sentBytes ∧
      (s.AddSentBytes n).sentMsgs = s.sentMsgs ∧
      (s.AddSentBytes n).receivedBytes = s.receivedBytes ∧
      (s.AddSentBytes n).receivedMsgs = s.receivedMsgs) ∧
    (s.sentMsgs + 1 < 2 ^ 63 →
      s.sentMsgs ≤ s.IncrementSentMessages.sentMsgs ∧
      s.IncrementSentMessages.sentBytes = s.sentBytes ∧
      s.IncrementSentMessages.receivedBytes = s.receivedBytes ∧
      s.IncrementSentMessages.receivedMsgs = s.receivedMsgs) := by
  refine ⟨?_, ?_, ?_, ?_⟩
  · intro h
    refine ⟨?_, rfl, rfl, rfl⟩
    simp only [Statistics.AddReceivedBytes]
    rw [wrap64_of_range _ (by omega) h]
    omega
  · intro h
    refine ⟨?_, rfl, rfl, rfl⟩
    simp only [Statistics.IncrementReceivedMessages]
    rw [wrap64_of_range _ (by omega) h]
    omega
  · intro h
    refine ⟨?_, rfl, rfl, rfl⟩
    simp only [Statistics.AddSentBytes]
    rw [wrap64_of_range _ (by omega) h]
    omega
  · intro h
    refine ⟨?_, rfl, rfl, rfl⟩
    simp only [Statistics.IncrementSentMessages]
    rw [wrap64_of_range _ (by omega) h]
    omega

/-- Witness of C15: the totals of the test (150 bytes in 2 messages received, 100 bytes
in 2 messages sent) and an update by 70 bytes. -/
theorem C15_counters_monotone_witness :
    (150 : Int) ≤ (({ receivedBytes := 150, receivedMsgs := 2, sentBytes := 100, sentMsgs := 2 } :
      Statistics).AddReceivedBytes 70).receivedBytes ∧
    (100 : Int) ≤ (({ receivedBytes := 150, receivedMsgs := 2, sentBytes := 100, sentMsgs := 2 } :
      Statistics).AddSentBytes 70).sentBytes :=
  ⟨((C15_counters_monotone
      { receivedBytes := 150, receivedMsgs := 2, sentBytes := 100, sentMsgs := 2 } 70
      (by decide) (by decide) (by decide) (by decide) (by decide)).1 (by decide)).1,
    ((C15_counters_monotone
      { receivedBytes := 150, receivedMsgs := 2, sentBytes := 100, sentMsgs := 2 } 70
      (by decide) (by decide) (by decide) (by decide) (by decide)).2.2.1 (by decide)).1⟩

/-! ## Disconnect and Stop -/

/-- After a call of `Disconnect` the `sync.Once` value has run. -/
theorem Client.Disconnect_dcOnce (c : Client) : (c.Disconnect).1.dcOnce = true := by
  unfold Client.Disconnect
  by_cases h1 : c.dcOnce = true
  · rw [if_pos h1]; exact h1
  · rw [if_neg h1]
    by_cases h2 : c.done = true
    · rw [if_pos h2]
    · rw [if_neg h2]

/-- Once the `sync.Once` value has run, `Disconnect` does nothing. -/
theorem Client.Disconnect_of_dcOnce (c : Client) (h : c.dcOnce = true) :
    c.Disconnect = (c, [], .ok) := by
  unfold Client.Disconnect
  rw [if_pos h]

theorem Client.DisconnectTimes_of_dcOnce (n : Nat) (c : Client) (h : c.dcOnce = true) :
    Client.DisconnectTimes n c = (c, []) := by
  induction n with
  | zero => rfl
  | succ k ih =>
    simp only [Client.DisconnectTimes, Client.Disconnect_of_dcOnce c h, ih, List.nil_append]

/-- C16. For every `n ≥ 1`, `n` calls of `Disconnect` leave the client in the state one
call leaves it in and do, in total, what the one call does.  On a client whose
`Disconnect` has not run yet, that is: the connection, when there is one, is closed
once, and `OnDisconnect` is invoked once when it is set and not at all otherwise. -/
theorem C16_Disconnect_idempotent (c : Client) (n : Nat) (hn : 1 ≤ n) :
    Client.DisconnectTimes n c = ((c.Disconnect).1, (c.Disconnect).2.1) ∧
    (c.dcOnce = false → c.done = false →
      (c.Disconnect).2.2 = .ok ∧
      (Client.DisconnectTimes n c).1.conn = c.conn.map Conn.Close ∧
      (Client.DisconnectTimes n c).1.done = true ∧
      (∀ conn, c.conn = some conn →
        (Client.DisconnectTimes n c).2.count .connClose = 1) ∧
      (c.callbacks.OnDisconnect = true →
        (Client.DisconnectTimes n c).2.count .onDisconnect = 1) ∧
      (c.callbacks.OnDisconnect = false →
        (Client.DisconnectTimes n c).2.count .onDisconnect = 0)) := by
  obtain ⟨k, rfl⟩ : ∃ k, n = k + 1 := ⟨n - 1, by omega⟩
  have key : Client.DisconnectTimes (k + 1) c = ((c.Disconnect).1, (c.Disconnect).2.1) := by
    simp only [Client.DisconnectTimes,
      Client.DisconnectTimes_of_dcOnce k _ (Client.Disconnect_dcOnce c), List.append_nil]
  refine ⟨key, ?_⟩
  intro h1 h2
  rw [key]
  unfold Client.Disconnect
  rw [if_neg (by simp [h1]), if_neg (by simp [h2])]
  refine ⟨rfl, rfl, rfl, ?_, ?_, ?_⟩
  · intro conn hc
    by_cases ho : c.callbacks.OnDisconnect = true <;>
      simp [hc, ho, List.count_cons]
  · intro ho
    cases hc : c.conn <;> simp [ho, List.count_cons]
  · intro ho
    cases hc : c.conn <;> simp [ho, List.count_cons]

/-- Witness of C16: three calls on a connected client with `OnDisconnect` set. -/
theorem C16_Disconnect_idempotent_witness :
    Client.DisconnectTimes 3 { conn := some {}, callbacks := { OnDisconnect := true } } =
      ((Client.Disconnect { conn := some {}, callbacks := { OnDisconnect := true } }).1,
        [.closeDone, .connClose, .onDisconnect]) :=
  (C16_Disconnect_idempotent { conn := some {}, callbacks := { OnDisconnect := true } } 3
    (by decide)).1

/-- C17, what the code does.  A second call of `Stop` panics at `close(s.done)`, which
the first call has closed already, and changes nothing; the first call on a server not
stopped before closes the listener and empties the map. -/
theorem C17_second_Stop_panics (s : Server) :
    ((s.Stop).1.Stop).2.2 = .panic ∧ ((s.Stop).1.Stop).1 = (s.Stop).1 ∧
    (s.done = false →
      (s.Stop).2.2 = .ok ∧ (s.Stop).1.conns = [] ∧
      (s.Stop).1.listener = s.listener.map (fun l => { l with closed := true })) := by
  unfold Server.Stop
  by_cases h : s.done = true
  · simp [h]
  · simp [h]

/-- Witness of C17: a started server with one connection. -/
theorem C17_second_Stop_panics_witness :
    ((Server.Stop (Server.Stop
      { listener := some {}, conns := [([0x61], { conn := 0, lastActive := {} })] }).1).2.2 =
        .panic) ∧
    (Server.Stop
      { listener := some {}, conns := [([0x61], { conn := 0, lastActive := {} })] }).2.2 = .ok :=
  ⟨(C17_second_Stop_panics
      { listener := some {}, conns := [([0x61], { conn := 0, lastActive := {} })] }).1,
    ((C17_second_Stop_panics
      { listener := some {}, conns := [([0x61], { conn := 0, lastActive := {} })] }).2.2 rfl).1⟩

/-! ## Send and Connect around Disconnect -/

/-- `Send` leaves every field of the client but the connection and the statistics as it
is, and keeps a connection where there is one. -/
theorem Client.Send_fields (c : Client) (msg : Option Message) (data : List Nat) (now : Time) :
    (c.Send msg data now).1.dcOnce = c.dcOnce ∧ (c.Send msg data now).1.done = c.done ∧
    (c.Send msg data now).1.respMap = c.respMap ∧
    (c.Send msg data now).1.options = c.options ∧
    (c.Send msg data now).1.callbacks = c.callbacks ∧
    (c.Send msg data now).1.conn.isSome = c.conn.isSome := by
  unfold Client.Send
  cases hc : c.conn with
  | none => simp [hc]
  | some conn =>
    cases msg with
    | none => simp [hc]
    | some m =>
      simp only
      cases BuildHeader (some { m with ContentLength := (data.length : Int), TimestampUtc := now }) with
      | error e => simp [hc]
      | ok header =>
        simp only
        cases conn.Write header with
        | error e => simp [hc]
        | ok conn1 =>
          simp only
          cases (if 0 < data.length then conn1.Write data else .ok conn1) with
          | error e => simp
          | ok conn2 => simp

theorem Client.connectAuth_fields (c : Client) (now : Time) (w : Option Nat) :
    (c.connectAuth now w).1.dcOnce = c.dcOnce ∧ (c.connectAuth now w).1.done = c.done ∧
    (c.connectAuth now w).1.options = c.options ∧
    (c.connectAuth now w).1.callbacks = c.callbacks := by
  unfold Client.connectAuth
  split_ifs with hk
  · exact ⟨rfl, rfl, rfl, rfl⟩
  · have hs := Client.Send_fields c
      (some { Status := StatusAuthRequested, PresharedKey := c.options.PresharedKey }) [] now
    obtain ⟨h1, h2, _, h4, h5, _⟩ := hs
    split
    · exact ⟨by simp_all, by simp_all, by simp_all, by simp_all⟩
    · exact ⟨by simp_all, by simp_all, by simp_all, by simp_all⟩
    · rename_i c1 m1 heq
      rw [heq] at h1 h2 h4 h5
      simp only at h1 h2 h4 h5
      (repeat' split) <;> exact ⟨h1, h2, h4, h5⟩

theorem Client.connectRegister_fields (c : Client) (w : Option Nat) :
    (c.connectRegister w).1.dcOnce = c.dcOnce ∧ (c.connectRegister w).1.done = c.done ∧
    (c.connectRegister w).1.options = c.options ∧
    (c.connectRegister w).1.callbacks = c.callbacks ∧
    ((c.connectRegister w).2 = .ok → (c.connectRegister w).1.conn.isSome = true) := by
  unfold Client.connectRegister
  (repeat' split) <;> exact ⟨rfl, rfl, rfl, rfl, by simp⟩

/-- A successful `Connect` leaves a connection in `c.conn` and does not touch `dcOnce`
and `done`. -/
theorem Client.Connect_ok (c : Client) (dial : Except Error Conn) (now later : Time)
    (w1 w2 : Option Nat) (hok : (c.Connect dial now later w1 w2).2.2.2 = .ok) :
    (c.Connect dial now later w1 w2).1.conn.isSome = true ∧
    (c.Connect dial now later w1 w2).1.dcOnce = c.dcOnce ∧
    (c.Connect dial now later w1 w2).1.done = c.done := by
  unfold Client.Connect at hok ⊢
  cases hc : c.conn with
  | some k => simp [hc] at hok
  | none =>
    simp only [hc] at hok ⊢
    cases dial with
    | error e => simp at hok
    | ok conn0 =>
      simp only at hok ⊢
      have ha := Client.connectAuth_fields { c with conn := some conn0 } now w1
      cases h1 : Client.connectAuth { c with conn := some conn0 } now w1 with
      | mk c1 r1 =>
        rw [h1] at ha hok
        cases r1 with
        | panic => simp at hok
        | err e => simp at hok
        | ok =>
          simp only at hok ha ⊢
          have hr := Client.connectRegister_fields c1 w2
          cases h2 : Client.connectRegister c1 w2 with
          | mk c2 r2 =>
            rw [h2] at hr hok
            cases r2 with
            | panic => simp at hok
            | err e => simp at hok
            | ok =>
              simp only at hr ⊢
              exact ⟨hr.2.2.2.2 trivial, by rw [hr.1, ha.1], by rw [hr.2.1, ha.2.1]⟩

/-- `Disconnect` never sets `c.conn` to nil. -/
theorem Client.Disconnect_conn (c : Client) :
    (c.Disconnect).1.conn.isSome = c.conn.isSome := by
  unfold Client.Disconnect
  by_cases h1 : c.dcOnce = true
  · rw [if_pos h1]
  · rw [if_neg h1]
    by_cases h2 : c.done = true
    · rw [if_pos h2]
    · rw [if_neg h2]
      simp

/-- The first `Disconnect` of a client closes its connection. -/
theorem Client.Disconnect_closes (c : Client) (h1 : c.dcOnce = false) (h2 : c.done = false) :
    (c.Disconnect).1 =
      { c with dcOnce := true, done := true, conn := c.conn.map Conn.Close } := by
  unfold Client.Disconnect
  rw [if_neg (by simp [h1]), if_neg (by simp [h2])]

/-- C18, what the code does.  A client whose `Connect` has not succeeded yet has no
connection, and `Send` fails with the not-connected error and leaves the client as it
is.  After a successful `Connect` and a `Disconnect` the field `c.conn` still holds the
closed connection: `Send` builds the header and calls `conn.Write`, and its result is
the error of that write, not the not-connected error; the client is left as it was. -/
theorem C18_Send_after_Disconnect (c : Client) (dial : Except Error Conn) (now later : Time)
    (inTime1 inTime2 : Option Nat)
    (m : Message) (data : List Nat) (now2 : Time) (h : List Nat)
    (hfresh : c.dcOnce = false) (hdone : c.done = false)
    (hok : (c.Connect dial now later inTime1 inTime2).2.2.2 = .ok)
    (hb : BuildHeader (some { m with ContentLength := (data.length : Int)
                                     TimestampUtc := now2 }) = .ok h) :
    (c.Send (some m) data now2).2.2 = .err .notConnected ∧
    (c.Send (some m) data now2).1 = c ∧
    (((c.Connect dial now later inTime1 inTime2).1.Disconnect).1.Send (some m) data now2).2.2 =
      .err .writeFailed ∧
    (((c.Connect dial now later inTime1 inTime2).1.Disconnect).1.Send (some m) data now2).1 =
      ((c.Connect dial now later inTime1 inTime2).1.Disconnect).1 := by
  have hnone : c.conn = none := by
    cases hc : c.conn with
    | none => rfl
    | some k => simp [Client.Connect, hc] at hok
  obtain ⟨h1, h2, h3⟩ := Client.Connect_ok c dial now later inTime1 inTime2 hok
  generalize (c.Connect dial now later inTime1 inTime2).1 = c1 at h1 h2 h3
  rw [Client.Disconnect_closes c1 (by rw [h2, hfresh]) (by rw [h3, hdone])]
  obtain ⟨k, hk⟩ := Option.isSome_iff_exists.mp h1
  refine ⟨?_, ?_, ?_, ?_⟩
  · simp [Client.Send, hnone]
  · simp [Client.Send, hnone]
  · simp [Client.Send, hk, hb, Conn.Write, Conn.Close]
  · simp [Client.Send, hk, hb, Conn.Write, Conn.Close]

set_option maxRecDepth 100000 in
/-- Witness of C18: a client that has connected to a server without a preshared key and
disconnected sends `hi`. -/
theorem C18_Send_after_Disconnect_witness :
    (((Client.Connect {} (.ok { incoming := headerOf { Status := StatusRegisterClient } })
      {} {} none none).1.Disconnect).1.Send (some {}) [0x68, 0x69] {}).2.2 = .err .writeFailed :=
  (C18_Send_after_Disconnect {}
    (.ok { incoming := headerOf { Status := StatusRegisterClient } }) {} {} none none
    {} [0x68, 0x69] {}
    (headerOf { ContentLength := 2 }) rfl rfl (by decide) (by decide)).2.2.1

/-- C19, what the code does.  After a successful `Connect` followed by `Disconnect`, a
further `Connect` on the same client fails with the already-connected error without
dialling: `Disconnect` closes the connection but leaves it in `c.conn`. -/
theorem C19_Connect_after_Disconnect (c : Client) (dial dial2 : Except Error Conn)
    (now later now2 later2 : Time) (inTime1 inTime2 inTime3 inTime4 : Option Nat)
    (hok : (c.Connect dial now later inTime1 inTime2).2.2.2 = .ok) :
    (((c.Connect dial now later inTime1 inTime2).1.Disconnect).1.Connect dial2 now2 later2
      inTime3 inTime4).2.2 = ([], .err .alreadyConnected) := by
  obtain ⟨h1, _, _⟩ := Client.Connect_ok c dial now later inTime1 inTime2 hok
  generalize (c.Connect dial now later inTime1 inTime2).1 = c1 at h1
  have h2 := Client.Disconnect_conn c1
  rw [h1] at h2
  obtain ⟨k, hk⟩ := Option.isSome_iff_exists.mp h2
  simp [Client.Connect, hk]

set_option maxRecDepth 100000 in
/-- Witness of C19: a client connects to a server without a preshared key, disconnects
and connects again. -/
theorem C19_Connect_after_Disconnect_witness :
    (((Client.Connect {} (.ok { incoming := headerOf { Status := StatusRegisterClient } })
      {} {} none none).1.Disconnect).1.Connect
        (.ok { incoming := headerOf { Status := StatusRegisterClient } }) {} {}
        none none).2.2 = ([], .err .alreadyConnected) :=
  C19_Connect_after_Disconnect {}
    (.ok { incoming := headerOf { Status := StatusRegisterClient } })
    (.ok { incoming := headerOf { Status := StatusRegisterClient } }) {} {} {} {}
    none none none none (by decide)

/-! ## SendStream with a reader that ends early -/

/-- `io.CopyN` from a reader that holds fewer than `n` bytes, to an open connection: the
bytes are written and the result is `io.EOF`. -/
theorem CopyN_short (dst : Conn) (src : List Nat) (n : Nat) (hopen : dst.closed = false)
    (hs : src.length < n) :
    CopyN dst src n = ({ dst with written := dst.written ++ src }, some .EOF) := by
  unfold CopyN
  rw [List.take_of_length_le (by omega)]
  by_cases he : src = []
  · subst he
    have : n ≠ 0 := by simp at hs; omega
    simp [this]
  · rw [if_neg he]
    simp [Conn.Write, hopen, hs]

theorem connsLoad_cons (e : List Nat × ClientConn) (es : List (List Nat × ClientConn))
    (id : List Nat) :
    connsLoad (e :: es) id = if e.1 = id then some e.2 else connsLoad es id := by
  by_cases he : e.1 = id
  · simp [connsLoad, List.find?_cons, he]
  · simp [connsLoad, List.find?_cons, he]

theorem connsLoad_connsSetStream (m : List (List Nat × ClientConn)) (id : List Nat)
    (cc : ClientConn) (k : Conn) (h : connsLoad m id = some cc) :
    connsLoad (connsSetStream m id k) id = some { cc with stream := k } := by
  induction m with
  | nil => simp [connsLoad] at h
  | cons e es ih =>
    rw [connsLoad_cons] at h
    have hm : connsSetStream (e :: es) id k =
        (if e.1 = id then (e.1, { e.2 with stream := k }) else e) :: connsSetStream es id k := rfl
    rw [hm, connsLoad_cons]
    by_cases he : e.1 = id
    · rw [if_pos he] at h
      simp only [Option.some.injEq] at h
      simp [he, h]
    · rw [if_neg he] at h
      simp [he, ih h]

set_option maxRecDepth 100000 in
/-- C20, where the claim fails.  `SendStream` of the client and of the server with a
reader that holds 2 bytes and the length 5 fail with `io.EOF`, and the connection is
open when the call returns. -/
theorem C20_counterexample :
    ((Client.SendStream { conn := some {} } (some {}) (some [1, 2]) 5 {}).2.2 = .err .EOF ∧
      (Client.SendStream { conn := some {} } (some {}) (some [1, 2]) 5 {}).1.conn.map
        (fun k => k.closed) = some false) ∧
    ((Server.SendStream { conns := [([0x61], { conn := 0, lastActive := {} })] } [0x61]
        (some {}) (some [1, 2]) 5 {}).2.2 = .err .EOF ∧
      (connsLoad (Server.SendStream { conns := [([0x61], { conn := 0, lastActive := {} })] }
        [0x61] (some {}) (some [1, 2]) 5 {}).1.conns [0x61]).map
        (fun r => r.stream.closed) = some false) := by
  refine ⟨⟨by decide, by decide⟩, ⟨by decide, by decide⟩⟩

/-- C20, amended.  When the reader passed to `SendStream` (client or server) ends before
`length` bytes have been copied to an open connection, `SendStream` fails with `io.EOF`,
the error of `io.CopyN`; the statistics are unchanged; the header and the bytes the
reader held have been written; and the connection is left open. -/
theorem C20_SendStream_short_reader (m : Message) (src : List Nat) (length : Int) (now : Time)
    (header : List Nat) (hshort : (src.length : Int) < length)
    (hb : BuildHeader (some { m with ContentLength := length, TimestampUtc := now }) =
      .ok header) :
    (∀ (c : Client) (conn : Conn), c.conn = some conn → conn.closed = false →
      (c.SendStream (some m) (some src) length now).2.2 = .err .EOF ∧
      (c.SendStream (some m) (some src) length now).1.stats = c.stats ∧
      (c.SendStream (some m) (some src) length now).1.conn =
        some { conn with written := conn.written ++ header ++ src, closed := false }) ∧
    (∀ (s : Server) (id : List Nat) (cc : ClientConn), connsLoad s.conns id = some cc →
      cc.stream.closed = false →
      (s.SendStream id (some m) (some src) length now).2.2 = .err .EOF ∧
      (s.SendStream id (some m) (some src) length now).1.stats = s.stats ∧
      connsLoad (s.SendStream id (some m) (some src) length now).1.conns id =
        some { cc with
          stream := { cc.stream with
            written := cc.stream.written ++ header ++ src, closed := false } }) := by
  have hpos : 0 < length := by omega
  have hlen : src.length < length.toNat := by omega
  constructor
  · intro c conn hconn hopen
    obtain ⟨inc, wr, cl⟩ := conn
    simp only at hopen
    subst hopen
    have hcopy := CopyN_short { incoming := inc, written := wr ++ header, closed := false } src
      length.toNat rfl hlen
    simp only [Client.SendStream, hconn, hb, Conn.Write, Bool.false_eq_true, if_false,
      hpos, if_true, hcopy]
    simp
  · intro s id cc hrec hopen
    obtain ⟨cn, la, ⟨inc, wr, cl⟩⟩ := cc
    simp only at hopen
    subst hopen
    have hcopy := CopyN_short { incoming := inc, written := wr ++ header, closed := false } src
      length.toNat rfl hlen
    simp only [Server.SendStream, hrec, hb, Conn.Write, Bool.false_eq_true, if_false,
      hpos, if_true, hcopy]
    simp [connsLoad_connsSetStream _ _ _ _ hrec]

set_option maxRecDepth 100000 in
/-- Witness of C20: a reader of 2 bytes and the length 5. -/
theorem C20_SendStream_short_reader_witness :
    (Client.SendStream { conn := some {} } (some {}) (some [1, 2]) 5 {}).2.2 = .err .EOF ∧
    (Server.SendStream { conns := [([0x61], { conn := 0, lastActive := {} })] } [0x61]
      (some {}) (some [1, 2]) 5 {}).2.2 = .err .EOF :=
  ⟨((C20_SendStream_short_reader {} [1, 2] 5 {} (headerOf { ContentLength := 5 })
      (by decide) (by decide)).1 { conn := some {} } {} rfl rfl).1,
    ((C20_SendStream_short_reader {} [1, 2] 5 {} (headerOf { ContentLength := 5 })
      (by decide) (by decide)).2 { conns := [([0x61], { conn := 0, lastActive := {} })] } [0x61]
      { conn := 0, lastActive := {} } (by decide) rfl).1⟩

/-! ## The preshared-key handshake -/

/-- `json.Marshal` succeeds on a message without metadata and expiration whose timestamp
is a UTC time of a year from 0 to 9999. -/
theorem Marshal_isSome (m : Message) (hmd : m.Metadata = []) (hexp : m.ExpirationUtc = none)
    (hy : 0 ≤ m.TimestampUtc.year ∧ m.TimestampUtc.year ≤ 9999)
    (hoff : m.TimestampUtc.offset = 0) : ∃ bs, Marshal m = some bs := by
  have hf : ∃ ts, m.TimestampUtc.format = some ts := by
    unfold Time.format
    rw [if_neg (by omega)]
    simp only [hoff, if_true]
    exact ⟨_, rfl⟩
  obtain ⟨ts, hts⟩ := hf
  unfold Marshal Message.toJSON
  simp only [hts, hexp, expMember, hmd, if_true, List.nil_append]
  by_cases hp : m.PresharedKey = [] <;> cases h1 : m.SyncRequest <;>
    cases h2 : m.SyncResponse <;>
    simp [hp, JSON.render, JSON.renderMembers, isValidNumber_formatInt]

/-- `BuildHeader` succeeds on such a message. -/
theorem BuildHeader_headerOf (m : Message) (hmd : m.Metadata = [])
    (hexp : m.ExpirationUtc = none)
    (hy : 0 ≤ m.TimestampUtc.year ∧ m.TimestampUtc.year ≤ 9999)
    (hoff : m.TimestampUtc.offset = 0) : BuildHeader (some m) = .ok (headerOf m) := by
  obtain ⟨bs, hbs⟩ := Marshal_isSome m hmd hexp hy hoff
  simp [headerOf, BuildHeader, hbs]

set_option maxRecDepth 100000 in
/-- The three answers of the server, as `BuildHeader` writes them and `ParseHeader` reads
them back. -/
theorem handshake_answers :
    (BuildHeader (some { Status := StatusAuthSuccess }) =
      .ok (headerOf { Status := StatusAuthSuccess }) ∧
     BuildHeader (some { Status := StatusRegisterClient }) =
      .ok (headerOf { Status := StatusRegisterClient }) ∧
     BuildHeader (some { Status := StatusAuthFailure }) =
      .ok (headerOf { Status := StatusAuthFailure })) ∧
    ParseHeader (some (headerOf { Status := StatusAuthSuccess } ++
      headerOf { Status := StatusRegisterClient })) =
        (.ok { Status := StatusAuthSuccess }, headerOf { Status := StatusRegisterClient }) ∧
    ParseHeader (some (headerOf { Status := StatusRegisterClient })) =
      (.ok { Status := StatusRegisterClient }, []) ∧
    ParseHeader (some (headerOf { Status := StatusAuthFailure })) =
      (.ok { Status := StatusAuthFailure }, []) ∧
    ParseHeader (some []) = (.error .EOF, []) := by
  refine ⟨⟨by decide, by decide, by decide⟩, by decide, by decide, by decide, by decide⟩

/-- The authentication message of a client with the key `kc`, as `Send` completes it at
the time `now`. -/
theorem authMessage_wf (kc : List Nat) (now : Time) (hbytes : ∀ b ∈ kc, b < 256)
    (hnow : now.wf) :
    Message.wf { Status := StatusAuthRequested, PresharedKey := kc, TimestampUtc := now } := by
  refine ⟨?_, ?_, hbytes, hnow, trivial⟩
  · show -(2 ^ 63 : Int) ≤ 0
    decide
  · show (0 : Int) < 2 ^ 63
    decide

/-- A deadline set with a positive timeout bounds the reads by what arrives in time. -/
theorem readLimit_pos (timeout : Int) (w : Option Nat) (h : 0 < timeout) :
    readLimit timeout w = w := by
  unfold readLimit
  rw [if_neg (by omega)]

/-- A deadline set with a timeout of zero or less lets the reads get nothing. -/
theorem readLimit_nonpos (timeout : Int) (w : Option Nat) (h : timeout ≤ 0) :
    readLimit timeout w = some 0 := by
  unfold readLimit
  rw [if_pos h]

/-- When every byte of the stream arrives before the deadline expires, the reads under
it get all of them and none is left for later. -/
theorem underDeadline_all (lim : Option Nat) (inc : List Nat)
    (h : ∀ k, lim = some k → inc.length ≤ k) :
    underDeadline lim inc = inc ∧ afterDeadline lim inc = [] := by
  cases lim with
  | none => exact ⟨rfl, rfl⟩
  | some k =>
    have := h k rfl
    exact ⟨List.take_of_length_le this, List.drop_of_length_le this⟩

/-- The authentication exchange of `Connect` when the header of the authentication
message can be built, the connection is open, the bytes of the peer arrive before the
deadline expires and the answer is a header with the length 0: the request is written,
the answer read, and the result depends on its status. -/
theorem Client.connectAuth_answer (c : Client) (conn : Conn) (now : Time) (w : Option Nat)
    (h : List Nat)
    (resp : Message) (rest : List Nat) (hc : c.conn = some conn) (hopen : conn.closed = false)
    (hk : c.options.PresharedKey ≠ [])
    (hb : BuildHeader (some { Status := StatusAuthRequested
                              PresharedKey := c.options.PresharedKey
                              TimestampUtc := now }) = .ok h)
    (hw : ∀ k, readLimit c.options.ConnectTimeout w = some k → conn.incoming.length ≤ k)
    (hp : ParseHeader (some conn.incoming) = (.ok resp, rest))
    (hlen : resp.ContentLength = 0) :
    (c.connectAuth now w).2 =
      (if resp.Status = StatusAuthSuccess then .ok else .err .authFailed) ∧
    (c.connectAuth now w).1.conn =
      some { incoming := rest, written := conn.written ++ h, closed := false } := by
  obtain ⟨inc, wr, cl⟩ := conn
  simp only at hopen hp hw
  subst hopen
  obtain ⟨hu, ha⟩ := underDeadline_all _ _ hw
  unfold Client.connectAuth
  rw [if_neg hk]
  simp only [Client.Send, hc, List.length_nil, Nat.cast_zero, hb, Conn.Write,
    Bool.false_eq_true, if_false, lt_self_iff_false, hu, ha, hp, hlen, Int.toNat_zero,
    ReadFull, Nat.zero_le, if_true, List.take_zero, List.drop_zero, List.append_nil,
    makePanics_false 0 (le_refl 0) (by decide)]
  first | done | exact ⟨rfl, rfl⟩ | simp

/-- The authentication exchange of `Connect` when the peer closes the stream without an
answer, and that is seen before the deadline expires. -/
theorem Client.connectAuth_error (c : Client) (conn : Conn) (now : Time) (w : Option Nat)
    (h : List Nat)
    (e : Error) (rest : List Nat) (hc : c.conn = some conn) (hopen : conn.closed = false)
    (hk : c.options.PresharedKey ≠ [])
    (hb : BuildHeader (some { Status := StatusAuthRequested
                              PresharedKey := c.options.PresharedKey
                              TimestampUtc := now }) = .ok h)
    (hw : readLimit c.options.ConnectTimeout w = none)
    (hp : ParseHeader (some conn.incoming) = (.error e, rest)) :
    (c.connectAuth now w).2 = .err e ∧
    (c.connectAuth now w).1.conn =
      some { incoming := rest, written := conn.written ++ h, closed := false } := by
  obtain ⟨inc, wr, cl⟩ := conn
  simp only at hopen hp
  subst hopen
  unfold Client.connectAuth
  rw [if_neg hk]
  simp only [Client.Send, hc, List.length_nil, Nat.cast_zero, hb, Conn.Write,
    Bool.false_eq_true, if_false, lt_self_iff_false, hw, underDeadline, afterDeadline,
    deadlineError, hp, List.append_nil]
  first | done | exact ⟨rfl, rfl⟩ | simp

/-- The wait of `Connect` for the registration message when a header with the length 0
arrives before the deadline expires. -/
theorem Client.connectRegister_answer (c : Client) (conn : Conn) (w : Option Nat)
    (reg : Message)
    (rest : List Nat) (hc : c.conn = some conn) (hopen : conn.closed = false)
    (hw : ∀ k, readLimit c.options.ConnectTimeout w = some k → conn.incoming.length ≤ k)
    (hp : ParseHeader (some conn.incoming) = (.ok reg, rest)) (hlen : reg.ContentLength = 0) :
    (c.connectRegister w).2 =
      (if reg.Status = StatusRegisterClient then .ok else .err .registrationFailed) ∧
    (c.connectRegister w).1.conn = some { conn with incoming := rest } := by
  obtain ⟨hu, ha⟩ := underDeadline_all _ _ hw
  unfold Client.connectRegister
  simp only [hc, hopen, Bool.false_eq_true, if_false, hu, ha, hp, hlen, lt_self_iff_false,
    List.append_nil]
  first | done | exact ⟨rfl, rfl⟩ | simp

/-- `Connect` on a client without a connection, when the authentication exchange fails:
the connection is closed, `c.conn` is nil again and the error is returned. -/
theorem Client.Connect_auth_err (c : Client) (conn0 : Conn) (now later : Time)
    (w1 w2 : Option Nat) (e : Error)
    (hc : c.conn = none)
    (ha : (Client.connectAuth { c with conn := some conn0 } now w1).2 = .err e) :
    (c.Connect (.ok conn0) now later w1 w2).2.2.2 = .err e ∧
    (c.Connect (.ok conn0) now later w1 w2).1.conn = none ∧
    (c.Connect (.ok conn0) now later w1 w2).2.1 =
      (Client.connectAuth { c with conn := some conn0 } now w1).1.conn.map Conn.Close := by
  unfold Client.Connect
  simp only [hc]
  cases h1 : Client.connectAuth { c with conn := some conn0 } now w1 with
  | mk c1 r1 =>
    rw [h1] at ha
    simp only at ha
    subst ha
    exact ⟨rfl, rfl, rfl⟩

/-- `Connect` on a client without a connection, when the authentication exchange and
the wait for the registration message succeed. -/
theorem Client.Connect_both_ok (c : Client) (conn0 : Conn) (now later : Time)
    (w1 w2 : Option Nat)
    (hc : c.conn = none)
    (ha : (Client.connectAuth { c with conn := some conn0 } now w1).2 = .ok)
    (hr : (Client.connectRegister
      (Client.connectAuth { c with conn := some conn0 } now w1).1 w2).2 = .ok) :
    (c.Connect (.ok conn0) now later w1 w2).2.2.2 = .ok ∧
    (c.Connect (.ok conn0) now later w1 w2).2.1 =
      (Client.connectRegister
        (Client.connectAuth { c with conn := some conn0 } now w1).1 w2).1.conn := by
  unfold Client.Connect
  simp only [hc]
  cases h1 : Client.connectAuth { c with conn := some conn0 } now w1 with
  | mk c1 r1 =>
    rw [h1] at ha hr
    simp only at ha hr
    subst ha
    simp only
    cases h2 : Client.connectRegister c1 w2 with
    | mk c2 r2 =>
      rw [h2] at hr
      simp only at hr
      subst hr
      exact ⟨rfl, rfl⟩

/-- The handshake of the server with a preshared key, when the first frame is a header
with the length 0. -/
theorem Server.handleConnHandshake_frame (s : Server) (conn : Conn) (msg : Message)
    (rest : List Nat) (hk : s.options.PresharedKey ≠ []) (hopen : conn.closed = false)
    (hp : ParseHeader (some conn.incoming) = (.ok msg, rest)) (hlen : msg.ContentLength = 0) :
    s.handleConnHandshake conn =
      if msg.Status ≠ StatusAuthRequested ∨ msg.PresharedKey ≠ s.options.PresharedKey then
        ({ incoming := rest
           written := conn.written ++ headerOf { Status := StatusAuthFailure }
           closed := true }, .exit)
      else
        ({ incoming := rest
           written := conn.written ++ headerOf { Status := StatusAuthSuccess } ++
             headerOf { Status := StatusRegisterClient }
           closed := false }, .next) := by
  obtain ⟨⟨b1, b2, b3⟩, _⟩ := handshake_answers
  obtain ⟨inc, wr, cl⟩ := conn
  simp only at hopen hp
  subst hopen
  unfold Server.handleConnHandshake
  rw [if_neg hk]
  simp only [hp, hlen, makePanics_false 0 (le_refl 0) (by decide), Bool.false_eq_true,
    lt_self_iff_false, if_false, Int.toNat_zero, ReadFull, Nat.zero_le,
    if_true, List.take_zero, List.drop_zero]
  split_ifs
  · simp [writeHeader, b3, Conn.WriteIgnore, Conn.Write, Conn.Close]
  · simp [writeHeader, b1, b2, Conn.WriteIgnore, Conn.Write]

/-- What the client writes in `Connect` before it reads: the header of the
authentication message. -/
theorem clientHello_eq (kc : List Nat) (now later : Time) (hkc : kc ≠ [])
    (hyear : 0 ≤ now.year ∧ now.year ≤ 9999) (hutc : now.offset = 0) :
    clientHello kc now later =
      headerOf { Status := StatusAuthRequested, PresharedKey := kc, TimestampUtc := now } := by
  have hb := BuildHeader_headerOf
    { Status := StatusAuthRequested, PresharedKey := kc, TimestampUtc := now } rfl rfl hyear hutc
  have ha := Client.connectAuth_error { conn := some {}, options := { PresharedKey := kc } } {}
    now none _ .EOF [] rfl rfl hkc hb
    (readLimit_pos _ _ (by show (0 : Int) < 5000000000; decide)) handshake_answers.2.2.2.2
  have hc := Client.Connect_auth_err { options := { PresharedKey := kc } } {} now later
    none none .EOF rfl ha.1
  unfold clientHello
  rw [hc.2.2, ha.2]
  simp [Conn.Close]

/-- What the server does in its handshake with a client that holds the key `kc`. -/
theorem serverHandshake_eq (ks kc : List Nat) (now later : Time) (hks : ks ≠ [])
    (hkc : kc ≠ []) (hbytes : ∀ b ∈ kc, b < 256) (hnow : now.wf)
    (hyear : 0 ≤ now.year ∧ now.year ≤ 9999) (hutc : now.offset = 0) :
    serverHandshake ks kc now later =
      if kc ≠ ks then
        ({ incoming := [], written := headerOf { Status := StatusAuthFailure }
           closed := true }, .exit)
      else
        ({ incoming := []
           written := headerOf { Status := StatusAuthSuccess } ++
             headerOf { Status := StatusRegisterClient }
           closed := false }, .next) := by
  have hb := BuildHeader_headerOf
    { Status := StatusAuthRequested, PresharedKey := kc, TimestampUtc := now } rfl rfl hyear hutc
  have hparse := ParseHeader_BuildHeader _ _ [] hb (authMessage_wf kc now hbytes hnow)
    (Message.mdReadable_nil _ rfl)
  rw [List.append_nil] at hparse
  unfold serverHandshake
  rw [clientHello_eq kc now later hkc hyear hutc,
    Server.handleConnHandshake_frame { options := { PresharedKey := ks } } _ _ [] hks rfl hparse rfl]
  have hst : (Message.decoded
      { Status := StatusAuthRequested, PresharedKey := kc, TimestampUtc := now }).Status =
      StatusAuthRequested := by
    show coerceUTF8 StatusAuthRequested = StatusAuthRequested
    decide
  have hpsk : (Message.decoded
      { Status := StatusAuthRequested, PresharedKey := kc, TimestampUtc := now }).PresharedKey =
      kc := rfl
  simp only [hst, hpsk, ne_eq, not_true_eq_false, false_or, List.nil_append]

set_option maxRecDepth 100000 in
/-- C12, where the claim fails.  With the same key `secret` on both sides the server
accepts the key and goes on to its read loop, but `Connect` fails with the error of the
expired read deadline: when the client's `ConnectTimeout` is zero, and also with the
default timeout of five seconds when no byte of the server's answer arrives before the
first read deadline expires. -/
theorem C12_counterexample :
    (serverHandshake [0x73, 0x65, 0x63, 0x72, 0x65, 0x74] [0x73, 0x65, 0x63, 0x72, 0x65, 0x74]
      { year := 2025 } { year := 2025 }).2 = .next ∧
    (clientConnect [0x73, 0x65, 0x63, 0x72, 0x65, 0x74] [0x73, 0x65, 0x63, 0x72, 0x65, 0x74]
      { year := 2025 } { year := 2025 } 0 none none).2.2.2 = .err .deadlineExceeded ∧
    (clientConnect [0x73, 0x65, 0x63, 0x72, 0x65, 0x74] [0x73, 0x65, 0x63, 0x72, 0x65, 0x74]
      { year := 2025 } { year := 2025 } 5000000000 (some 0) none).2.2.2 =
      .err .deadlineExceeded := by
  refine ⟨by decide, by decide, by decide⟩

set_option maxRecDepth 100000 in
/-- C12, amended.  For every non-empty server key `ks` and every non-empty client key
`kc`, at a UTC time of a year from 0 to 9999, with a positive connect timeout and the
bytes the server writes arriving before the client's two read deadlines expire: the
client's `Connect`, run against the server's handshake of the connection, succeeds
exactly when `kc = ks`.  When the keys differ the bytes the server writes are one frame with the
status `AuthFailure` and nothing else, its handler returns, and `Connect` fails with the
authentication-failed error; when they agree the handler goes on to its read loop.
(The bytes the client has written are in both runs the ones the server read.) -/
theorem C12_preshared_key_handshake (ks kc : List Nat) (now later : Time) (timeout : Int)
    (inTime1 inTime2 : Option Nat) (hks : ks ≠ [])
    (hkc : kc ≠ []) (hbytes : ∀ b ∈ kc, b < 256) (hnow : now.wf)
    (hyear : 0 ≤ now.year ∧ now.year ≤ 9999) (hutc : now.offset = 0)
    (hto : 0 < timeout) (hin1 : arrivesInTime ks kc now later inTime1)
    (hin2 : arrivesInTime ks kc now later inTime2) :
    (clientConnect ks kc now later timeout inTime1 inTime2).2.1.map (fun k => k.written) =
      some (clientHello kc now later) ∧
    ((clientConnect ks kc now later timeout inTime1 inTime2).2.2.2 = .ok ↔ kc = ks) ∧
    (kc = ks → (serverHandshake ks kc now later).2 = .next) ∧
    (kc ≠ ks →
      readFrame (serverHandshake ks kc now later).1.written =
        .frame { Status := StatusAuthFailure } [] [] ∧
      (serverHandshake ks kc now later).2 = .exit ∧
      (clientConnect ks kc now later timeout inTime1 inTime2).2.2.2 = .err .authFailed ∧
      (clientConnect ks kc now later timeout inTime1 inTime2).1.conn = none) := by
  have hb := BuildHeader_headerOf
    { Status := StatusAuthRequested, PresharedKey := kc, TimestampUtc := now } rfl rfl hyear hutc
  have hs := serverHandshake_eq ks kc now later hks hkc hbytes hnow hyear hutc
  have hh := clientHello_eq kc now later hkc hyear hutc
  obtain ⟨_, p1, p2, p3, _⟩ := handshake_answers
  unfold arrivesInTime at hin1 hin2
  unfold clientConnect
  by_cases hkk : kc = ks
  · rw [if_neg (by simp [hkk])] at hs
    rw [hs] at hin1 hin2
    simp only [List.length_append] at hin1 hin2
    rw [hs, hh]
    have ha := Client.connectAuth_answer
      { conn := some { incoming := (headerOf { Status := StatusAuthSuccess } ++ headerOf { Status := StatusRegisterClient }) }, options := { PresharedKey := kc, ConnectTimeout := timeout } }
      _ now inTime1 _ _ _ rfl rfl hkc hb
      (by
        intro k hk
        rw [readLimit_pos _ _ hto] at hk
        simpa using hin1 k hk)
      p1 rfl
    rw [if_pos rfl] at ha
    have hr := Client.connectRegister_answer _ _ inTime2 _ _ ha.2 rfl
      (by
        intro k hk
        have e : (Client.connectAuth
            { conn := some { incoming := (headerOf { Status := StatusAuthSuccess } ++ headerOf { Status := StatusRegisterClient }) }, options := { PresharedKey := kc, ConnectTimeout := timeout } }
            now inTime1).1.options.ConnectTimeout = timeout := by
          rw [(Client.connectAuth_fields _ now inTime1).2.2.1]
        rw [e, readLimit_pos _ _ hto] at hk
        have := hin2 k hk
        simp only at this ⊢
        omega)
      p2 rfl
    rw [if_pos rfl] at hr
    have hc := Client.Connect_both_ok { options := { PresharedKey := kc, ConnectTimeout := timeout } }
      { incoming := (headerOf { Status := StatusAuthSuccess } ++ headerOf { Status := StatusRegisterClient }) }
      now later inTime1 inTime2 rfl ha.1 hr.1
    refine ⟨?_, ?_, fun _ => rfl, fun h => absurd hkk h⟩
    · rw [hc.2, hr.2]
      simp
    · exact ⟨fun _ => hkk, fun _ => hc.1⟩
  · rw [if_pos hkk] at hs
    rw [hs] at hin1
    rw [hs, hh]
    have ha := Client.connectAuth_answer
      { conn := some { incoming := headerOf { Status := StatusAuthFailure } }, options := { PresharedKey := kc, ConnectTimeout := timeout } }
      _ now inTime1 _ _ _ rfl rfl hkc hb
      (by
        intro k hk
        rw [readLimit_pos _ _ hto] at hk
        simpa using hin1 k hk)
      p3 rfl
    rw [if_neg (by decide)] at ha
    have hc := Client.Connect_auth_err { options := { PresharedKey := kc, ConnectTimeout := timeout } }
      { incoming := headerOf { Status := StatusAuthFailure } } now later inTime1 inTime2 _ rfl ha.1
    refine ⟨?_, ?_, fun h => absurd h hkk, fun _ => ⟨by decide, rfl, hc.1, hc.2.1⟩⟩
    · rw [hc.2.2, ha.2]
      simp [Conn.Close]
    · exact ⟨fun h => (by rw [hc.1] at h; cases h), fun h => absurd h hkk⟩

set_option maxRecDepth 100000 in
/-- Witness of C12 (amended): the keys of the tests, `secret` on the server and `wrong` on the
client, the connect timeout of five seconds of the default options, and a network that
delivers everything in time. -/
theorem C12_preshared_key_handshake_witness :
    (clientConnect [0x73, 0x65, 0x63, 0x72, 0x65, 0x74] [0x77, 0x72, 0x6F, 0x6E, 0x67]
      { year := 2025 } { year := 2025 } 5000000000 none none).2.2.2 = .err .authFailed ∧
    (clientConnect [0x73, 0x65, 0x63, 0x72, 0x65, 0x74] [0x73, 0x65, 0x63, 0x72, 0x65, 0x74]
      { year := 2025 } { year := 2025 } 5000000000 none none).2.2.2 = .ok :=
  ⟨((C12_preshared_key_handshake [0x73, 0x65, 0x63, 0x72, 0x65, 0x74]
      [0x77, 0x72, 0x6F, 0x6E, 0x67] { year := 2025 } { year := 2025 } 5000000000 none none
      (by decide) (by decide)
      (by decide) (by decide) (by decide) rfl (by decide) (by intro k hk; cases hk)
      (by intro k hk; cases hk)).2.2.2 (by decide)).2.2.1,
    (C12_preshared_key_handshake [0x73, 0x65, 0x63, 0x72, 0x65, 0x74]
      [0x73, 0x65, 0x63, 0x72, 0x65, 0x74] { year := 2025 } { year := 2025 } 5000000000
      none none (by decide)
      (by decide) (by decide) (by decide) (by decide) rfl (by decide)
      (by intro k hk; cases hk) (by intro k hk; cases hk)).2.1.mpr rfl⟩

/-! ## SendSync and the correlation table -/

theorem mapLoad_mapStore (m : List (List Nat × Nat)) (k g : List Nat) (ch : Nat) :
    mapLoad (mapStore m k ch) g = if g = k then some ch else mapLoad m g := by
  unfold mapStore
  by_cases hg : g = k
  · rw [if_pos hg, mapLoad_cons_eq _ _ _ hg.symm]
  · rw [if_neg hg, mapLoad_cons_ne _ _ _ (fun h => hg h.symm), mapLoad_mapDelete_other _ _ _ hg]

/-- Deleting a key leaves every lookup as it was or empty. -/
theorem mapLoad_mapDelete_cases (m : List (List Nat × Nat)) (k g : List Nat) :
    mapLoad (mapDelete m k) g = none ∨ mapLoad (mapDelete m k) g = mapLoad m g := by
  by_cases hg : g = k
  · left
    rw [hg, mapLoad_mapDelete_self]
  · right
    exact mapLoad_mapDelete_other m k g hg

theorem received_append (ch : Nat) (a b : List Event) :
    received ch (a ++ b) =
      match received ch a with
      | some x => some x
      | none => received ch b := by
  induction a with
  | nil => simp [received]
  | cons e es ih =>
    rw [List.cons_append]
    cases e <;> simp only [received] <;>
      first | exact ih | (split_ifs <;> first | rfl | exact ih)

/-- A round of the read loop leaves the correlation table as it is and sends on no
channel, or it sends the frame on the channel stored under the `ConversationGUID` of the
frame and deletes that key. -/
theorem Client.readLoopStep_respMap (c : Client) (now : Time) :
    ((c.readLoopStep now).1.respMap = c.respMap ∧
      ∀ ch, received ch (c.readLoopStep now).2.1 = none) ∨
    (∃ ch msg payload,
      (c.readLoopStep now).2.1 = [.chanSend ch msg payload, .chanClose ch] ∧
      mapLoad c.respMap msg.ConversationGUID = some ch ∧
      (c.readLoopStep now).1.respMap = mapDelete c.respMap msg.ConversationGUID) := by
  unfold Client.readLoopStep
  by_cases hd : c.done = true
  · rw [if_pos hd]
    exact Or.inl ⟨rfl, fun _ => rfl⟩
  rw [if_neg hd]
  cases hc : c.conn with
  | none => exact Or.inl ⟨rfl, fun _ => rfl⟩
  | some conn =>
    simp only
    cases hp : ParseHeader (some conn.incoming) with
    | mk res rest =>
      cases res with
      | error e => exact Or.inl ⟨rfl, fun _ => rfl⟩
      | ok msg =>
        simp only
        cases hs : (if c.callbacks.OnMessage = false ∧ msg.SyncResponse = false
            then c.callbacks.OnStream else none) with
        | some onStream => exact Or.inl ⟨rfl, fun _ => rfl⟩
        | none =>
          simp only
          by_cases hneg : makePanics msg.ContentLength = true
          · rw [if_pos hneg]
            exact Or.inl ⟨rfl, fun _ => rfl⟩
          rw [if_neg hneg]
          cases hr : ReadFull rest msg.ContentLength.toNat with
          | mk res1 rest1 =>
            cases res1 with
            | error e => exact Or.inl ⟨rfl, fun _ => rfl⟩
            | ok payload =>
              simp only
              cases hl : (if msg.SyncResponse = true ∧ msg.ConversationGUID ≠ []
                  then mapLoad c.respMap msg.ConversationGUID else none) with
              | none =>
                refine Or.inl ⟨rfl, fun ch => ?_⟩
                simp only
                split_ifs <;> rfl
              | some ch =>
                refine Or.inr ⟨ch, msg, payload, rfl, ?_, rfl⟩
                split_ifs at hl
                exact hl

/-- One step of the rest of the program keeps three facts about the call with the key
`g` and the channel `ch`: only `g` is stored with `ch`; once `g` is absent it stays
absent; and a send on `ch` comes with the deletion of `g`. -/
theorem Client.envStep_inv (g : List Nat) (ch : Nat) (c : Client) (e : EnvStep)
    (he : ∀ g1 ch1, e = .store g1 ch1 → g1 ≠ g ∧ ch1 ≠ ch)
    (hJ : ∀ k, mapLoad c.respMap k = some ch → k = g) :
    (∀ k, mapLoad (c.envStep e).1.respMap k = some ch → k = g) ∧
    (mapLoad c.respMap g = none → mapLoad (c.envStep e).1.respMap g = none) ∧
    (received ch (c.envStep e).2 ≠ none → mapLoad (c.envStep e).1.respMap g = none) := by
  cases e with
  | readRound now =>
    simp only [Client.envStep]
    rcases Client.readLoopStep_respMap c now with ⟨h1, h2⟩ | ⟨ch0, msg, payload, hev, hload, hmap⟩
    · rw [h1]
      exact ⟨hJ, fun h => h, fun h => absurd (h2 ch) h⟩
    · rw [hmap, hev]
      refine ⟨?_, ?_, ?_⟩
      · intro k hk
        rcases mapLoad_mapDelete_cases c.respMap msg.ConversationGUID k with h | h
        · rw [h] at hk; cases hk
        · rw [h] at hk; exact hJ k hk
      · intro habs
        rcases mapLoad_mapDelete_cases c.respMap msg.ConversationGUID g with h | h
        · exact h
        · rw [h]; exact habs
      · intro hrec
        by_cases hch : ch0 = ch
        · subst hch
          rw [hJ _ hload]
          exact mapLoad_mapDelete_self _ _
        · simp [received, hch] at hrec
  | store g1 ch1 =>
    obtain ⟨hg, hc⟩ := he g1 ch1 rfl
    simp only [Client.envStep]
    refine ⟨?_, ?_, fun h => absurd rfl h⟩
    · intro k hk
      rw [mapLoad_mapStore] at hk
      by_cases hkg : k = g1
      · rw [if_pos hkg] at hk
        exact absurd (Option.some.inj hk) hc
      · rw [if_neg hkg] at hk
        exact hJ k hk
    · intro habs
      rw [mapLoad_mapStore, if_neg (fun h => hg h.symm)]
      exact habs
  | delete g1 =>
    simp only [Client.envStep]
    refine ⟨?_, ?_, fun h => absurd rfl h⟩
    · intro k hk
      rcases mapLoad_mapDelete_cases c.respMap g1 k with h | h
      · rw [h] at hk; cases hk
      · rw [h] at hk; exact hJ k hk
    · intro habs
      rcases mapLoad_mapDelete_cases c.respMap g1 g with h | h
      · exact h
      · rw [h]; exact habs

/-- The three facts hold along every list of steps. -/
theorem Client.envSteps_inv (g : List Nat) (ch : Nat) (env : List EnvStep) (c : Client)
    (he : ∀ g1 ch1, EnvStep.store g1 ch1 ∈ env → g1 ≠ g ∧ ch1 ≠ ch)
    (hJ : ∀ k, mapLoad c.respMap k = some ch → k = g) :
    (mapLoad c.respMap g = none → mapLoad (c.envSteps env).1.respMap g = none) ∧
    (received ch (c.envSteps env).2 ≠ none → mapLoad (c.envSteps env).1.respMap g = none) := by
  induction env generalizing c with
  | nil => exact ⟨fun h => h, fun h => absurd rfl h⟩
  | cons e es ih =>
    obtain ⟨s1, s2, s3⟩ := Client.envStep_inv g ch c e
      (fun g1 ch1 h => he g1 ch1 (by rw [h]; exact List.mem_cons_self _ _)) hJ
    obtain ⟨i1, i2⟩ := ih (c.envStep e).1
      (fun g1 ch1 h => he g1 ch1 (List.mem_cons_of_mem _ h)) s1
    simp only [Client.envSteps]
    refine ⟨fun h => i1 (s2 h), ?_⟩
    intro hrec
    rw [received_append] at hrec
    cases hr : received ch (c.envStep e).2 with
    | some x => exact i1 (s3 (by rw [hr]; exact fun h => by cases h))
    | none =>
      rw [hr] at hrec
      exact i2 hrec

set_option maxRecDepth 100000 in
/-- C11, where the claim fails.  A call with the identifier `g` waits; the read loop
reads the reply to it, deletes `g` from the table and sends the reply on the channel of
the call; then another `SendSync` call with the same identifier `g` stores its own
channel 8 under `g`.  The first call returns with the reply, and the table holds `g`
at that moment. -/
theorem C11_counterexample :
    (Client.SendSync
      { conn := some { incoming := headerOf { SyncResponse := true, ConversationGUID := [0x67], ContentLength := 4 } ++ [0x70, 0x6F, 0x6E, 0x67] } }
      (some { ConversationGUID := [0x67] }) [0x70, 0x69, 0x6E, 0x67] [0x66] 7 {}
      [.readRound {}, .store [0x67] 8] false false).2.2 =
      .response { SyncResponse := true, ConversationGUID := [0x67], ContentLength := 4 }
        [0x70, 0x6F, 0x6E, 0x67] ∧
    mapLoad (Client.SendSync
      { conn := some { incoming := headerOf { SyncResponse := true, ConversationGUID := [0x67], ContentLength := 4 } ++ [0x70, 0x6F, 0x6E, 0x67] } }
      (some { ConversationGUID := [0x67] }) [0x70, 0x69, 0x6E, 0x67] [0x66] 7 {}
      [.readRound {}, .store [0x67] 8] false false).1.respMap [0x67] = some 8 := by
  refine ⟨by decide, by decide⟩

/-- C11, amended.  For every `SendSync` call that returns (with a response, with the
error of a failed `Send`, or with the error of the cancelled context), the correlation
table does not hold the call's `ConversationGUID` when it returns, provided that no
other `SendSync` call stores the same `ConversationGUID` while the call is in progress.
While the call waits the rest of the program runs rounds of the read loop and other
`SendSync` calls; the channel of each call is a new one, as `make` returns it. -/
theorem C11_SendSync_clears_table (c : Client) (m : Message) (data fresh : List Nat) (ch : Nat)
    (now : Time) (env : List EnvStep) (cancelled pickDone : Bool)
    (hch : ∀ k, mapLoad c.respMap k ≠ some ch)
    (henv : ∀ g1 ch1, EnvStep.store g1 ch1 ∈ env → g1 ≠ syncGUID m fresh ∧ ch1 ≠ ch)
    (hret : (c.SendSync (some m) data fresh ch now env cancelled pickDone).2.2 ≠ .blocked ∧
      (c.SendSync (some m) data fresh ch now env cancelled pickDone).2.2 ≠ .panic) :
    mapLoad (c.SendSync (some m) data fresh ch now env cancelled pickDone).1.respMap
      (syncGUID m fresh) = none := by
  have hf := Client.Send_fields { c with respMap := mapStore c.respMap (syncGUID m fresh) ch }
    (some { m with ConversationGUID := syncGUID m fresh, SyncRequest := true }) data now
  unfold Client.SendSync at hret ⊢
  simp only at hret ⊢
  cases hs : Client.Send { c with respMap := mapStore c.respMap (syncGUID m fresh) ch }
      (some { m with ConversationGUID := syncGUID m fresh, SyncRequest := true }) data now with
  | mk c1 r =>
    obtain ⟨m1, res⟩ := r
    rw [hs] at hret hf
    have hmap : c1.respMap = mapStore c.respMap (syncGUID m fresh) ch := hf.2.2.1
    cases res with
    | panic => exact absurd rfl hret.2
    | err e => exact mapLoad_mapDelete_self _ _
    | ok =>
      simp only at hret ⊢
      have hJ : ∀ k, mapLoad c1.respMap k = some ch → k = syncGUID m fresh := by
        intro k hk
        rw [hmap, mapLoad_mapStore] at hk
        by_cases hkg : k = syncGUID m fresh
        · exact hkg
        · rw [if_neg hkg] at hk
          exact absurd hk (hch k)
      obtain ⟨_, i2⟩ := Client.envSteps_inv (syncGUID m fresh) ch env c1 henv hJ
      cases hr : received ch (c1.envSteps env).2 with
      | some x =>
        obtain ⟨resp, payload⟩ := x
        rw [hr] at hret
        simp only at hret ⊢
        by_cases hcp : (cancelled && pickDone) = true
        · rw [if_pos hcp]
          exact mapLoad_mapDelete_self _ _
        · rw [if_neg hcp]
          exact i2 (by rw [hr]; exact fun h => by cases h)
      | none =>
        rw [hr] at hret
        simp only at hret ⊢
        by_cases hcc : cancelled = true
        · rw [if_pos hcc]
          exact mapLoad_mapDelete_self _ _
        · rw [if_neg hcc] at hret
          exact absurd rfl hret.1

set_option maxRecDepth 100000 in
/-- Witness of C11: a call with the identifier `g` and the payload `ping` whose reply
`pong` is read by a round of the read loop while it waits. -/
theorem C11_SendSync_clears_table_witness :
    mapLoad (Client.SendSync
      { conn := some { incoming := headerOf { SyncResponse := true, ConversationGUID := [0x67], ContentLength := 4 } ++ [0x70, 0x6F, 0x6E, 0x67] } }
      (some { ConversationGUID := [0x67] }) [0x70, 0x69, 0x6E, 0x67] [0x66] 7 {}
      [.readRound {}] false false).1.respMap (syncGUID { ConversationGUID := [0x67] } [0x66]) =
      none :=
  C11_SendSync_clears_table
    { conn := some { incoming := headerOf { SyncResponse := true, ConversationGUID := [0x67], ContentLength := 4 } ++ [0x70, 0x6F, 0x6E, 0x67] } }
    { ConversationGUID := [0x67] } [0x70, 0x69, 0x6E, 0x67] [0x66] 7 {} [.readRound {}] false
    false (fun _ h => Option.noConfusion h) (fun _ _ h => by simp at h)
    ⟨by decide, by decide⟩

/-! ## A nil message -/

/-- C21, what the code does.  On an established connection (and, for `SendStream`, with
a reader) a nil message makes `Send` and `SendStream` of the client and `SendStream` of
the server panic: they write to `msg.ContentLength` before they call `BuildHeader`, whose
check for a nil message is never reached.  Nothing is written and the counters are
unchanged. -/
theorem C21_nil_message_panics (c : Client) (conn : Conn) (s : Server) (id : List Nat)
    (cc : ClientConn) (data src : List Nat) (length : Int) (now : Time)
    (hc : c.conn = some conn) (hs : connsLoad s.conns id = some cc) :
    c.Send none data now = (c, none, .panic) ∧
    c.SendStream none (some src) length now = (c, none, .panic) ∧
    s.SendStream id none (some src) length now = (s, none, .panic) ∧
    BuildHeader none = .error .msgNil := by
  refine ⟨?_, ?_, ?_, rfl⟩
  · simp [Client.Send, hc]
  · simp [Client.SendStream, hc]
  · simp [Server.SendStream, hs]

/-- Witness of C21: a connected client and a server with one connection. -/
theorem C21_nil_message_panics_witness :
    (Client.Send { conn := some {} } none [0x68, 0x69] {}).2.2 = .panic ∧
    (Client.SendStream { conn := some {} } none (some [0x68, 0x69]) 2 {}).2.2 = .panic ∧
    (Server.SendStream { conns := [([0x61], { conn := 0, lastActive := {} })] } [0x61] none
      (some [0x68, 0x69]) 2 {}).2.2 = .panic :=
  ⟨congrArg (fun r => r.2.2)
      (C21_nil_message_panics { conn := some {} } {}
        { conns := [([0x61], { conn := 0, lastActive := {} })] } [0x61]
        { conn := 0, lastActive := {} } [0x68, 0x69] [0x68, 0x69] 2 {} rfl (by decide)).1,
    congrArg (fun r => r.2.2)
      (C21_nil_message_panics { conn := some {} } {}
        { conns := [([0x61], { conn := 0, lastActive := {} })] } [0x61]
        { conn := 0, lastActive := {} } [0x68, 0x69] [0x68, 0x69] 2 {} rfl (by decide)).2.1,
    congrArg (fun r => r.2.2)
      (C21_nil_message_panics { conn := some {} } {}
        { conns := [([0x61], { conn := 0, lastActive := {} })] } [0x61]
        { conn := 0, lastActive := {} } [0x68, 0x69] [0x68, 0x69] 2 {} rfl (by decide)).2.2.1⟩

/-! ## newGUID -/

theorem hexEncode_length (b : List Nat) : (hexEncode b).length = 2 * b.length := by
  induction b with
  | nil => rfl
  | cons x r ih => simp only [hexEncode, List.length_cons, ih]; omega

theorem hexDigit_isLowerHex (n : Nat) (h : n < 16) : isLowerHex (hexDigit n) = true := by
  unfold hexDigit isLowerHex
  by_cases h1 : n < 10
  · rw [if_pos h1]
    simp
    omega
  · rw [if_neg h1]
    simp
    omega

theorem hexEncode_isLowerHex (b : List Nat) (hb : ∀ x ∈ b, x < 256) :
    ∀ c ∈ hexEncode b, isLowerHex c = true := by
  induction b with
  | nil => intro c hc; simp [hexEncode] at hc
  | cons x r ih =>
    intro c hc
    have hx := hb x (List.mem_cons_self _ _)
    simp only [hexEncode, List.mem_cons] at hc
    rcases hc with rfl | rfl | hc
    · exact hexDigit_isLowerHex _ (by omega)
    · exact hexDigit_isLowerHex _ (by omega)
    · exact ih (fun y hy => hb y (List.mem_cons_of_mem _ hy)) c hc

theorem hexDigit_inj (a b : Nat) (ha : a < 16) (hb : b < 16) (h : hexDigit a = hexDigit b) :
    a = b := by
  have h1 := hexVal_hexDigit a ha
  rw [h, hexVal_hexDigit b hb] at h1
  exact (Option.some.inj h1).symm

theorem hexEncode_inj (b1 : List Nat) : ∀ (b2 : List Nat), (∀ x ∈ b1, x < 256) →
    (∀ x ∈ b2, x < 256) → b1.length = b2.length → hexEncode b1 = hexEncode b2 → b1 = b2 := by
  induction b1 with
  | nil =>
    intro b2 _ _ hl _
    cases b2 with
    | nil => rfl
    | cons y r => simp at hl
  | cons x r ih =>
    intro b2 h1 h2 hl he
    cases b2 with
    | nil => simp at hl
    | cons y r2 =>
      simp only [hexEncode, List.cons.injEq] at he
      obtain ⟨e1, e2, e3⟩ := he
      have hx := h1 x (List.mem_cons_self _ _)
      have hy := h2 y (List.mem_cons_self _ _)
      have d1 := hexDigit_inj _ _ (by omega) (by omega) e1
      have d2 := hexDigit_inj _ _ (Nat.mod_lt _ (by decide)) (Nat.mod_lt _ (by decide)) e2
      have hxy : x = y := by omega
      have hr := ih r2 (fun z hz => h1 z (List.mem_cons_of_mem _ hz))
        (fun z hz => h2 z (List.mem_cons_of_mem _ hz)) (by simpa using hl) e3
      rw [hxy, hr]

/-- C25. For every 16-byte output of the random source, the id `newGUID` returns has
exactly 32 characters, each one of `0`-`9`, `a`-`f`, and two different 16-byte outputs
give two different ids. -/
theorem C25_newGUID (b : List Nat) (now : Time) (hlen : b.length = 16)
    (hb : ∀ x ∈ b, x < 256) :
    (newGUID (some b) now).length = 32 ∧
    (∀ c ∈ newGUID (some b) now, isLowerHex c = true) ∧
    ∀ (b2 : List Nat) (now2 : Time), b2.length = 16 → (∀ x ∈ b2, x < 256) → b ≠ b2 →
      newGUID (some b) now ≠ newGUID (some b2) now2 := by
  refine ⟨?_, ?_, ?_⟩
  · simp only [newGUID, hexEncode_length, hlen]
  · exact hexEncode_isLowerHex b hb
  · intro b2 now2 hl2 hb2 hne he
    exact hne (hexEncode_inj b b2 hb hb2 (by rw [hlen, hl2]) he)

/-- Witness of C25: the bytes 0, 1, ..., 15. -/
theorem C25_newGUID_witness :
    (newGUID (some [0, 1, 2, 3, 4, 5, 6, 7, 8, 9, 10, 11, 12, 13, 14, 15]) {}).length = 32 :=
  (C25_newGUID [0, 1, 2, 3, 4, 5, 6, 7, 8, 9, 10, 11, 12, 13, 14, 15] {} rfl
    (by decide)).1

/-! ## lastReceived -/

/-- The round of the client read loop that routes a sync response to its waiter. -/
theorem Client.readLoopStep_sync (c : Client) (conn : Conn) (now : Time)
    (msg : Message) (payload rest : List Nat) (ch : Nat)
    (hdone : c.done = false) (hconn : c.conn = some conn)
    (hframe : readFrame conn.incoming = .frame msg payload rest)
    (hsync : msg.SyncResponse = true) (hguid : msg.ConversationGUID ≠ [])
    (hwait : mapLoad c.respMap msg.ConversationGUID = some ch) :
    c.readLoopStep now =
      ({ c with
          conn := some { conn with incoming := rest }
          stats := (c.stats.IncrementReceivedMessages).AddReceivedBytes (payload.length : Int)
          respMap := mapDelete c.respMap msg.ConversationGUID },
        [.chanSend ch msg payload, .chanClose ch], .next) := by
  obtain ⟨r0, hp, hneg, hr⟩ := readFrame_frame _ _ _ _ hframe
  unfold Client.readLoopStep
  simp only [hdone, hconn, hp, hsync, hneg, hr, hguid, hwait, Bool.false_eq_true, if_false,
    and_false, ne_eq, not_false_eq_true, and_self, if_true, reduceCtorEq]

/-- C28, what the code does.  A round of the client read loop that routes a sync response
to its waiter raises the received counters but leaves `lastReceived` as it was: the
`continue` of that branch comes before the update. -/
theorem C28_sync_response_keeps_lastReceived (c : Client) (conn : Conn) (now : Time)
    (msg : Message) (payload rest : List Nat) (ch : Nat)
    (hdone : c.done = false) (hconn : c.conn = some conn)
    (hframe : readFrame conn.incoming = .frame msg payload rest)
    (hsync : msg.SyncResponse = true) (hguid : msg.ConversationGUID ≠ [])
    (hwait : mapLoad c.respMap msg.ConversationGUID = some ch) :
    (c.readLoopStep now).1.lastReceived = c.lastReceived ∧
    (c.readLoopStep now).1.stats =
      (c.stats.IncrementReceivedMessages).AddReceivedBytes (payload.length : Int) ∧
    (c.readLoopStep now).2.2 = .next := by
  rw [Client.readLoopStep_sync c conn now msg payload rest ch hdone hconn hframe hsync hguid
    hwait]
  exact ⟨rfl, rfl, rfl⟩

set_option maxRecDepth 100000 in
/-- Witness of C28: a client with `lastReceived` in the year 2025 and a waiter under the
id `g` reads the reply `pong` in the year 2026. -/
theorem C28_sync_response_keeps_lastReceived_witness :
    (Client.readLoopStep
      { conn := some { incoming := headerOf { SyncResponse := true, ConversationGUID := [0x67], ContentLength := 4 } ++ [0x70, 0x6F, 0x6E, 0x67] }
        respMap := [([0x67], 7)]
        lastReceived := { year := 2025 } } { year := 2026 }).1.lastReceived = { year := 2025 } :=
  (C28_sync_response_keeps_lastReceived
    { conn := some { incoming := headerOf { SyncResponse := true, ConversationGUID := [0x67], ContentLength := 4 } ++ [0x70, 0x6F, 0x6E, 0x67] }
      respMap := [([0x67], 7)]
      lastReceived := { year := 2025 } }
    { incoming := headerOf { SyncResponse := true, ConversationGUID := [0x67], ContentLength := 4 } ++ [0x70, 0x6F, 0x6E, 0x67] }
    { year := 2026 } { SyncResponse := true, ConversationGUID := [0x67], ContentLength := 4 }
    [0x70, 0x6F, 0x6E, 0x67] [] 7 rfl rfl (by decide) rfl (by decide) (by decide)).1

/-! ## The length field of a header -/

theorem EncodeRune_ne_nil (r : Nat) : EncodeRune r ≠ [] := by
  unfold EncodeRune
  split_ifs <;> simp

theorem coerceUTF8_ne_nil (s : List Nat) (hs : s ≠ []) : coerceUTF8 s ≠ [] := by
  cases s with
  | nil => exact absurd rfl hs
  | cons b r =>
    intro h
    simp only [coerceUTF8, coerceUTF8Aux, List.append_eq_nil] at h
    exact EncodeRune_ne_nil _ h.1

/-- A round of the read loop does not change what has been written to the connection. -/
theorem Client.readLoopStep_written (c : Client) (now : Time) (k : Conn)
    (hc : c.conn = some k) :
    ∃ k1, (c.readLoopStep now).1.conn = some k1 ∧ k1.written = k.written := by
  unfold Client.readLoopStep
  by_cases hd : c.done = true
  · rw [if_pos hd]
    exact ⟨k, hc, rfl⟩
  rw [if_neg hd]
  simp only [hc]
  cases hp : ParseHeader (some k.incoming) with
  | mk res rest =>
    cases res with
    | error e => exact ⟨_, rfl, rfl⟩
    | ok msg =>
      simp only
      cases hs : (if c.callbacks.OnMessage = false ∧ msg.SyncResponse = false
          then c.callbacks.OnStream else none) with
      | some onStream => exact ⟨_, rfl, rfl⟩
      | none =>
        simp only
        by_cases hneg : makePanics msg.ContentLength = true
        · rw [if_pos hneg]
          exact ⟨_, rfl, rfl⟩
        rw [if_neg hneg]
        cases hr : ReadFull rest msg.ContentLength.toNat with
        | mk res1 rest1 =>
          cases res1 with
          | error e => exact ⟨_, rfl, rfl⟩
          | ok payload =>
            simp only
            cases hl : (if msg.SyncResponse = true ∧ msg.ConversationGUID ≠ []
                then mapLoad c.respMap msg.ConversationGUID else none) with
            | none => exact ⟨_, rfl, rfl⟩
            | some ch => exact ⟨_, rfl, rfl⟩

theorem Client.envSteps_written (env : List EnvStep) (c : Client) (k : Conn)
    (hc : c.conn = some k) :
    ∃ k1, (c.envSteps env).1.conn = some k1 ∧ k1.written = k.written := by
  induction env generalizing c k with
  | nil => exact ⟨k, hc, rfl⟩
  | cons e es ih =>
    have hstep : ∃ k1, (c.envStep e).1.conn = some k1 ∧ k1.written = k.written := by
      cases e with
      | readRound now => exact Client.readLoopStep_written c now k hc
      | store g ch1 => exact ⟨k, hc, rfl⟩
      | delete g => exact ⟨k, hc, rfl⟩
    obtain ⟨k1, h1, h2⟩ := hstep
    obtain ⟨k2, h3, h4⟩ := ih (c.envStep e).1 k1 h1
    exact ⟨k2, h3, by rw [h4, h2]⟩

theorem syncGUID_ne_nil (m : Message) (fresh : List Nat) (hf : fresh ≠ []) :
    syncGUID m fresh ≠ [] := by
  unfold syncGUID
  split_ifs with h
  · exact hf
  · exact h

/-- The `Send` of `SendSync` on an open connection, when the header can be built: the
header and the payload are written. -/
theorem Client.Send_open (c : Client) (conn : Conn) (m : Message) (data : List Nat) (now : Time)
    (header : List Nat) (hconn : c.conn = some conn) (hopen : conn.closed = false)
    (hb : BuildHeader (some { m with ContentLength := (data.length : Int)
                                     TimestampUtc := now }) = .ok header) :
    (c.Send (some m) data now).2.2 = .ok ∧
    (c.Send (some m) data now).1.conn =
      some { conn with written := conn.written ++ header ++ data } := by
  obtain ⟨inc, wr, cl⟩ := conn
  simp only at hopen
  subst hopen
  unfold Client.Send
  simp only [hconn, hb, Conn.Write, Bool.false_eq_true, if_false]
  by_cases hd : 0 < data.length
  · simp only [hd, if_true]
    first | done | exact ⟨rfl, rfl⟩ | simp
  · have : data = [] := by
      cases data with
      | nil => rfl
      | cons x r => simp at hd
    subst this
    simp

set_option maxRecDepth 100000 in
/-- C23, where the claim fails.  For a message that the caller passes with
`SyncResponse = true`, the header `SendSync` writes has `SyncRequest = true` and
`SyncResponse = true`. -/
theorem C23_counterexample :
    (Client.SendSync { conn := some {} } (some { SyncResponse := true }) [] [0x66] 7 {} []
      true false).1.conn.map (fun k => (ParseHeader (some k.written)).1.map
        (fun p => (p.SyncRequest, p.SyncResponse))) = some (.ok (true, true)) := by
  decide

/-- The members `len`, `syncreq`, `syncresp` and `convguid` of the object written for a
message hold the fields of the message. -/
theorem Message.toJSON_members (m : Message) (j : JSON) (h : m.toJSON = some j) :
    j.member keyLen = some (.num (formatInt m.ContentLength)) ∧
    j.member keySyncreq = some (.bool m.SyncRequest) ∧
    j.member keySyncresp = some (.bool m.SyncResponse) ∧
    j.member keyConvguid = some (.str m.ConversationGUID) := by
  unfold Message.toJSON at h
  cases hfmt : m.TimestampUtc.format with
  | none => simp [hfmt] at h
  | some ts =>
    rw [hfmt] at h
    simp only at h
    have hexp : ∃ exp, expMember m.ExpirationUtc = some exp ∧
        (exp = [] ∨ ∃ x, exp = [(keyExp, x)]) := by
      cases hE : m.ExpirationUtc with
      | none => exact ⟨[], rfl, Or.inl rfl⟩
      | some t =>
        simp only [expMember]
        cases hf : t.format with
        | none => rw [hE] at h; simp [expMember, hf] at h
        | some tx => exact ⟨_, rfl, Or.inr ⟨_, rfl⟩⟩
    obtain ⟨exp, hex, hform⟩ := hexp
    rw [hex] at h
    simp only [Option.some.injEq] at h
    subst h
    have k1 : decide (keyLen = keySyncreq) = false := by decide
    have k2 : decide (keyLen = keySyncresp) = false := by decide
    have k3 : decide (keyLen = keyConvguid) = false := by decide
    have k4 : decide (keyPsk = keySyncreq) = false := by decide
    have k5 : decide (keyPsk = keySyncresp) = false := by decide
    have k6 : decide (keyPsk = keyConvguid) = false := by decide
    have k7 : decide (keyStatus = keySyncreq) = false := by decide
    have k8 : decide (keyStatus = keySyncresp) = false := by decide
    have k9 : decide (keyStatus = keyConvguid) = false := by decide
    have k10 : decide (keyMd = keySyncreq) = false := by decide
    have k11 : decide (keyMd = keySyncresp) = false := by decide
    have k12 : decide (keyMd = keyConvguid) = false := by decide
    have k13 : decide (keySyncreq = keySyncresp) = false := by decide
    have k14 : decide (keySyncreq = keyConvguid) = false := by decide
    have k15 : decide (keySyncresp = keyConvguid) = false := by decide
    have k16 : decide (keyTs = keyConvguid) = false := by decide
    have k17 : decide (keyExp = keyConvguid) = false := by decide
    rcases hform with rfl | ⟨x, rfl⟩ <;>
      by_cases hp : m.PresharedKey = [] <;> by_cases hmd : m.Metadata = [] <;>
      simp [JSON.member, List.find?, hp, hmd, k1, k2, k3, k4, k5, k6, k7, k8, k9, k10, k11,
        k12, k13, k14, k15, k16, k17]

/-- C23, amended.  For every message the caller passes to `SendSync` on an open
connection, the header `SendSync` puts on the wire (when it can be built) is the JSON
text of an object whose member `syncreq` is `true`, whose member `syncresp` is the
`SyncResponse` the caller set, and whose member `convguid` is a non-empty string: the
caller's `ConversationGUID` when it was non-empty, a generated one otherwise.  When the
metadata of the message can be read back, `ParseHeader` returns from that header a
message with `SyncRequest = true`, `SyncResponse` as the caller set it and that
`ConversationGUID` (as the JSON encoder writes it, coerced to valid UTF-8). -/
theorem C23_SendSync_header (c : Client) (conn : Conn) (m : Message) (data fresh : List Nat)
    (ch : Nat) (now : Time) (env : List EnvStep) (cancelled pickDone : Bool)
    (header : List Nat) (hconn : c.conn = some conn) (hopen : conn.closed = false)
    (hm : m.wf) (hnow : now.wf) (hlen : (data.length : Int) < 2 ^ 63) (hfresh : fresh ≠ [])
    (hb : BuildHeader (some { m with ConversationGUID := syncGUID m fresh
                                     SyncRequest := true
                                     ContentLength := (data.length : Int)
                                     TimestampUtc := now }) = .ok header) :
    (∃ conn1, (c.SendSync (some m) data fresh ch now env cancelled pickDone).1.conn =
        some conn1 ∧ conn1.written = conn.written ++ header ++ data) ∧
    (∃ (j : JSON) (js : List Nat), j.render = some js ∧ header = js ++ terminator ∧
      j.member keySyncreq = some (.bool true) ∧
      j.member keySyncresp = some (.bool m.SyncResponse) ∧
      j.member keyConvguid = some (.str (syncGUID m fresh)) ∧
      syncGUID m fresh ≠ [] ∧
      (m.ConversationGUID ≠ [] → syncGUID m fresh = m.ConversationGUID) ∧
      (m.ConversationGUID = [] → syncGUID m fresh = fresh)) ∧
    (m.mdReadable →
      ∃ p, ParseHeader (some (header ++ data)) = (.ok p, data) ∧
        p.SyncRequest = true ∧ p.SyncResponse = m.SyncResponse ∧ p.ConversationGUID ≠ [] ∧
        (m.ConversationGUID ≠ [] → p.ConversationGUID = coerceUTF8 m.ConversationGUID) ∧
        (m.ConversationGUID = [] → p.ConversationGUID = coerceUTF8 fresh)) := by
  refine ⟨?_, ?_, ?_⟩
  · obtain ⟨hs1, hs2⟩ := Client.Send_open
      { c with respMap := mapStore c.respMap (syncGUID m fresh) ch } conn
      { m with ConversationGUID := syncGUID m fresh, SyncRequest := true } data now header
      hconn hopen hb
    unfold Client.SendSync
    simp only
    cases hs : Client.Send { c with respMap := mapStore c.respMap (syncGUID m fresh) ch }
        (some { m with ConversationGUID := syncGUID m fresh, SyncRequest := true }) data now with
    | mk c1 r =>
      obtain ⟨m1, res⟩ := r
      rw [hs] at hs1 hs2
      simp only at hs1 hs2
      subst hs1
      simp only
      obtain ⟨k1, hk1, hk2⟩ := Client.envSteps_written env c1 _ hs2
      refine ⟨k1, ?_, hk2⟩
      cases hr : received ch (c1.envSteps env).2 with
      | some x =>
        obtain ⟨resp, payload⟩ := x
        simp only
        by_cases hcp : (cancelled && pickDone) = true
        · rw [if_pos hcp]; exact hk1
        · rw [if_neg hcp]; exact hk1
      | none =>
        simp only
        by_cases hcc : cancelled = true
        · rw [if_pos hcc]; exact hk1
        · rw [if_neg hcc]; exact hk1
  · obtain ⟨bs, hmar, hh⟩ := BuildHeader_ok _ _ hb
    unfold Marshal at hmar
    cases hj : Message.toJSON { m with ConversationGUID := syncGUID m fresh
                                       SyncRequest := true
                                       ContentLength := (data.length : Int)
                                       TimestampUtc := now } with
    | none => simp [hj] at hmar
    | some j =>
      rw [hj] at hmar
      simp only at hmar
      obtain ⟨_, m1, m2, m3⟩ := Message.toJSON_members _ j hj
      refine ⟨j, bs, hmar, hh, m1, m2, m3, syncGUID_ne_nil m fresh hfresh, ?_, ?_⟩
      · intro hg
        rw [syncGUID, if_neg hg]
      · intro hg
        rw [syncGUID, if_pos hg]
  · intro hmd
    obtain ⟨hlo, hhi, hpsk, hts, hexp⟩ := hm
    have hw : Message.wf { m with ConversationGUID := syncGUID m fresh
                                  SyncRequest := true
                                  ContentLength := (data.length : Int)
                                  TimestampUtc := now } :=
      ⟨by show -(2 ^ 63 : Int) ≤ (data.length : Int); omega, hlen, hpsk, hnow, hexp⟩
    have hmd1 : Message.mdReadable { m with ConversationGUID := syncGUID m fresh
                                            SyncRequest := true
                                            ContentLength := (data.length : Int)
                                            TimestampUtc := now } := hmd
    refine ⟨_, ParseHeader_BuildHeader _ header data hb hw hmd1, rfl, rfl, ?_, ?_, ?_⟩
    · exact coerceUTF8_ne_nil _ (syncGUID_ne_nil m fresh hfresh)
    · intro hg
      show coerceUTF8 (syncGUID m fresh) = _
      rw [syncGUID, if_neg hg]
    · intro hg
      show coerceUTF8 (syncGUID m fresh) = _
      rw [syncGUID, if_pos hg]

set_option maxRecDepth 100000 in
/-- Witness of C23: a call with an empty message and the payload `ping`. -/
theorem C23_SendSync_header_witness :
    ∃ p, ParseHeader (some (headerOf { ConversationGUID := [0x66], SyncRequest := true, ContentLength := 4 } ++ [0x70, 0x69, 0x6E, 0x67])) =
        (.ok p, [0x70, 0x69, 0x6E, 0x67]) ∧
      p.SyncRequest = true ∧ p.SyncResponse = false ∧ p.ConversationGUID ≠ [] ∧
      (([] : List Nat) ≠ [] → p.ConversationGUID = coerceUTF8 []) ∧
      (([] : List Nat) = [] → p.ConversationGUID = coerceUTF8 [0x66]) :=
  (C23_SendSync_header { conn := some {} } {} {} [0x70, 0x69, 0x6E, 0x67] [0x66] 7 {} [] true
    false (headerOf { ConversationGUID := [0x66], SyncRequest := true, ContentLength := 4 })
    rfl rfl (by decide) (by decide) (by decide) (by decide) (by decide)).2.2 (by decide)

/-! ## The idle sweep -/

/-- C24, what the code does.  With `idleTimeout = 0` the sweep selects every connection
whose `lastActive` lies before the sweep time: `monitorLoop` compares
`now.Sub(c.lastActive) > s.idleTimeout` and has no check for a timeout of zero. -/
theorem C24_zero_timeout_selects_idle (s : Server) (now : Time) (id : List Nat)
    (cc : ClientConn) (h0 : s.idleTimeout = 0) (hmem : (id, cc) ∈ s.conns)
    (hidle : 0 < now.Sub cc.lastActive) : id ∈ s.toClose now := by
  unfold Server.toClose
  rw [List.mem_map]
  refine ⟨(id, cc), ?_, rfl⟩
  rw [List.mem_filter]
  exact ⟨hmem, by simpa [h0] using hidle⟩

set_option maxRecDepth 100000 in
/-- Witness of C24: a connection last active one second before the sweep. -/
theorem C24_zero_timeout_selects_idle_witness :
    [0x61] ∈ Server.toClose
      { conns := [([0x61], { conn := 0, lastActive := { year := 2025 } })] }
      { year := 2025, second := 1 } :=
  C24_zero_timeout_selects_idle
    { conns := [([0x61], { conn := 0, lastActive := { year := 2025 } })] }
    { year := 2025, second := 1 } [0x61] { conn := 0, lastActive := { year := 2025 } } rfl
    (by decide) (by decide)

/-! ## Streaming and buffered delivery -/

theorem connsLoad_connsPut (m : List (List Nat × ClientConn)) (id : List Nat)
    (cc c1 : ClientConn) (h : connsLoad m id = some cc) :
    connsLoad (connsPut m id c1) id = some c1 := by
  induction m with
  | nil => simp [connsLoad] at h
  | cons e es ih =>
    rw [connsLoad_cons] at h
    have hm : connsPut (e :: es) id c1 =
        (if e.1 = id then (e.1, c1) else e) :: connsPut es id c1 := rfl
    rw [hm, connsLoad_cons]
    by_cases he : e.1 = id
    · simp [he]
    · rw [if_neg he] at h
      simp [he, ih h]

set_option maxRecDepth 100000 in
/-- C26, where the claim fails.  With `OnStream` set and `OnMessage` not set, the server
streams a frame that is a sync response, which the rule says to buffer and which the
client buffers. -/
theorem C26_counterexample :
    (Server.handleConnStep
      { conns := [([0x61], { conn := 0, lastActive := {}, stream := { incoming := headerOf { SyncResponse := true, ContentLength := 2 } ++ [1, 2] } })]
        callbacks := { OnStream := some (fun _ _ => .read 2 2 (fun _ => .ret)) } }
      [0x61] {}).2.1 = [.onStream [0x61] { SyncResponse := true, ContentLength := 2 } [1, 2]] ∧
    streamRule true false { SyncResponse := true, ContentLength := 2 } = false ∧
    (Client.readLoopStep
      { conn := some { incoming := headerOf { SyncResponse := true, ContentLength := 2 } ++ [1, 2] }
        callbacks := { OnStream := some (fun _ => .read 2 2 (fun _ => .ret)) } }
      {}).2.1 = [] := by
  refine ⟨by decide, by decide, by decide⟩

/-- C26, amended.  On every frame, the server read loop streams the payload exactly when
`OnStream` is set and `OnMessage` is not set, whether or not the frame is a sync
response, and takes the buffered branch otherwise; the client read loop streams exactly
when `OnStream` is set, `OnMessage` is not set and the frame is not a sync response.  So
the server follows the rule of the client on every frame that is not a sync response. -/
theorem C26_dispatch_rules (s : Server) (id : List Nat) (cc : ClientConn) (c : Client)
    (conn : Conn) (now : Time) (msg : Message) (rest : List Nat)
    (hrec : connsLoad s.conns id = some cc)
    (hps : ParseHeader (some cc.stream.incoming) = (.ok msg, rest))
    (hdone : c.done = false) (hconn : c.conn = some conn)
    (hpc : ParseHeader (some conn.incoming) = (.ok msg, rest)) :
    ((∃ read, (s.handleConnStep id now).2.1 = [.onStream id msg read]) ↔
      (s.callbacks.OnStream.isSome = true ∧ s.callbacks.OnMessage = false)) ∧
    ((∃ read, (c.readLoopStep now).2.1 = [.onStream msg read]) ↔
      streamRule c.callbacks.OnStream.isSome c.callbacks.OnMessage msg = true) ∧
    (msg.SyncResponse = false →
      ((∃ read, (s.handleConnStep id now).2.1 = [.onStream id msg read]) ↔
        streamRule s.callbacks.OnStream.isSome s.callbacks.OnMessage msg = true)) := by
  have hserver : (∃ read, (s.handleConnStep id now).2.1 = [.onStream id msg read]) ↔
      (s.callbacks.OnStream.isSome = true ∧ s.callbacks.OnMessage = false) := by
    unfold Server.handleConnStep
    simp only [hrec, hps]
    cases hm : s.callbacks.OnMessage with
    | true =>
      simp only [Bool.true_eq_false, if_false, and_false, iff_false, not_exists]
      intro read
      by_cases hneg : makePanics msg.ContentLength = true
      · rw [if_pos hneg]
        simp [Server.handleConnExit]
      · rw [if_neg hneg]
        cases ReadFull rest msg.ContentLength.toNat with
        | mk res r1 =>
          cases res with
          | error e => simp [Server.handleConnExit]
          | ok p => simp
    | false =>
      cases ho : s.callbacks.OnStream with
      | some f => simp
      | none =>
        simp only [if_true, Option.isSome_none, Bool.false_eq_true, false_and, iff_false,
          not_exists]
        intro read
        by_cases hneg : makePanics msg.ContentLength = true
        · rw [if_pos hneg]
          simp [Server.handleConnExit]
        · rw [if_neg hneg]
          cases ReadFull rest msg.ContentLength.toNat with
          | mk res r1 =>
            cases res with
            | error e => simp [Server.handleConnExit]
            | ok p => simp
  have hclient : (∃ read, (c.readLoopStep now).2.1 = [.onStream msg read]) ↔
      streamRule c.callbacks.OnStream.isSome c.callbacks.OnMessage msg = true := by
    unfold Client.readLoopStep streamRule
    simp only [hdone, Bool.false_eq_true, if_false, hconn, hpc]
    by_cases hcond : c.callbacks.OnMessage = false ∧ msg.SyncResponse = false
    · rw [if_pos hcond]
      cases ho : c.callbacks.OnStream with
      | some f => simp [hcond.1, hcond.2]
      | none =>
        simp only [Option.isSome_none, Bool.false_and, Bool.false_eq_true, iff_false,
          not_exists]
        intro read
        by_cases hneg : makePanics msg.ContentLength = true
        · rw [if_pos hneg]
          simp
        · rw [if_neg hneg]
          cases ReadFull rest msg.ContentLength.toNat with
          | mk res r1 =>
            cases res with
            | error e => simp
            | ok p =>
              simp only
              cases (if msg.SyncResponse = true ∧ msg.ConversationGUID ≠ []
                  then mapLoad c.respMap msg.ConversationGUID else none) with
              | none => simp [hcond.1]
              | some ch => simp
    · rw [if_neg hcond]
      have hrhs : (c.callbacks.OnStream.isSome && !c.callbacks.OnMessage &&
          !msg.SyncResponse) = false := by
        cases h1 : c.callbacks.OnMessage <;> cases h2 : msg.SyncResponse <;>
          simp [h1, h2] at hcond ⊢
      rw [hrhs]
      simp only [Bool.false_eq_true, iff_false, not_exists]
      intro read
      by_cases hneg : makePanics msg.ContentLength = true
      · rw [if_pos hneg]
        simp
      · rw [if_neg hneg]
        cases ReadFull rest msg.ContentLength.toNat with
        | mk res r1 =>
          cases res with
          | error e => simp
          | ok p =>
            simp only
            cases (if msg.SyncResponse = true ∧ msg.ConversationGUID ≠ []
                then mapLoad c.respMap msg.ConversationGUID else none) with
            | none =>
              simp only
              split_ifs <;> simp
            | some ch => simp
  refine ⟨hserver, hclient, ?_⟩
  intro hsync
  rw [hserver]
  unfold streamRule
  cases s.callbacks.OnStream.isSome <;> cases s.callbacks.OnMessage <;> simp [hsync]

set_option maxRecDepth 100000 in
/-- Witness of C26: a frame of two bytes that is no sync response, with `OnStream` set
and `OnMessage` not set on both sides. -/
theorem C26_dispatch_rules_witness :
    ∃ read, (Server.handleConnStep
      { conns := [([0x61], { conn := 0, lastActive := {}, stream := { incoming := headerOf { ContentLength := 2 } ++ [1, 2] } })]
        callbacks := { OnStream := some (fun _ _ => .read 2 2 (fun _ => .ret)) } }
      [0x61] {}).2.1 = [.onStream [0x61] { ContentLength := 2 } read] :=
  (C26_dispatch_rules
    { conns := [([0x61], { conn := 0, lastActive := {}, stream := { incoming := headerOf { ContentLength := 2 } ++ [1, 2] } })]
      callbacks := { OnStream := some (fun _ _ => .read 2 2 (fun _ => .ret)) } }
    [0x61]
    { conn := 0, lastActive := {}, stream := { incoming := headerOf { ContentLength := 2 } ++ [1, 2] } }
    { conn := some { incoming := headerOf { ContentLength := 2 } ++ [1, 2] }
      callbacks := { OnStream := some (fun _ => .read 2 2 (fun _ => .ret)) } }
    { incoming := headerOf { ContentLength := 2 } ++ [1, 2] }
    {} { ContentLength := 2 } [1, 2] (by decide) (by decide) rfl rfl (by decide)).1.mpr
    ⟨rfl, rfl⟩

/-- A run of a callback on a limited reader whose count is within what the stream
holds: what the callback has read and what the stream still holds make up the stream,
and the count has gone down by the number of bytes read, not below zero. -/
theorem LimitedReader.run_inv (cb : Reads) :
    ∀ l : LimitedReader, 0 ≤ l.N → l.N ≤ (l.R.length : Int) →
      (LimitedReader.run cb l).1 ++ (LimitedReader.run cb l).2.R = l.R ∧
      (LimitedReader.run cb l).2.N = l.N - ((LimitedReader.run cb l).1.length : Int) ∧
      0 ≤ (LimitedReader.run cb l).2.N := by
  induction cb with
  | ret =>
    intro l h0 _
    simp only [LimitedReader.run, List.nil_append, List.length_nil, Nat.cast_zero, sub_zero]
    exact ⟨trivial, trivial, h0⟩
  | read k ready next ih =>
    intro l h0 h1
    obtain ⟨R, N⟩ := l
    simp only at h0 h1
    simp only [LimitedReader.run]
    by_cases hN : N ≤ 0
    · have hr : LimitedReader.Read { R := R, N := N } k ready =
          (.error .EOF, { R := R, N := N }) := by
        unfold LimitedReader.Read
        rw [if_pos hN]
      rw [hr]
      simp only [List.nil_append]
      exact ih _ _ h0 h1
    · by_cases hk : (if N < (k : Int) then N.toNat else k) = 0
      · have hr : LimitedReader.Read { R := R, N := N } k ready =
            (.ok [], { R := R, N := N }) := by
          unfold LimitedReader.Read
          rw [if_neg hN]
          simp only [connRead, hk, if_true, List.length_nil, Nat.cast_zero, sub_zero]
        rw [hr]
        simp only [List.nil_append]
        exact ih _ _ h0 h1
      · have hR : R ≠ [] := by
          intro h
          rw [h] at h1
          simp at h1
          omega
        have hk1 : (if N < (k : Int) then N.toNat else k) ≤ R.length ∧
            (((if N < (k : Int) then N.toNat else k) : Nat) : Int) ≤ N := by
          split_ifs <;> constructor <;> omega
        obtain ⟨t, ht⟩ : ∃ t, t = min (if N < (k : Int) then N.toNat else k) (max ready 1) :=
          ⟨_, rfl⟩
        have hle : t ≤ R.length := by
          rw [ht]
          exact le_trans (Nat.min_le_left _ _) hk1.1
        have hleN : (t : Int) ≤ N := by
          rw [ht]
          exact le_trans (Int.ofNat_le.mpr (Nat.min_le_left _ _)) hk1.2
        have hr : LimitedReader.Read { R := R, N := N } k ready =
            (.ok (R.take t), { R := R.drop t, N := N - (t : Int) }) := by
          unfold LimitedReader.Read
          rw [if_neg hN]
          simp only [connRead, hk, if_false, hR, ← ht, List.length_take, Nat.min_eq_left hle]
        rw [hr]
        simp only
        obtain ⟨i1, i2, i3⟩ := ih (.ok (R.take t)) { R := R.drop t, N := N - (t : Int) }
          (by simp only; omega)
          (by simp only [List.length_drop]; omega)
        simp only at i1 i2 i3
        refine ⟨?_, ?_, i3⟩
        · rw [List.append_assoc, i1, List.take_append_drop]
        · rw [i2, List.length_append, List.length_take, Nat.min_eq_left hle]
          push_cast
          omega

/-- The streaming delivery of a payload that the stream holds in full: what the callback
has read is a prefix of the payload, and afterwards the stream holds exactly the bytes
that follow the payload. -/
theorem streamPayload_frame (cb : Reads) (payload next : List Nat) :
    (streamPayload cb (payload ++ next) (payload.length : Int)).1 <+: payload ∧
    (streamPayload cb (payload ++ next) (payload.length : Int)).2 = next := by
  obtain ⟨i1, i2, i3⟩ := LimitedReader.run_inv cb
    { R := payload ++ next, N := (payload.length : Int) }
    (by simp) (by simp)
  simp only at i1 i2 i3
  unfold streamPayload
  generalize LimitedReader.run cb { R := payload ++ next, N := (payload.length : Int) } = res
    at i1 i2 i3
  obtain ⟨bs, l⟩ := res
  simp only at i1 i2 i3 ⊢
  have hlen : bs.length ≤ payload.length := by omega
  have hpre : bs <+: payload := by
    have h1 : bs <+: payload ++ next := ⟨l.R, i1⟩
    have h2 : payload <+: payload ++ next := List.prefix_append _ _
    exact List.prefix_of_prefix_length_le h1 h2 hlen
  have hR : l.R = (payload ++ next).drop bs.length := by
    rw [← i1, List.drop_left]
  refine ⟨hpre, ?_⟩
  by_cases hpos : 0 < l.N
  · rw [if_pos hpos]
    simp only [discardN]
    rw [hR, List.drop_drop]
    have : bs.length + l.N.toNat = payload.length := by omega
    rw [Nat.add_comm] at this
    first
      | rw [this, List.drop_left]
      | (rw [Nat.add_comm] at this; rw [this, List.drop_left])
  · rw [if_neg hpos]
    have : bs.length = payload.length := by omega
    rw [hR, this, List.drop_left]

/-- C27. On the streaming path of the client and of the server read loop, for every frame
with `ContentLength = n ≥ 0` that is followed on the stream by its `n` payload bytes, and
for every `OnStream` callback: what the callback reads from the limited reader it is
given is a prefix of the payload, so at most `n` bytes, and after the discard step the
connection holds exactly the bytes that follow the payload, so the next header is parsed
from the first byte of the next frame. -/
theorem C27_streaming_consumes_frame (msg : Message) (payload next : List Nat) (now : Time)
    (hlen : (payload.length : Int) = msg.ContentLength) :
    (∀ (c : Client) (conn : Conn) (f : Message → Reads),
      c.done = false → c.conn = some conn → c.callbacks.OnStream = some f →
      c.callbacks.OnMessage = false → msg.SyncResponse = false →
      ParseHeader (some conn.incoming) = (.ok msg, payload ++ next) →
      ∃ read, (c.readLoopStep now).2.1 = [.onStream msg read] ∧ read <+: payload ∧
        (read.length : Int) ≤ msg.ContentLength ∧
        (c.readLoopStep now).1.conn = some { conn with incoming := next } ∧
        (c.readLoopStep now).2.2 = .next) ∧
    (∀ (s : Server) (id : List Nat) (cc : ClientConn)
      (f : List Nat → Message → Reads),
      connsLoad s.conns id = some cc → s.callbacks.OnStream = some f →
      s.callbacks.OnMessage = false →
      ParseHeader (some cc.stream.incoming) = (.ok msg, payload ++ next) →
      ∃ read, (s.handleConnStep id now).2.1 = [.onStream id msg read] ∧ read <+: payload ∧
        (read.length : Int) ≤ msg.ContentLength ∧
        (connsLoad (s.handleConnStep id now).1.conns id).map (fun r => r.stream.incoming) =
          some next ∧
        (s.handleConnStep id now).2.2 = .next) := by
  constructor
  · intro c conn f hdone hconn hos hom hsync hp
    obtain ⟨h1, h2⟩ := streamPayload_frame (f msg) payload next
    rw [hlen] at h1 h2
    refine ⟨(streamPayload (f msg) (payload ++ next) msg.ContentLength).1, ?_, h1, ?_, ?_, ?_⟩
    · unfold Client.readLoopStep
      simp only [hdone, Bool.false_eq_true, if_false, hconn, hp, hom, hsync, and_self, if_true,
        hos]
    · have hle := h1.length_le
      rw [← hlen]
      rw [← hlen] at hle
      exact Int.ofNat_le.mpr hle
    · unfold Client.readLoopStep
      simp only [hdone, Bool.false_eq_true, if_false, hconn, hp, hom, hsync, and_self, if_true,
        hos, h2]
    · unfold Client.readLoopStep
      simp only [hdone, Bool.false_eq_true, if_false, hconn, hp, hom, hsync, and_self, if_true,
        hos]
  · intro s id cc f hrec hos hom hp
    obtain ⟨h1, h2⟩ := streamPayload_frame (f id msg) payload next
    rw [hlen] at h1 h2
    refine ⟨(streamPayload (f id msg) (payload ++ next) msg.ContentLength).1, ?_, h1, ?_, ?_, ?_⟩
    · unfold Server.handleConnStep
      simp only [hrec, hp, hom, if_true, hos]
    · have hle := h1.length_le
      rw [← hlen]
      rw [← hlen] at hle
      exact Int.ofNat_le.mpr hle
    · unfold Server.handleConnStep
      simp only [hrec, hp, hom, if_true, hos, h2]
      rw [connsLoad_connsPut _ _ cc _ hrec]
      rfl
    · unfold Server.handleConnStep
      simp only [hrec, hp, hom, if_true, hos]

set_option maxRecDepth 100000 in
/-- Witness of C27: a frame of four bytes followed by the next header, and a callback
that reads two bytes. -/
theorem C27_streaming_consumes_frame_witness :
    ∃ read, (Client.readLoopStep
      { conn := some { incoming := headerOf { ContentLength := 4 } ++ ([1, 2, 3, 4] ++ headerOf {}) }
        callbacks := { OnStream := some (fun _ => .read 2 2 (fun _ => .ret)) } } {}).2.1 =
        [.onStream { ContentLength := 4 } read] ∧ read <+: [1, 2, 3, 4] ∧
      (read.length : Int) ≤ 4 ∧
      (Client.readLoopStep
        { conn := some { incoming := headerOf { ContentLength := 4 } ++ ([1, 2, 3, 4] ++ headerOf {}) }
          callbacks := { OnStream := some (fun _ => .read 2 2 (fun _ => .ret)) } } {}).1.conn =
        some { incoming := headerOf {} } ∧
      (Client.readLoopStep
        { conn := some { incoming := headerOf { ContentLength := 4 } ++ ([1, 2, 3, 4] ++ headerOf {}) }
          callbacks := { OnStream := some (fun _ => .read 2 2 (fun _ => .ret)) } } {}).2.2 = .next :=
  (C27_streaming_consumes_frame { ContentLength := 4 } [1, 2, 3, 4] (headerOf {}) {}
    rfl).1
    { conn := some { incoming := headerOf { ContentLength := 4 } ++ ([1, 2, 3, 4] ++ headerOf {}) }
      callbacks := { OnStream := some (fun _ => .read 2 2 (fun _ => .ret)) } }
    { incoming := headerOf { ContentLength := 4 } ++ ([1, 2, 3, 4] ++ headerOf {}) }
    (fun _ => .read 2 2 (fun _ => .ret)) rfl rfl rfl rfl rfl (by decide)

end WatsonTcp
